import Mathlib

/-!
# Penglai secure monitor: enclave registry and enclave lifecycle

Shallow embedding of `src/sm/enclave.c`.

* Pointers to `struct link_mem_t` are indices into an arena (`registry_t.link_mem`);
  `NULL` is `none`.  `mm_alloc` hands out the next unused index, or fails.
* A pointer to a `struct enclave_t` is a pair `(node, i)`: slab `i` of the slab array
  of node `node`.
* Loops that follow `next_link_mem` carry a fuel argument (the number of nodes ever
  allocated); a result `none` of such a function means that the C loop does not
  return (cyclic list) or that it dereferences `NULL`.
* `int` counters (`eid`, `count`, `i`) are unbounded integers: the embedding describes
  registries with fewer than `2^31` slots.  The comparison
  `eid < count + cur->slab_num` is an `unsigned long` comparison (`slab_num` holds the
  `unsigned long` quotient computed in `init_mem_link`), so a negative `eid` is
  compared through its image modulo `2^64`.
* Constants, sizes and platform hooks that live in headers outside `src/` are
  parameters (`consts`, `mm_oracle`, `platform_t`, `create_oracle`).
* An entry point runs on one hart `h` (the value of `mhartid`); the state holds the
  per-hart table `cpus` and the CSR file of every hart.
* Physical memory is read as bytes (`mem`) and as the structures that `create_enclave`
  lays over it (`pma`, `vma`, `page`, indexed by address).
-/

namespace Penglai

/-! ## Constants -/

/-- Modelled from the spec: `enclave_state_t` is declared in `enclave.h`, which is not
part of the sources.  `INVALID` is the value a zeroed descriptor has (the allocator
relies on `memset(.., 0, ..)` producing reusable slots). -/
abbrev INVALID : Int := 0

/-- Modelled from the spec: state `FRESH` of `enclave_state_t` (declared in `enclave.h`). -/
abbrev FRESH : Int := 1

/-- Modelled from the spec: state `RUNNABLE` of `enclave_state_t` (declared in `enclave.h`). -/
abbrev RUNNABLE : Int := 2

/-- Modelled from the spec: state `RUNNING` of `enclave_state_t` (declared in `enclave.h`). -/
abbrev RUNNING : Int := 3

/-- Modelled from the spec: state `STOPPED` of `enclave_state_t` (declared in `enclave.h`). -/
abbrev STOPPED : Int := 4

/-- Modelled from the spec: state `OCALLING` of `enclave_state_t` (declared in `enclave.h`). -/
abbrev OCALLING : Int := 5

/-- The value `-1UL`: all ones in a 64-bit `uintptr_t`. -/
abbrev FAIL : Nat := 2 ^ 64 - 1

/-- Image of a C `int` under conversion to `unsigned long`. -/
def ulong (x : Int) : Nat := (x % 2 ^ 64).toNat

/-- Image of a C `unsigned int` under conversion to `int`. -/
def int_of_uint (x : Nat) : Int :=
  if x % 2 ^ 32 < 2 ^ 31 then ((x % 2 ^ 32 : Nat) : Int) else ((x % 2 ^ 32 : Nat) : Int) - 2 ^ 32

/-- Compile-time constants and sizes that are declared in headers outside `src/`. -/
structure consts where
  ENCLAVE_METADATA_REGION_SIZE : Nat
  sizeof_enclave_t : Nat
  sizeof_link_mem_t : Nat
  ENCLAVE_TIMER_IRQ : Nat
  ENCLAVE_OCALL : Nat
  ENCLAVE_ERROR : Nat
  OCALL_MMAP : Nat
  OCALL_UNMAP : Nat
  OCALL_SYS_WRITE : Nat
  ENCLAVE_DEFAULT_STACK : Nat
  sizeof_pm_area_struct : Nat
  SATP_MODE_CHOICE : Nat
  ENCLAVE_DEFAULT_TEXT_BASE : Nat
  ENCLAVE_DEFAULT_STACK_BASE : Nat
  ENCLAVE_DEFAULT_HEAP_BASE : Nat
  ENCLAVE_DEFAULT_KBUFFER : Nat

/-! ## Data model -/

/-- The snapshot buffer `struct thread_state_t` used by the context swap. -/
structure thread_state_t where
  encl_ptbr : Nat
  prev_stvec : Nat
  prev_mie : Nat
  prev_mideleg : Nat
  prev_medeleg : Nat
  prev_mepc : Nat
  prev_state : Nat → Nat

/-- The enclave descriptor `struct enclave_t` (the fields `enclave.c` reads or writes). -/
structure enclave_t where
  eid : Int
  state : Int
  paddr : Nat
  size : Nat
  entry_point : Nat
  untrusted_ptr : Nat
  untrusted_size : Nat
  free_mem : Nat
  ocall_func_id : Nat
  ocall_arg0 : Nat
  ocall_arg1 : Nat
  ocall_syscall_num : Nat
  kbuffer : Nat
  kbuffer_size : Nat
  host_ptbr : Nat
  root_page_table : Nat
  thread_context : thread_state_t
  caller_eid : Int
  top_caller_eid : Int
  cur_callee_eid : Int
  pma_list : Nat
  text_vma : Nat
  stack_vma : Nat
  heap_vma : Nat
  mmap_vma : Nat
  _stack_top : Nat
  _heap_top : Nat
  free_pages : Nat
  free_pages_num : Nat

/-- A descriptor after `memset((void*)enclave, 0, sizeof(struct enclave_t))`. -/
def enclave_zero : enclave_t where
  eid := 0
  state := 0
  paddr := 0
  size := 0
  entry_point := 0
  untrusted_ptr := 0
  untrusted_size := 0
  free_mem := 0
  ocall_func_id := 0
  ocall_arg0 := 0
  ocall_arg1 := 0
  ocall_syscall_num := 0
  kbuffer := 0
  kbuffer_size := 0
  host_ptbr := 0
  root_page_table := 0
  thread_context :=
    { encl_ptbr := 0, prev_stvec := 0, prev_mie := 0, prev_mideleg := 0,
      prev_medeleg := 0, prev_mepc := 0, prev_state := fun _ => 0 }
  caller_eid := 0
  top_caller_eid := 0
  cur_callee_eid := 0
  pma_list := 0
  text_vma := 0
  stack_vma := 0
  heap_vma := 0
  mmap_vma := 0
  _stack_top := 0
  _heap_top := 0
  free_pages := 0
  free_pages_num := 0

/-- A node `struct link_mem_t` of the registry list.  `base` is the address `mm_alloc`
returned for the node; `slabs` is the content of the slab array that starts at `addr`. -/
structure link_mem_t where
  base : Nat
  mem_size : Nat
  slab_size : Nat
  slab_num : Nat
  addr : Nat
  next_link_mem : Option Nat
  slabs : Nat → enclave_t

/-- The registry: the arena of nodes together with the globals
`enclave_metadata_head` and `enclave_metadata_tail`. -/
structure registry_t where
  link_mem : Nat → link_mem_t
  link_mem_num : Nat
  enclave_metadata_head : Option Nat
  enclave_metadata_tail : Option Nat

/-- Results of the calls to `mm_alloc` that one `alloc_enclave` can make: the one in
`init_mem_link` and the one in `add_link_mem` (`none` is `NULL`, and so is the address 0). -/
structure mm_oracle where
  init : Option Nat
  add : Option Nat

/-- A zeroed node (the content of a region after `memset(.., 0, mem_size)`). -/
def link_mem_zero : link_mem_t where
  base := 0
  mem_size := 0
  slab_size := 0
  slab_num := 0
  addr := 0
  next_link_mem := none
  slabs := fun _ => enclave_zero

/-- The registry before the first `alloc_enclave`: both globals are `NULL`. -/
def registry_empty : registry_t where
  link_mem := fun _ => link_mem_zero
  link_mem_num := 0
  enclave_metadata_head := none
  enclave_metadata_tail := none

/-- Read the descriptor a pointer designates. -/
def rd (r : registry_t) (p : Nat × Nat) : enclave_t := (r.link_mem p.1).slabs p.2

/-- Store a node at an arena index. -/
def set_link_mem (r : registry_t) (n : Nat) (l : link_mem_t) : registry_t :=
  { r with link_mem := fun m => if m = n then l else r.link_mem m }

/-- Store a descriptor through a pointer. -/
def wr (r : registry_t) (p : Nat × Nat) (e : enclave_t) : registry_t :=
  set_link_mem r p.1
    { r.link_mem p.1 with slabs := fun j => if j = p.2 then e else (r.link_mem p.1).slabs j }

/-! ## Slab-linked-list allocator -/

/-- Modelled from the spec: `size_up_align` is declared in `math.h`, outside `src/`;
the spec says the slab array is "aligned up to `slab_size`". -/
def size_up_align (x a : Nat) : Nat := ((x + a - 1) / a) * a

/-- `init_mem_link`: build the first node in a fresh region; a region at address 0 is
`NULL` and no node is built. -/
def init_mem_link (K : consts) (mm : Option Nat) (mem_size slab_size : Nat)
    (r : registry_t) : Option Nat × registry_t :=
  match mm with
  | none => (none, r)
  | some head =>
    if head = 0 then (none, r)
    else
      (some r.link_mem_num,
        { set_link_mem r r.link_mem_num
            { base := head
              mem_size := mem_size
              slab_size := slab_size
              slab_num := ((mem_size + 2 ^ 64 - K.sizeof_link_mem_t) % 2 ^ 64) / slab_size
              addr := size_up_align (head + K.sizeof_link_mem_t) slab_size
              next_link_mem := none
              slabs := fun _ => enclave_zero } with
          link_mem_num := r.link_mem_num + 1 })

/-- `add_link_mem(&enclave_metadata_tail)`: allocate a node that mirrors `*tail` and
store it in `(*tail)->next_link_mem`; a region at address 0 is `NULL` and nothing is
changed.  The function never assigns `*tail`. -/
def add_link_mem (K : consts) (mm : Option Nat) (r : registry_t) :
    Option (Option Nat × registry_t) :=
  match r.enclave_metadata_tail with
  | none => none
  | some tail =>
    match mm with
    | none => some (none, r)
    | some new_base =>
      if new_base = 0 then some (none, r)
      else
        let t := r.link_mem tail
        let r1 := set_link_mem r tail { t with next_link_mem := some r.link_mem_num }
        some (some r.link_mem_num,
          { set_link_mem r1 r.link_mem_num
              { base := new_base
                mem_size := t.mem_size
                slab_size := t.slab_size
                slab_num := t.slab_num
                addr := size_up_align (new_base + K.sizeof_link_mem_t) t.slab_size
                next_link_mem := none
                slabs := fun _ => enclave_zero } with
            link_mem_num := r.link_mem_num + 1 })

/-! ## Enclave registry -/

/-- The descriptor `alloc_enclave` leaves in a claimed slot: zeroed, `FRESH`, with `eid`. -/
def enclave_fresh (eid : Int) : enclave_t := { enclave_zero with state := FRESH, eid := eid }

/-- Inner loop of `alloc_enclave`: `for(i = 0; i < cur->slab_num; i++)`; the first
argument counts the iterations left.  Returns the claimed slot (if any), `eid` and the
registry. -/
def alloc_enclave_slabs (r : registry_t) (cur : Nat) :
    Nat → Nat → Int → Option (Nat × Nat) × Int × registry_t
  | 0, _, eid => (none, eid, r)
  | n + 1, i, eid =>
    if (rd r (cur, i)).state = INVALID then
      (some (cur, i), eid, wr r (cur, i) (enclave_fresh eid))
    else
      alloc_enclave_slabs r cur n (i + 1) (eid + 1)

/-- Outer loop of `alloc_enclave`:
`for(cur = enclave_metadata_head; cur != NULL; cur = cur->next_link_mem)`. -/
def alloc_enclave_nodes (r : registry_t) :
    Nat → Option Nat → Int → Option (Option (Nat × Nat) × Int × registry_t)
  | _, none, eid => some (none, eid, r)
  | 0, some _, _ => none
  | fuel + 1, some cur, eid =>
    match alloc_enclave_slabs r cur (r.link_mem cur).slab_num 0 eid with
    | (some p, e, r1) => some (some p, e, r1)
    | (none, e, _) => alloc_enclave_nodes r fuel (r.link_mem cur).next_link_mem e

/-- `alloc_enclave`: returns the claimed descriptor (`none` is `NULL`) and the registry. -/
def alloc_enclave (K : consts) (mm : mm_oracle) (r : registry_t) :
    Option (Option (Nat × Nat) × registry_t) :=
  let r0 : Option registry_t :=
    match r.enclave_metadata_head with
    | some _ => some r
    | none =>
      match init_mem_link K mm.init K.ENCLAVE_METADATA_REGION_SIZE K.sizeof_enclave_t r with
      | (none, _) => none
      | (some head, r1) =>
        some { r1 with enclave_metadata_head := some head, enclave_metadata_tail := some head }
  match r0 with
  | none => some (none, r)
  | some r1 =>
    match alloc_enclave_nodes r1 r1.link_mem_num r1.enclave_metadata_head 0 with
    | none => none
    | some (some p, _, r2) => some (some p, r2)
    | some (none, eid, r2) =>
      match add_link_mem K mm.add r2 with
      | none => none
      | some (none, r3) => some (none, r3)
      | some (some next, r3) => some (some (next, 0), wr r3 (next, 0) (enclave_fresh eid))

/-- Loop of `free_enclave`; the `Nat` after the pointer is `count`. -/
def free_enclave_nodes (r : registry_t) (eid : Int) :
    Nat → Option Nat → Nat → Option (Int × registry_t)
  | _, none, _ => some (-1, r)
  | 0, some _, _ => none
  | fuel + 1, some cur, count =>
    if ulong eid < count + (r.link_mem cur).slab_num then
      some (0, wr r (cur, ulong eid - count) { enclave_zero with state := INVALID })
    else
      free_enclave_nodes r eid fuel (r.link_mem cur).next_link_mem
        (count + (r.link_mem cur).slab_num)

/-- `free_enclave(eid)`: returns `ret_val` and the registry. -/
def free_enclave (r : registry_t) (eid : Int) : Option (Int × registry_t) :=
  free_enclave_nodes r eid r.link_mem_num r.enclave_metadata_head 0

/-- Loop of `get_enclave`; the `Nat` after the pointer is `count`. -/
def get_enclave_nodes (r : registry_t) (eid : Int) :
    Nat → Option Nat → Nat → Option (Option (Nat × Nat))
  | _, none, _ => some none
  | 0, some _, _ => none
  | fuel + 1, some cur, count =>
    if ulong eid < count + (r.link_mem cur).slab_num then
      some (some (cur, ulong eid - count))
    else
      get_enclave_nodes r eid fuel (r.link_mem cur).next_link_mem
        (count + (r.link_mem cur).slab_num)

/-- `get_enclave(eid)`: the descriptor at global index `eid` (`some none` is `NULL`). -/
def get_enclave (r : registry_t) (eid : Int) : Option (Option (Nat × Nat)) :=
  get_enclave_nodes r eid r.link_mem_num r.enclave_metadata_head 0

/-- `__get_real_enclave(eid)`: follow `cur_callee_eid` one hop. -/
def __get_real_enclave (r : registry_t) (eid : Int) : Option (Option (Nat × Nat)) :=
  match get_enclave r eid with
  | none => none
  | some none => some none
  | some (some p) =>
    if (rd r p).cur_callee_eid = -1 then some (some p)
    else get_enclave r (rd r p).cur_callee_eid

/-! ## Machine state -/

/-- Per-hart record `struct cpu_state_t`. -/
structure cpu_state_t where
  in_enclave : Int
  eid : Int

/-- The control and status registers of one hart that `enclave.c` touches. -/
structure csr_t where
  satp : Nat
  stvec : Nat
  mie : Nat
  mip : Nat
  mideleg : Nat
  medeleg : Nat
  mepc : Nat
  mstatus : Nat

/-- Return codes of the platform hooks during one call (negative is failure). -/
structure platform_t where
  grant_enclave_access : Int
  platform_check_in_enclave_world : Int
  platform_check_enclave_authentication : Int

/-- The structure `struct pm_area_struct` that `create_enclave` lays over the start of
the enclave region. -/
structure pm_area_struct where
  paddr : Nat
  size : Nat
  free_mem : Nat
  pm_next : Nat

/-- The structure `struct vm_area_struct` (the fields `create_enclave` touches). -/
structure vm_area_struct where
  va_start : Nat
  va_end : Nat
  vm_next : Nat
  pma : Nat

/-- The structure `struct page_t` at the start of a free page. -/
structure page_t where
  paddr : Nat
  next : Nat

/-- State of the monitor: the per-hart table `cpus`, the CSR file of every hart, the
global lock, the registry and physical memory.  Memory is read in two ways: `mem` gives
the byte at an address (host words, scrubbing), and `pma`, `vma`, `page` give the
structure that the code overlays on memory at an address (`0` is `NULL`).  The views are
kept apart: a store through one view is not seen through another one at the same
address. -/
structure sm_state where
  cpus : Nat → cpu_state_t
  csrs : Nat → csr_t
  enclave_metadata_lock : Bool
  reg : registry_t
  mem : Nat → Nat
  pma : Nat → pm_area_struct
  vma : Nat → vm_area_struct
  page : Nat → page_t

/-- What an entry point hands back: the returned `uintptr_t`, the register frame `regs`
and the state. -/
structure call_t where
  ret : Nat
  regs : Nat → Nat
  st : sm_state

/-- `acquire_enclave_metadata_lock` (the lock is taken to be free on entry). -/
def acquire_enclave_metadata_lock (s : sm_state) : sm_state :=
  { s with enclave_metadata_lock := true }

/-- `release_enclave_metadata_lock`. -/
def release_enclave_metadata_lock (s : sm_state) : sm_state :=
  { s with enclave_metadata_lock := false }

/-- Store the CSR file of hart `h`. -/
def set_csrs (s : sm_state) (h : Nat) (c : csr_t) : sm_state :=
  { s with csrs := fun k => if k = h then c else s.csrs k }

/-- Store the per-hart record of hart `h`. -/
def set_cpu (s : sm_state) (h : Nat) (c : cpu_state_t) : sm_state :=
  { s with cpus := fun k => if k = h then c else s.cpus k }

/-- Store a descriptor through a pointer. -/
def set_enclave (s : sm_state) (p : Nat × Nat) (e : enclave_t) : sm_state :=
  { s with reg := wr s.reg p e }

/-- Assignment `regs[i] = v`. -/
def set_reg (regs : Nat → Nat) (i v : Nat) : Nat → Nat :=
  fun j => if j = i then v else regs j

/-- Clear the bits of `m` in `v`: `v & ~m`. -/
def clear_bits (v m : Nat) : Nat := v - (v &&& m)

/-- Modelled from the spec: `MIP_SSIP` of `encoding.h` (outside `src/`), the RISC-V
supervisor software interrupt bit. -/
abbrev MIP_SSIP : Nat := 2

/-- Modelled from the spec: `MIP_STIP` of `encoding.h` (outside `src/`), the RISC-V
supervisor timer interrupt bit. -/
abbrev MIP_STIP : Nat := 32

/-- Modelled from the spec: `MIP_MTIP` of `encoding.h` (outside `src/`), the RISC-V
machine timer interrupt bit. -/
abbrev MIP_MTIP : Nat := 128

/-- Modelled from the spec: `MIP_SEIP` of `encoding.h` (outside `src/`), the RISC-V
supervisor external interrupt bit. -/
abbrev MIP_SEIP : Nat := 512

/-- Modelled from the spec: `MSTATUS_MPP` of `encoding.h` (outside `src/`), the mask of
the previous-privilege field of `mstatus`. -/
abbrev MSTATUS_MPP : Nat := 6144

/-- Modelled from the spec: `PRV_U` of `encoding.h` (outside `src/`), user privilege. -/
abbrev PRV_U : Nat := 0

/-- Modelled from the spec: `PRV_S` of `encoding.h` (outside `src/`), supervisor privilege. -/
abbrev PRV_S : Nat := 1

/-- Modelled from the spec: the macro `INSERT_FIELD(val, MSTATUS_MPP, fieldval)` of
`encoding.h` (outside `src/`): replace the `MPP` field, whose lowest bit is `2048`. -/
def insert_mpp (mstatus fieldval : Nat) : Nat :=
  clear_bits mstatus MSTATUS_MPP ||| (fieldval * 2048)

/-! ## Per-hart world state -/

/-- `enter_enclave_world(eid)` on hart `h`. -/
def enter_enclave_world (s : sm_state) (h : Nat) (eid : Int) : sm_state :=
  set_cpu s h { in_enclave := 1, eid := eid }

/-- `get_enclave_id()` and `get_curr_enclave_id()` on hart `h`. -/
def get_enclave_id (s : sm_state) (h : Nat) : Int := (s.cpus h).eid

/-- `exit_enclave_world()` on hart `h`. -/
def exit_enclave_world (s : sm_state) (h : Nat) : sm_state :=
  set_cpu s h { in_enclave := 0, eid := -1 }

/-- `check_in_enclave_world()` on hart `h`. -/
def check_in_enclave_world (P : platform_t) (s : sm_state) (h : Nat) : Int :=
  if (s.cpus h).in_enclave = 0 then -1
  else if P.platform_check_in_enclave_world < 0 then -1
  else 0

/-- `check_enclave_authentication()`. -/
def check_enclave_authentication (P : platform_t) : Int :=
  if P.platform_check_enclave_authentication < 0 then -1 else 0

/-! ## Context-swap engine -/

/-- Modelled from the spec: `swap_prev_state` is defined outside `src/`; "the current
live value is read, the saved value is written back, and the old live value is stored
into the snapshot".  Returns the snapshot and the register frame. -/
def swap_prev_state (t : thread_state_t) (regs : Nat → Nat) : thread_state_t × (Nat → Nat) :=
  ({ t with prev_state := regs }, t.prev_state)

/-- Modelled from the spec: `swap_prev_stvec` (defined outside `src/`) exchanges the
snapshot field with the live `stvec`. -/
def swap_prev_stvec (t : thread_state_t) (c : csr_t) : thread_state_t × csr_t :=
  ({ t with prev_stvec := c.stvec }, { c with stvec := t.prev_stvec })

/-- Modelled from the spec: `swap_prev_mie` (defined outside `src/`) exchanges the
snapshot field with the live `mie`. -/
def swap_prev_mie (t : thread_state_t) (c : csr_t) : thread_state_t × csr_t :=
  ({ t with prev_mie := c.mie }, { c with mie := t.prev_mie })

/-- Modelled from the spec: `swap_prev_mideleg` (defined outside `src/`) exchanges the
snapshot field with the live `mideleg`. -/
def swap_prev_mideleg (t : thread_state_t) (c : csr_t) : thread_state_t × csr_t :=
  ({ t with prev_mideleg := c.mideleg }, { c with mideleg := t.prev_mideleg })

/-- Modelled from the spec: `swap_prev_medeleg` (defined outside `src/`) exchanges the
snapshot field with the live `medeleg`. -/
def swap_prev_medeleg (t : thread_state_t) (c : csr_t) : thread_state_t × csr_t :=
  ({ t with prev_medeleg := c.medeleg }, { c with medeleg := t.prev_medeleg })

/-- Modelled from the spec: `swap_prev_mepc` (defined outside `src/`) exchanges the
snapshot field with the live `mepc`. -/
def swap_prev_mepc (t : thread_state_t) (c : csr_t) : thread_state_t × csr_t :=
  ({ t with prev_mepc := c.mepc }, { c with mepc := t.prev_mepc })

/-- Modelled from the spec: `platform_switch_to_enclave_ptbr` and
`platform_switch_to_host_ptbr` (platform code outside `src/`) install `ptbr` in `satp`. -/
def switch_ptbr (c : csr_t) (ptbr : Nat) : csr_t := { c with satp := ptbr }

/-- The exchange of the privileged registers that both swap directions perform after the
register frame and `satp` are handled: `stvec`, `mie`, (on enter) the pending bits,
`mideleg`, `medeleg`, `mepc`, then the `MPP` field. -/
def swap_csrs (t : thread_state_t) (c : csr_t) (enter : Bool) : thread_state_t × csr_t :=
  let (t1, c1) := swap_prev_stvec t c
  let (t2, c2) := swap_prev_mie t1 c1
  let c3 : csr_t :=
    if enter then
      { c2 with mip := clear_bits (clear_bits (clear_bits (clear_bits c2.mip MIP_MTIP) MIP_STIP)
          MIP_SSIP) MIP_SEIP }
    else c2
  let (t4, c4) := swap_prev_mideleg t2 c3
  let (t5, c5) := swap_prev_medeleg t4 c4
  let (t6, c6) := swap_prev_mepc t5 c5
  (t6, { c6 with mstatus := insert_mpp c6.mstatus (if enter then PRV_U else PRV_S) })

/-- `swap_from_host_to_enclave(host_regs, enclave)` on hart `h`. -/
def swap_from_host_to_enclave (P : platform_t) (h : Nat) (host_regs : Nat → Nat)
    (p : Nat × Nat) (s : sm_state) : Int × (Nat → Nat) × sm_state :=
  if P.grant_enclave_access < 0 then (-1, host_regs, s)
  else
    let e := rd s.reg p
    let (t1, regs1) := swap_prev_state e.thread_context host_regs
    let c1 := switch_ptbr (s.csrs h) t1.encl_ptbr
    let (t2, c2) := swap_csrs t1 c1 true
    let s1 := set_csrs (set_enclave s p { e with thread_context := t2 }) h c2
    (0, regs1, enter_enclave_world s1 h e.eid)

/-- `swap_from_enclave_to_host(regs, enclave)` on hart `h`. -/
def swap_from_enclave_to_host (h : Nat) (regs : Nat → Nat)
    (p : Nat × Nat) (s : sm_state) : Int × (Nat → Nat) × sm_state :=
  let e := rd s.reg p
  let (t1, regs1) := swap_prev_state e.thread_context regs
  let c1 := switch_ptbr (s.csrs h) e.host_ptbr
  let (t2, c2) := swap_csrs t1 c1 false
  let s1 := set_csrs (set_enclave s p { e with thread_context := t2 }) h c2
  (0, regs1, exit_enclave_world s1 h)

/-! ## Entry points -/

/-- Assignment `enclave->state = st`. -/
def set_state (s : sm_state) (p : Nat × Nat) (st : Int) : sm_state :=
  set_enclave s p { rd s.reg p with state := st }

/-- `run_enclave(regs, eid)` on hart `h`. -/
def run_enclave (K : consts) (P : platform_t) (h : Nat) (regs : Nat → Nat) (eid : Nat)
    (s : sm_state) : Option call_t :=
  let s0 := acquire_enclave_metadata_lock s
  match get_enclave s0.reg (int_of_uint eid) with
  | none => none
  | some none => some ⟨FAIL, regs, s0⟩
  | some (some p) =>
    if (rd s0.reg p).state ≠ FRESH then
      some ⟨FAIL, regs, release_enclave_metadata_lock s0⟩
    else if (rd s0.reg p).host_ptbr ≠ (s0.csrs h).satp then
      some ⟨FAIL, regs, release_enclave_metadata_lock s0⟩
    else
      match swap_from_host_to_enclave P h regs p s0 with
      | (rc, regs1, s1) =>
        if rc < 0 then some ⟨FAIL, regs1, release_enclave_metadata_lock s1⟩
        else
          let e := rd s1.reg p
          let c := s1.csrs h
          let s2 := set_csrs s1 h { c with mepc := e.entry_point, mie := c.mie ||| MIP_MTIP }
          let regs2 := set_reg (set_reg (set_reg (set_reg regs1 2 K.ENCLAVE_DEFAULT_STACK)
            11 e.entry_point) 12 e.untrusted_ptr) 13 e.untrusted_size
          some ⟨0, regs2, release_enclave_metadata_lock (set_state s2 p RUNNING)⟩

/-- `stop_enclave(regs, eid)` on hart `h`. -/
def stop_enclave (h : Nat) (regs : Nat → Nat) (eid : Nat) (s : sm_state) : Option call_t :=
  let s0 := acquire_enclave_metadata_lock s
  match get_enclave s0.reg (int_of_uint eid) with
  | none => none
  | some none => some ⟨FAIL, regs, s0⟩
  | some (some p) =>
    if (rd s0.reg p).host_ptbr ≠ (s0.csrs h).satp then
      some ⟨FAIL, regs, release_enclave_metadata_lock s0⟩
    else if (rd s0.reg p).state ≤ FRESH then
      some ⟨FAIL, regs, release_enclave_metadata_lock s0⟩
    else
      some ⟨0, regs, release_enclave_metadata_lock (set_state s0 p STOPPED)⟩

/-- `resume_from_stop(regs, eid)` on hart `h`. -/
def resume_from_stop (h : Nat) (regs : Nat → Nat) (eid : Nat) (s : sm_state) :
    Option call_t :=
  let s0 := acquire_enclave_metadata_lock s
  match get_enclave s0.reg (int_of_uint eid) with
  | none => none
  | some none => some ⟨FAIL, regs, s0⟩
  | some (some p) =>
    if (rd s0.reg p).host_ptbr ≠ (s0.csrs h).satp then
      some ⟨FAIL, regs, release_enclave_metadata_lock s0⟩
    else if (rd s0.reg p).state ≠ STOPPED then
      some ⟨FAIL, regs, release_enclave_metadata_lock s0⟩
    else
      some ⟨0, regs, release_enclave_metadata_lock (set_state s0 p RUNNABLE)⟩

/-- `resume_enclave(regs, eid)` on hart `h`. -/
def resume_enclave (K : consts) (P : platform_t) (h : Nat) (regs : Nat → Nat) (eid : Nat)
    (s : sm_state) : Option call_t :=
  let s0 := acquire_enclave_metadata_lock s
  match get_enclave s0.reg (int_of_uint eid) with
  | none => none
  | some none => some ⟨FAIL, regs, s0⟩
  | some (some p) =>
    if (rd s0.reg p).host_ptbr ≠ (s0.csrs h).satp then
      some ⟨FAIL, regs, release_enclave_metadata_lock s0⟩
    else if (rd s0.reg p).state = STOPPED then
      some ⟨K.ENCLAVE_TIMER_IRQ, regs, release_enclave_metadata_lock s0⟩
    else if (rd s0.reg p).state ≠ RUNNABLE then
      some ⟨FAIL, regs, release_enclave_metadata_lock s0⟩
    else
      match swap_from_host_to_enclave P h regs p s0 with
      | (rc, regs1, s1) =>
        if rc < 0 then some ⟨FAIL, regs1, release_enclave_metadata_lock s1⟩
        else some ⟨regs1 10, regs1, release_enclave_metadata_lock (set_state s1 p RUNNING)⟩

/-- `resume_from_ocall(regs, eid)` on hart `h`; `prev_state.a0` is register 10 of the
snapshot. -/
def resume_from_ocall (K : consts) (P : platform_t) (h : Nat) (regs : Nat → Nat) (eid : Nat)
    (s : sm_state) : Option call_t :=
  let ocall_func_id := regs 12
  let s0 := acquire_enclave_metadata_lock s
  match __get_real_enclave s0.reg (int_of_uint eid) with
  | none => none
  | some none => some ⟨FAIL, regs, release_enclave_metadata_lock s0⟩
  | some (some p) =>
    if (rd s0.reg p).state ≠ OCALLING ∨ (rd s0.reg p).host_ptbr ≠ (s0.csrs h).satp then
      some ⟨FAIL, regs, release_enclave_metadata_lock s0⟩
    else
      let retval : Nat :=
        if ocall_func_id = K.OCALL_MMAP then 0
        else if ocall_func_id = K.OCALL_UNMAP then 0
        else if ocall_func_id = K.OCALL_SYS_WRITE then (rd s0.reg p).thread_context.prev_state 10
        else 0
      match swap_from_host_to_enclave P h regs p s0 with
      | (rc, regs1, s1) =>
        if rc < 0 then some ⟨FAIL, regs1, release_enclave_metadata_lock s1⟩
        else some ⟨retval, regs1, release_enclave_metadata_lock (set_state s1 p RUNNING)⟩

/-- `memset((void*)paddr, 0, size)` on the bytes of physical memory. -/
def memset_zero (mem : Nat → Nat) (paddr size : Nat) : Nat → Nat :=
  fun a => if paddr ≤ a ∧ a < paddr + size then 0 else mem a

/-- `memset((void*)paddr, 0, size)` on the state: the bytes of the range and the
structures that start in the range are zeroed. -/
def memset_state (s : sm_state) (paddr size : Nat) : sm_state :=
  { s with
    mem := memset_zero s.mem paddr size
    pma := fun a => if paddr ≤ a ∧ a < paddr + size then ⟨0, 0, 0, 0⟩ else s.pma a
    vma := fun a => if paddr ≤ a ∧ a < paddr + size then ⟨0, 0, 0, 0⟩ else s.vma a
    page := fun a => if paddr ≤ a ∧ a < paddr + size then ⟨0, 0⟩ else s.page a }

/-- `copy_dword_to_host(ptr, value)`: an 8-byte little-endian store. -/
def copy_dword_to_host (mem : Nat → Nat) (ptr value : Nat) : Nat → Nat :=
  fun a => if ptr ≤ a ∧ a < ptr + 8 then (value / 256 ^ (a - ptr)) % 256 else mem a

/-- `exit_enclave(regs, retval)` on hart `h`.  `mm_free` returns the region to the
backing allocator, which is not part of the state. -/
def exit_enclave (P : platform_t) (h : Nat) (regs : Nat → Nat) (s : sm_state) :
    Option call_t :=
  if check_in_enclave_world P s h < 0 then some ⟨FAIL, regs, s⟩
  else
    let s0 := acquire_enclave_metadata_lock s
    let eid := get_enclave_id s0 h
    match get_enclave s0.reg eid with
    | none => none
    | some none => some ⟨FAIL, regs, s0⟩
    | some (some p) =>
      if check_enclave_authentication P < 0 then
        some ⟨FAIL, regs, release_enclave_metadata_lock s0⟩
      else
        match swap_from_enclave_to_host h regs p s0 with
        | (_, regs1, s1) =>
          let e := rd s1.reg p
          let s2 := memset_state s1 e.paddr e.size
          match free_enclave s2.reg eid with
          | none => none
          | some (_, r3) => some ⟨0, regs1, release_enclave_metadata_lock { s2 with reg := r3 }⟩

/-- `enclave_sys_write(regs)` on hart `h`. -/
def enclave_sys_write (K : consts) (P : platform_t) (h : Nat) (regs : Nat → Nat)
    (s : sm_state) : Option call_t :=
  let eid := get_enclave_id s h
  if check_in_enclave_world P s h < 0 then some ⟨FAIL, regs, s⟩
  else
    let s0 := acquire_enclave_metadata_lock s
    match get_enclave s0.reg eid with
    | none => none
    | some none => some ⟨FAIL, regs, release_enclave_metadata_lock s0⟩
    | some (some p) =>
      if check_enclave_authentication P ≠ 0 ∨ (rd s0.reg p).state ≠ RUNNING then
        some ⟨FAIL, regs, release_enclave_metadata_lock s0⟩
      else
        let s1 := { s0 with
          mem := copy_dword_to_host s0.mem (rd s0.reg p).ocall_func_id K.OCALL_SYS_WRITE }
        match swap_from_enclave_to_host h regs p s1 with
        | (_, regs1, s2) =>
          some ⟨K.ENCLAVE_OCALL, regs1, release_enclave_metadata_lock (set_state s2 p OCALLING)⟩

/-- Image of a C `int` under conversion to `unsigned int`. -/
def uint_of_int (x : Int) : Nat := (x % 2 ^ 32).toNat

/-- `do_timer_irq(regs, mcause, mepc)` on hart `h`. -/
def do_timer_irq (K : consts) (h : Nat) (regs : Nat → Nat) (s : sm_state) : Option call_t :=
  let s0 := acquire_enclave_metadata_lock s
  let eid := uint_of_int (get_enclave_id s0 h)
  match get_enclave s0.reg (int_of_uint eid) with
  | none => none
  | some none => some ⟨FAIL, regs, s0⟩
  | some (some p) =>
    if (rd s0.reg p).state ≠ RUNNING ∧ (rd s0.reg p).state ≠ STOPPED then
      some ⟨FAIL, regs, release_enclave_metadata_lock s0⟩
    else
      match swap_from_enclave_to_host h regs p s0 with
      | (_, regs1, s1) =>
        some ⟨0, set_reg regs1 10 K.ENCLAVE_TIMER_IRQ,
          release_enclave_metadata_lock (set_state s1 p RUNNABLE)⟩

/-! ## Creation -/

/-- The creation argument record `struct enclave_sbi_param_t`. -/
structure enclave_sbi_param_t where
  paddr : Nat
  size : Nat
  entry_point : Nat
  untrusted_ptr : Nat
  untrusted_size : Nat
  free_mem : Nat
  kbuffer : Nat
  kbuffer_size : Nat
  eid_ptr : Nat
  ecall_arg0 : Nat
  ecall_arg1 : Nat
  ecall_arg2 : Nat
  ecall_arg3 : Nat

/-- What the external collaborators do during one `create_enclave`: the results of
`mm_alloc`, the VMA structures as `traverse_vmas` leaves them together with a bound on the
length of the VMA list, and the free-page head, page structures and bytes as `mmap`
leaves them. -/
structure create_oracle where
  mm : mm_oracle
  traverse_vmas : (Nat → vm_area_struct) → Nat → vm_area_struct
  vma_fuel : Nat
  mmap_free_pages : Nat → Nat
  mmap_page : (Nat → page_t) → Nat → page_t
  mmap_mem : (Nat → Nat) → Nat → Nat

/-- Modelled from the spec: `RISCV_PGSIZE` of `encoding.h` (outside `src/`), the page size. -/
abbrev RISCV_PGSIZE : Nat := 4096

/-- Modelled from the spec: `RISCV_PGSHIFT` of `encoding.h` (outside `src/`). -/
abbrev RISCV_PGSHIFT : Nat := 12

/-- The loop `while(vma)` of `create_enclave`: record the text and the stack area in the
descriptor and point every area to `pma`.  The first argument is fuel. -/
def create_vma_loop (K : consts) (pma : Nat) :
    Nat → Nat → (Nat → vm_area_struct) → enclave_t → Option ((Nat → vm_area_struct) × enclave_t)
  | 0, vma, st, e => if vma = 0 then some (st, e) else none
  | fuel + 1, vma, st, e =>
    if vma = 0 then some (st, e)
    else
      let e1 := if (st vma).va_start = K.ENCLAVE_DEFAULT_TEXT_BASE
        then { e with text_vma := vma } else e
      let e2 := if (st vma).va_end = K.ENCLAVE_DEFAULT_STACK_BASE
        then { e1 with stack_vma := vma, _stack_top := (st vma).va_start } else e1
      let st1 : Nat → vm_area_struct :=
        fun a => if a = vma then { st vma with pma := pma } else st a
      create_vma_loop K pma fuel (st vma).vm_next st1 e2

/-- The loop `while(free_mem >= create_args.free_mem)` of `create_enclave`, which pushes
the pages from the top of the region down to `lo = create_args.free_mem`.  The arguments
after the fuel are the local `free_mem`, the page structures, `enclave->free_pages` and
`enclave->free_pages_num`. -/
def create_free_pages (lo : Nat) :
    Nat → Nat → (Nat → page_t) → Nat → Nat → Option ((Nat → page_t) × Nat × Nat)
  | 0, free_mem, pg, free_pages, free_pages_num =>
    if free_mem ≥ lo then none else some (pg, free_pages, free_pages_num)
  | fuel + 1, free_mem, pg, free_pages, free_pages_num =>
    if free_mem ≥ lo then
      create_free_pages lo fuel ((free_mem + 2 ^ 64 - RISCV_PGSIZE) % 2 ^ 64)
        (fun a => if a = free_mem then { paddr := free_mem, next := free_pages } else pg a)
        free_mem (free_pages_num + 1)
    else some (pg, free_pages, free_pages_num)

/-- `copy_word_to_host(ptr, value)`: a 4-byte little-endian store. -/
def copy_word_to_host (mem : Nat → Nat) (ptr value : Nat) : Nat → Nat :=
  fun a => if ptr ≤ a ∧ a < ptr + 4 then (value / 256 ^ (a - ptr)) % 256 else mem a

/-- `create_enclave(create_args)` on hart `h`: returns the `uintptr_t` result and the
state.  The comparisons of the `free_mem` check read back the fields of `pma` that were
just stored from `create_args`. -/
def create_enclave (K : consts) (O : create_oracle) (h : Nat) (a : enclave_sbi_param_t)
    (s : sm_state) : Option (Nat × sm_state) :=
  let s0 := acquire_enclave_metadata_lock s
  match alloc_enclave K O.mm s0.reg with
  | none => none
  | some (none, r1) => some (FAIL, { s0 with reg := r1 })
  | some (some p, r1) =>
    let root_page_table := (a.paddr + RISCV_PGSIZE) % 2 ^ 64
    let e1 : enclave_t :=
      { rd r1 p with
        paddr := a.paddr
        size := a.size
        entry_point := a.entry_point
        untrusted_ptr := a.untrusted_ptr
        untrusted_size := a.untrusted_size
        free_mem := a.free_mem
        ocall_func_id := a.ecall_arg0
        ocall_arg0 := a.ecall_arg1
        ocall_arg1 := a.ecall_arg2
        ocall_syscall_num := a.ecall_arg3
        kbuffer := a.kbuffer
        kbuffer_size := a.kbuffer_size
        host_ptbr := (s0.csrs h).satp
        root_page_table := root_page_table
        thread_context :=
          { (rd r1 p).thread_context with
            encl_ptbr := (root_page_table / 2 ^ RISCV_PGSHIFT) ||| K.SATP_MODE_CHOICE }
        state := FRESH
        caller_eid := -1
        top_caller_eid := -1
        cur_callee_eid := -1 }
    let pma := a.paddr
    let vma := (a.paddr + K.sizeof_pm_area_struct) % 2 ^ 64
    let s1 : sm_state :=
      { s0 with
        reg := wr r1 p e1
        pma := fun x => if x = pma
          then { s0.pma pma with paddr := a.paddr, size := a.size, free_mem := a.free_mem }
          else s0.pma x }
    if a.free_mem < a.paddr ∨ a.free_mem ≥ (a.paddr + a.size) % 2 ^ 64
        ∨ a.free_mem % 2 ^ RISCV_PGSHIFT ≠ 0 then
      some (K.ENCLAVE_ERROR, s1)
    else
      let s2 : sm_state :=
        { s1 with
          pma := fun x => if x = pma then { s1.pma pma with pm_next := 0 } else s1.pma x
          vma := O.traverse_vmas s1.vma }
      let e2 : enclave_t := { e1 with pma_list := pma }
      match create_vma_loop K pma O.vma_fuel vma s2.vma e2 with
      | none => none
      | some (vm3, e3) =>
        let vm4 : Nat → vm_area_struct :=
          if e3.text_vma ≠ 0
          then fun x => if x = e3.text_vma then { vm3 e3.text_vma with vm_next := 0 } else vm3 x
          else vm3
        let vm5 : Nat → vm_area_struct :=
          if e3.stack_vma ≠ 0
          then fun x => if x = e3.stack_vma then { vm4 e3.stack_vma with vm_next := 0 } else vm4 x
          else vm4
        let e5 : enclave_t :=
          { e3 with _heap_top := K.ENCLAVE_DEFAULT_HEAP_BASE, heap_vma := 0, mmap_vma := 0 }
        match create_free_pages a.free_mem (2 ^ 52 + 1)
            ((a.paddr + a.size + 2 ^ 64 - RISCV_PGSIZE) % 2 ^ 64) s2.page 0 0 with
        | none => none
        | some (pg6, free_pages, free_pages_num) =>
          let e6 : enclave_t :=
            { e5 with free_pages := free_pages, free_pages_num := free_pages_num }
          let s6 : sm_state := { s2 with reg := wr s2.reg p e6, vma := vm5, page := pg6 }
          if a.kbuffer_size < RISCV_PGSIZE ∨ a.kbuffer % RISCV_PGSIZE ≠ 0
              ∨ a.kbuffer_size % RISCV_PGSIZE ≠ 0 then
            some (K.ENCLAVE_ERROR, s6)
          else
            let e7 : enclave_t := { e6 with free_pages := O.mmap_free_pages e6.free_pages }
            let s7 : sm_state :=
              { s6 with
                reg := wr s6.reg p e7
                page := O.mmap_page s6.page
                mem := O.mmap_mem s6.mem }
            let s8 := release_enclave_metadata_lock s7
            some (0, { s8 with mem := copy_word_to_host s8.mem a.eid_ptr (ulong e7.eid % 2 ^ 32) })

/-! ## Reading the registry as a list of slots -/

/-- The nodes reachable from a pointer along `next_link_mem`, in list order;
`none` when the fuel does not reach `NULL`. -/
def chain (r : registry_t) : Nat → Option Nat → Option (List Nat)
  | _, none => some []
  | 0, some _ => none
  | fuel + 1, some cur =>
    match chain r fuel (r.link_mem cur).next_link_mem with
    | none => none
    | some ns => some (cur :: ns)

/-- The nodes of the registry list, from `enclave_metadata_head`. -/
def nodes (r : registry_t) : Option (List Nat) :=
  chain r r.link_mem_num r.enclave_metadata_head

/-- Pointers to the `slab_num` slots of one node, by offset. -/
def node_slots (r : registry_t) (n : Nat) : List (Nat × Nat) :=
  (List.range (r.link_mem n).slab_num).map (fun i => (n, i))

/-- Pointers to the slots of a list of nodes, node by node: position `k` of this list is
the slot with global index `k`. -/
def slots (r : registry_t) : List Nat → List (Nat × Nat)
  | [] => []
  | n :: ns => node_slots r n ++ slots r ns

/-- Two registries have the same node list: the same globals, the same number of nodes
and, in every node, the same header (every field but the content of the slabs). -/
def same_list (r r1 : registry_t) : Prop :=
  r1.link_mem_num = r.link_mem_num ∧
  r1.enclave_metadata_head = r.enclave_metadata_head ∧
  r1.enclave_metadata_tail = r.enclave_metadata_tail ∧
  ∀ n, (r1.link_mem n).next_link_mem = (r.link_mem n).next_link_mem ∧
    (r1.link_mem n).slab_num = (r.link_mem n).slab_num ∧
    (r1.link_mem n).slab_size = (r.link_mem n).slab_size ∧
    (r1.link_mem n).mem_size = (r.link_mem n).mem_size ∧
    (r1.link_mem n).addr = (r.link_mem n).addr ∧
    (r1.link_mem n).base = (r.link_mem n).base

/-- A call was rejected without effect: it returns `-1UL` and leaves the register frame,
every descriptor and the rest of the registry, the per-hart table, the CSRs and memory as
they were. -/
def rejected (s : sm_state) (regs : Nat → Nat) (c : Option call_t) : Prop :=
  ∃ c1, c = some c1 ∧ c1.ret = FAIL ∧ c1.regs = regs ∧ c1.st.reg = s.reg ∧
    c1.st.cpus = s.cpus ∧ c1.st.csrs = s.csrs ∧ c1.st.mem = s.mem ∧
    c1.st.pma = s.pma ∧ c1.st.vma = s.vma ∧ c1.st.page = s.page

/-- The number of slabs of every node: the `slab_num` that `init_mem_link` computes for
the head and that `add_link_mem` copies to every later node. -/
def slabs_per_node (K : consts) : Nat :=
  ((K.ENCLAVE_METADATA_REGION_SIZE + 2 ^ 64 - K.sizeof_link_mem_t) % 2 ^ 64) / K.sizeof_enclave_t

/-- Shape of a registry whose list is the head alone (arena index 0), with `N` slabs of
which exactly the first `j` are occupied. -/
def one_node (N j : Nat) (r : registry_t) : Prop :=
  r.link_mem_num = 1 ∧ r.enclave_metadata_head = some 0 ∧ r.enclave_metadata_tail = some 0 ∧
  (r.link_mem 0).slab_num = N ∧ (r.link_mem 0).next_link_mem = none ∧
  (∀ i, i < j → (rd r (0, i)).state ≠ INVALID) ∧
  (∀ i, j ≤ i → (rd r (0, i)).state = INVALID)

/-- Shape of a registry with `num` nodes in the arena whose list is the head (index 0)
followed by node `b`, both with `N` slabs, while `enclave_metadata_tail` is the head: the
head is full and exactly the first `j` slabs of node `b` are occupied. -/
def two_nodes (N num b j : Nat) (r : registry_t) : Prop :=
  r.link_mem_num = num ∧ r.enclave_metadata_head = some 0 ∧ r.enclave_metadata_tail = some 0 ∧
  (r.link_mem 0).slab_num = N ∧ (r.link_mem 0).next_link_mem = some b ∧ b ≠ 0 ∧ b < num ∧
  (r.link_mem b).slab_num = N ∧ (r.link_mem b).next_link_mem = none ∧
  (∀ i, i < N → (rd r (0, i)).state ≠ INVALID) ∧
  (∀ i, i < j → (rd r (b, i)).state ≠ INVALID) ∧
  (∀ i, j ≤ i → (rd r (b, i)).state = INVALID)

/-! ## Example configurations and states -/

/-- A configuration with two slabs per node: `(240 - 40) / 100 = 2`. -/
def consts_two : consts where
  ENCLAVE_METADATA_REGION_SIZE := 240
  sizeof_enclave_t := 100
  sizeof_link_mem_t := 40
  ENCLAVE_TIMER_IRQ := 1
  ENCLAVE_OCALL := 2
  ENCLAVE_ERROR := 3
  OCALL_MMAP := 1
  OCALL_UNMAP := 2
  OCALL_SYS_WRITE := 3
  ENCLAVE_DEFAULT_STACK := 4096
  sizeof_pm_area_struct := 32
  SATP_MODE_CHOICE := 2 ^ 63
  ENCLAVE_DEFAULT_TEXT_BASE := 4096
  ENCLAVE_DEFAULT_STACK_BASE := 2 ^ 38
  ENCLAVE_DEFAULT_HEAP_BASE := 2 ^ 37
  ENCLAVE_DEFAULT_KBUFFER := 2 ^ 39

/-- A backing allocator that succeeds. -/
def mm_ok : mm_oracle := { init := some 4096, add := some 8192 }

/-- Call `alloc_enclave` `n` times in a row with a succeeding allocator; returns the
descriptors handed out, each with the `eid` it carries when it is returned, and the
final registry. -/
def alloc_many (K : consts) : Nat → registry_t → Option (List ((Nat × Nat) × Int) × registry_t)
  | 0, r => some ([], r)
  | n + 1, r =>
    match alloc_enclave K mm_ok r with
    | some (some p, r1) =>
      match alloc_many K n r1 with
      | some (es, r2) => some ((p, (rd r1 p).eid) :: es, r2)
      | none => none
    | _ => none

/-- The registry after `n` allocations from the empty registry (two slabs per node). -/
def reg_after (n : Nat) : registry_t :=
  match alloc_many consts_two n registry_empty with
  | some (_, r) => r
  | none => registry_empty

/-- The registry after one allocation followed by `free_enclave(0)`. -/
def reg_freed : registry_t :=
  match free_enclave (reg_after 1) 0 with
  | some (_, r) => r
  | none => registry_empty

/-- The machine after boot: zeroed per-hart table (`cpus` is a zero-initialised static),
empty registry, free lock; every hart runs the host process whose `satp` is 7. -/
def sm_boot : sm_state where
  cpus := fun _ => { in_enclave := 0, eid := 0 }
  csrs := fun _ =>
    { satp := 7, stvec := 11, mie := 0, mip := 0, mideleg := 0, medeleg := 0, mepc := 13,
      mstatus := 0 }
  enclave_metadata_lock := false
  reg := registry_empty
  mem := fun _ => 0
  pma := fun _ => ⟨0, 0, 0, 0⟩
  vma := fun _ => ⟨0, 0, 0, 0⟩
  page := fun _ => ⟨0, 0⟩

/-- Creation arguments of the first end-to-end scenario of the specification, with the
four OCALL slots and `eid_ptr` in host memory. -/
def args_example : enclave_sbi_param_t where
  paddr := 0x80000000
  size := 0x100000
  entry_point := 0x80001000
  untrusted_ptr := 0
  untrusted_size := 0
  free_mem := 0x80080000
  kbuffer := 0x80002000
  kbuffer_size := 0x1000
  eid_ptr := 0x1000
  ecall_arg0 := 0x2000
  ecall_arg1 := 0x2008
  ecall_arg2 := 0x2010
  ecall_arg3 := 0x2018

/-- External collaborators that succeed: the allocator returns regions, `traverse_vmas`
leaves one text area, and `mmap` takes no free page. -/
def oracle_example : create_oracle where
  mm := mm_ok
  traverse_vmas := fun _ a =>
    if a = 0x80000020 then { va_start := 4096, va_end := 8192, vm_next := 0, pma := 0 }
    else ⟨0, 0, 0, 0⟩
  vma_fuel := 16
  mmap_free_pages := fun fp => fp
  mmap_page := fun pg => pg
  mmap_mem := fun m => m

/-- Platform hooks that all succeed. -/
def platform_ok : platform_t where
  grant_enclave_access := 0
  platform_check_in_enclave_world := 0
  platform_check_enclave_authentication := 0

/-- The state of a call that returned (the boot state stands in for a call that did not). -/
def state_of (c : Option call_t) : sm_state :=
  match c with
  | some c1 => c1.st
  | none => sm_boot

/-- The machine after the host created enclave 0 on hart 0. -/
def sm_created : sm_state :=
  match create_enclave consts_two oracle_example 0 args_example sm_boot with
  | some (_, s) => s
  | none => sm_boot

/-- The machine after enclave 0 was created and entered on hart 0 (`run_enclave`). -/
def sm_running : sm_state :=
  state_of (run_enclave consts_two platform_ok 0 (fun _ => 0) 0 sm_created)

/-- The machine after the running enclave 0 made the `sys_write` OCALL on hart 0. -/
def sm_ocalling : sm_state :=
  state_of (enclave_sys_write consts_two platform_ok 0 (fun _ => 0) sm_running)

/-- The machine after the running enclave 0 was preempted by the timer on hart 0. -/
def sm_runnable : sm_state :=
  state_of (do_timer_irq consts_two 0 (fun _ => 0) sm_running)

/-- The machine of `sm_created` while another host process (`satp = 9`) runs on every
hart. -/
def sm_foreign : sm_state :=
  { sm_created with
    csrs := fun _ =>
      { satp := 9, stvec := 11, mie := 0, mip := 0, mideleg := 0, medeleg := 0, mepc := 13,
        mstatus := 0 } }

/-- A register frame of the enclave with `a0 = 5`. -/
def regs_a0_five : Nat → Nat := fun i => if i = 10 then 5 else 0

/-- The state in which `exit_enclave` calls `free_enclave` for the descriptor `p` it
found: after the swap to the host and the `memset` of the enclave region (`mm_free` is
outside the state). -/
def exit_enclave_scrubbed (h : Nat) (regs : Nat → Nat) (p : Nat × Nat) (s : sm_state) :
    sm_state :=
  memset_state (swap_from_enclave_to_host h regs p (acquire_enclave_metadata_lock s)).2.2
    (rd (swap_from_enclave_to_host h regs p (acquire_enclave_metadata_lock s)).2.2.reg p).paddr
    (rd (swap_from_enclave_to_host h regs p (acquire_enclave_metadata_lock s)).2.2.reg p).size

/-- `swap_from_host_to_enclave` followed immediately by `swap_from_enclave_to_host` on the
frame and the state that the first swap leaves. -/
def swap_round_trip (P : platform_t) (h : Nat) (regs : Nat → Nat) (p : Nat × Nat)
    (s : sm_state) : Int × (Nat → Nat) × sm_state :=
  swap_from_enclave_to_host h (swap_from_host_to_enclave P h regs p s).2.1 p
    (swap_from_host_to_enclave P h regs p s).2.2

/-- Creation arguments that `create_enclave` rejects: `free_mem` is not page aligned. -/
def args_misaligned : enclave_sbi_param_t := { args_example with free_mem := 0x80080001 }

/-- The machine after `create_enclave` rejected `args_misaligned` on the boot state. -/
def sm_rejected : sm_state :=
  match create_enclave consts_two oracle_example 0 args_misaligned sm_boot with
  | some (_, s) => s
  | none => sm_boot

/-- The machine after a successful `create_enclave` that follows the rejected one. -/
def sm_created_after_rejected : sm_state :=
  match create_enclave consts_two oracle_example 0 args_example sm_rejected with
  | some (_, s) => s
  | none => sm_boot

/-- Creation arguments for a region at physical address 0 with `free_mem = 0`: they pass
the `free_mem` and the `kbuffer` validation. -/
def args_zero : enclave_sbi_param_t :=
  { args_example with paddr := 0, size := 0x2000, free_mem := 0 }

/-! ## The step relation of the entry points -/

/-- One call of an entry point on a hart `h`, together with what the platform hooks and the
external collaborators do during the call. -/
inductive event where
  | create (O : create_oracle) (h : Nat) (a : enclave_sbi_param_t)
  | run (P : platform_t) (h : Nat) (regs : Nat → Nat) (eid : Nat)
  | stop (h : Nat) (regs : Nat → Nat) (eid : Nat)
  | resume_from_stop (h : Nat) (regs : Nat → Nat) (eid : Nat)
  | resume (P : platform_t) (h : Nat) (regs : Nat → Nat) (eid : Nat)
  | resume_from_ocall (P : platform_t) (h : Nat) (regs : Nat → Nat) (eid : Nat)
  | sys_write (P : platform_t) (h : Nat) (regs : Nat → Nat)
  | timer_irq (h : Nat) (regs : Nat → Nat)
  | exit (P : platform_t) (h : Nat) (regs : Nat → Nat)

/-- The state an entry point leaves (`none` when the call does not return). -/
def step (K : consts) : event → sm_state → Option sm_state
  | .create O h a, s => (create_enclave K O h a s).map Prod.snd
  | .run P h regs eid, s => (run_enclave K P h regs eid s).map call_t.st
  | .stop h regs eid, s => (stop_enclave h regs eid s).map call_t.st
  | .resume_from_stop h regs eid, s => (resume_from_stop h regs eid s).map call_t.st
  | .resume P h regs eid, s => (resume_enclave K P h regs eid s).map call_t.st
  | .resume_from_ocall P h regs eid, s => (resume_from_ocall K P h regs eid s).map call_t.st
  | .sys_write P h regs, s => (enclave_sys_write K P h regs s).map call_t.st
  | .timer_irq h regs, s => (do_timer_irq K h regs s).map call_t.st
  | .exit P h regs, s => (exit_enclave P h regs s).map call_t.st

/-- The state after a sequence of calls, each running to completion under the lock. -/
def run_events (K : consts) : List event → sm_state → Option sm_state
  | [], s => some s
  | e :: es, s =>
    match step K e s with
    | none => none
    | some s1 => run_events K es s1

/-- Hart `h` is recorded as executing the enclave of descriptor `p`: its per-hart record
has `in_enclave` set and carries the descriptor's `eid`. -/
def executing (s : sm_state) (h : Nat) (p : Nat × Nat) : Prop :=
  (s.cpus h).in_enclave ≠ 0 ∧ (s.cpus h).eid = (rd s.reg p).eid

/-- The boot state of the monitor: empty registry, no hart in the enclave world. -/
def boot (s : sm_state) : Prop :=
  s.reg.link_mem_num = 0 ∧ s.reg.enclave_metadata_head = none ∧
    ∀ h, (s.cpus h).in_enclave = 0

/-- The calls of a disciplined run: `stop_enclave` addresses a descriptor that no hart is
executing, the timer interrupt is taken on a hart that is in the enclave world, and
`create_enclave` does not make the registry list grow a second time (a slot of the list is
`INVALID`, or the arena holds at most the head node). -/
def admissible (e : event) (s : sm_state) : Prop :=
  match e with
  | .stop _ _ eid =>
    ∀ p, get_enclave s.reg (int_of_uint eid) = some (some p) → ∀ h1, ¬ executing s h1 p
  | .timer_irq h _ => (s.cpus h).in_enclave ≠ 0
  | .create _ _ _ =>
    s.reg.link_mem_num ≤ 1 ∨
      ∃ (ns : List Nat) (k : Nat) (p : Nat × Nat), nodes s.reg = some ns ∧
        (slots s.reg ns)[k]? = some p ∧
        (rd s.reg p).state = INVALID
  | _ => True

/-- Every call of the sequence is admissible in the state in which it is made. -/
def admissible_trace (K : consts) : List event → sm_state → Prop
  | [], _ => True
  | e :: es, s => admissible e s ∧ ∀ s1, step K e s = some s1 → admissible_trace K es s1

/-- Shape of the registry before any second growth: empty, the head alone (arena index 0)
or the head followed by arena index 1, every node with `N` slabs and
`enclave_metadata_tail` on the head. -/
def reg_shape (N : Nat) (r : registry_t) (ns : List Nat) : Prop :=
  (r.link_mem_num = 0 ∧ r.enclave_metadata_head = none ∧ ns = []) ∨
  (r.link_mem_num = 1 ∧ r.enclave_metadata_head = some 0 ∧ r.enclave_metadata_tail = some 0 ∧
    (r.link_mem 0).slab_num = N ∧ (r.link_mem 0).next_link_mem = none ∧ ns = [0]) ∨
  (r.link_mem_num = 2 ∧ r.enclave_metadata_head = some 0 ∧ r.enclave_metadata_tail = some 0 ∧
    (r.link_mem 0).slab_num = N ∧ (r.link_mem 0).next_link_mem = some 1 ∧
    (r.link_mem 1).slab_num = N ∧ (r.link_mem 1).next_link_mem = none ∧ ns = [0, 1])

/-- Every occupied slot of the list carries its global index as `eid`. -/
def eid_is_index (r : registry_t) (ns : List Nat) : Prop :=
  ∀ (k : Nat) (p : Nat × Nat), (slots r ns)[k]? = some p → (rd r p).state ≠ INVALID →
    (rd r p).eid = (k : Int)

/-- The inductive invariant of the disciplined runs: the registry has one of the three
shapes, occupied slots carry their index as `eid`, every hart in the enclave world
records the index of a slot in state `RUNNING`, and no two harts record the same one. -/
def world_inv (N : Nat) (s : sm_state) (ns : List Nat) : Prop :=
  reg_shape N s.reg ns ∧ eid_is_index s.reg ns ∧
  (∀ h, (s.cpus h).in_enclave ≠ 0 →
    ∃ (k : Nat) (p : Nat × Nat), (s.cpus h).eid = (k : Int) ∧ (slots s.reg ns)[k]? = some p ∧
      (rd s.reg p).state = RUNNING) ∧
  (∀ h1 h2, (s.cpus h1).in_enclave ≠ 0 → (s.cpus h2).in_enclave ≠ 0 →
    (s.cpus h1).eid = (s.cpus h2).eid → h1 = h2)

/-- Effect of a call on one descriptor `p`: the list and every other descriptor are as
before and `p` keeps its `eid`. -/
def slot_frame (r r1 : registry_t) (p : Nat × Nat) : Prop :=
  same_list r r1 ∧ (∀ q, q ≠ p → rd r1 q = rd r q) ∧ (rd r1 p).eid = (rd r p).eid

/-- Hart `h` entered the enclave of descriptor `p`. -/
def enters (s s1 : sm_state) (h : Nat) (p : Nat × Nat) : Prop :=
  slot_frame s.reg s1.reg p ∧ (rd s1.reg p).state = RUNNING ∧
    s1.cpus = fun k => if k = h then ⟨1, (rd s.reg p).eid⟩ else s.cpus k

/-- Hart `h` left the enclave of descriptor `p`, which is freed or keeps its `eid`. -/
def leaves (s s1 : sm_state) (h : Nat) (p : Nat × Nat) : Prop :=
  same_list s.reg s1.reg ∧ (∀ q, q ≠ p → rd s1.reg q = rd s.reg q) ∧
    ((rd s1.reg p).state = INVALID ∨ (rd s1.reg p).eid = (rd s.reg p).eid) ∧
    s1.cpus = fun k => if k = h then ⟨0, -1⟩ else s.cpus k

/-- The host changed descriptor `p` without touching any hart. -/
def retags (s s1 : sm_state) (p : Nat × Nat) : Prop :=
  slot_frame s.reg s1.reg p ∧ s1.cpus = s.cpus

/-- The calls that lead to `sm_stopped_live`: create and run enclave 0 on hart 0, then
stop it from hart 1. -/
def trace_stop_live : List event :=
  [.create oracle_example 0 args_example, .run platform_ok 0 (fun _ => 0) 0,
    .stop 1 (fun _ => 0) 0]

/-- A disciplined run: create and run enclave 0 on hart 0, timer interrupt on hart 0,
resume on hart 0, then the `sys_write` OCALL on hart 0. -/
def trace_preempt : List event :=
  [.create oracle_example 0 args_example, .run platform_ok 0 (fun _ => 0) 0,
    .timer_irq 0 (fun _ => 0), .resume platform_ok 0 (fun _ => 0) 0,
    .sys_write platform_ok 0 (fun _ => 0)]

/-- The state a sequence of calls reaches from the boot state (the boot state stands in
for a sequence that does not return). -/
def sm_after (es : List event) : sm_state :=
  (run_events consts_two es sm_boot).getD sm_boot

/-- An undisciplined run: create and run enclave 0 on hart 0, then a timer interrupt is
handled on hart 1, which is not in the enclave world. -/
def trace_timer_host : List event :=
  [.create oracle_example 0 args_example, .run platform_ok 0 (fun _ => 0) 0,
    .timer_irq 1 (fun _ => 0)]

/-- An undisciplined run with two slabs per node: five creations (the fifth grows the list
a second time), `run_enclave(2)` on hart 0, and two more creations (the second grows the
list a third time). -/
def trace_regrow : List event :=
  [.create oracle_example 0 args_example, .create oracle_example 0 args_example,
    .create oracle_example 0 args_example, .create oracle_example 0 args_example,
    .create oracle_example 0 args_example, .run platform_ok 0 (fun _ => 0) 2,
    .create oracle_example 0 args_example, .create oracle_example 0 args_example]

/-- Five creations by the host on hart 0, with two slabs per node: the fifth grows the
list a second time. -/
def trace_five : List event :=
  [.create oracle_example 0 args_example, .create oracle_example 0 args_example,
    .create oracle_example 0 args_example, .create oracle_example 0 args_example,
    .create oracle_example 0 args_example]

/-- Five creations, then `run_enclave(regs, 2)` by the host on hart 0. -/
def trace_five_run : List event :=
  trace_five ++ [.run platform_ok 0 (fun _ => 0) 2]

/-! ## The free-page list -/

/-- The addresses of the pages reachable from `head` along `next`, in list order (`0` is
`NULL`); `none` when the fuel does not reach `NULL`. -/
def page_list (pg : Nat → page_t) : Nat → Nat → Option (List Nat)
  | 0, head => if head = 0 then some [] else none
  | fuel + 1, head =>
    if head = 0 then some []
    else
      match page_list pg fuel (pg head).next with
      | none => none
      | some l => some (head :: l)

/-- Creation arguments whose region does not end on a page boundary: they pass the
`free_mem` and the `kbuffer` validation. -/
def args_unaligned : enclave_sbi_param_t :=
  { args_example with size := 0x100800, free_mem := 0x800FC000 }

/-! ## Lemmas on the registry loops -/

theorem node_slots_length (r : registry_t) (n : Nat) :
    (node_slots r n).length = (r.link_mem n).slab_num := by
  simp [node_slots]

theorem node_slots_getElem? (r : registry_t) (n i : Nat) (h : i < (r.link_mem n).slab_num) :
    (node_slots r n)[i]? = some (n, i) := by
  simp [node_slots, List.getElem?_map, List.getElem?_range h]

theorem mem_node_slots (r : registry_t) (n : Nat) (q : Nat × Nat) :
    q ∈ node_slots r n ↔ q.1 = n ∧ q.2 < (r.link_mem n).slab_num := by
  simp only [node_slots, List.mem_map, List.mem_range]
  constructor
  · rintro ⟨i, hi, rfl⟩
    exact ⟨rfl, hi⟩
  · obtain ⟨a, b⟩ := q
    rintro ⟨h1, h2⟩
    simp only at h1 h2
    subst h1
    exact ⟨b, h2, rfl⟩

theorem alloc_enclave_slabs_none (r : registry_t) (cur : Nat) :
    ∀ (n i : Nat) (eid : Int),
      (∀ j, j < n → (rd r (cur, i + j)).state ≠ INVALID) →
      alloc_enclave_slabs r cur n i eid = (none, eid + n, r) := by
  intro n
  induction n with
  | zero => intro i eid _; simp [alloc_enclave_slabs]
  | succ n ih =>
    intro i eid h
    have h0 := h 0 (Nat.succ_pos n)
    simp only [Nat.add_zero] at h0
    rw [alloc_enclave_slabs, if_neg h0, ih (i + 1) (eid + 1)]
    · congr 2
      push_cast
      ring
    · intro j hj
      have := h (j + 1) (Nat.succ_lt_succ hj)
      rwa [show i + 1 + j = i + (j + 1) by omega]

theorem alloc_enclave_slabs_found (r : registry_t) (cur : Nat) :
    ∀ (n i k : Nat) (eid : Int), k < n →
      (rd r (cur, i + k)).state = INVALID →
      (∀ j, j < k → (rd r (cur, i + j)).state ≠ INVALID) →
      alloc_enclave_slabs r cur n i eid
        = (some (cur, i + k), eid + k, wr r (cur, i + k) (enclave_fresh (eid + k))) := by
  intro n
  induction n with
  | zero => intro i k eid hk; omega
  | succ n ih =>
    intro i k eid hk hinv hmin
    cases k with
    | zero =>
      simp only [Nat.add_zero] at hinv
      simp [alloc_enclave_slabs, hinv]
    | succ k =>
      have h0 := hmin 0 (Nat.succ_pos k)
      simp only [Nat.add_zero] at h0
      rw [alloc_enclave_slabs, if_neg h0, ih (i + 1) k (eid + 1) (by omega)]
      · have e1 : i + 1 + k = i + (k + 1) := by omega
        have e2 : eid + 1 + (k : Int) = eid + ((k + 1 : Nat) : Int) := by push_cast; ring
        rw [e1, e2]
      · rwa [show i + 1 + k = i + (k + 1) by omega]
      · intro j hj
        have := hmin (j + 1) (Nat.succ_lt_succ hj)
        rwa [show i + 1 + j = i + (j + 1) by omega]

theorem chain_none_ptr (r : registry_t) (fuel : Nat) : chain r fuel none = some [] := by
  cases fuel <;> rfl

theorem chain_succ (r : registry_t) (fuel cur : Nat) :
    chain r (fuel + 1) (some cur)
      = (chain r fuel (r.link_mem cur).next_link_mem).map (fun ns => cur :: ns) := by
  rw [chain]
  cases chain r fuel (r.link_mem cur).next_link_mem <;> rfl

theorem alloc_enclave_nodes_none (r : registry_t) :
    ∀ (fuel : Nat) (cur : Option Nat) (ns : List Nat) (eid : Int),
      chain r fuel cur = some ns →
      (∀ q, q ∈ slots r ns → (rd r q).state ≠ INVALID) →
      alloc_enclave_nodes r fuel cur eid = some (none, eid + (slots r ns).length, r) := by
  intro fuel
  induction fuel with
  | zero =>
    intro cur ns eid hc _
    cases cur with
    | none =>
      simp only [chain, Option.some.injEq] at hc
      subst hc
      simp [alloc_enclave_nodes, slots]
    | some c => simp [chain] at hc
  | succ fuel ih =>
    intro cur ns eid hc hall
    cases cur with
    | none =>
      simp only [chain, Option.some.injEq] at hc
      subst hc
      simp [alloc_enclave_nodes, slots]
    | some c =>
      rw [chain_succ] at hc
      cases hn : chain r fuel (r.link_mem c).next_link_mem with
      | none => simp [hn] at hc
      | some ns1 =>
        simp only [hn, Option.map_some', Option.some.injEq] at hc
        subst hc
        have hA := alloc_enclave_slabs_none r c (r.link_mem c).slab_num 0 eid (by
          intro j hj
          apply hall
          simp only [slots, List.mem_append]
          left
          rw [mem_node_slots]
          exact ⟨rfl, by simpa using hj⟩)
        rw [alloc_enclave_nodes, hA]
        simp only
        rw [ih _ ns1 _ hn (fun q hq => hall q (by simp only [slots, List.mem_append]; exact Or.inr hq))]
        simp only [slots, List.length_append, node_slots_length]
        congr 3
        push_cast
        ring

theorem alloc_enclave_nodes_found (r : registry_t) :
    ∀ (fuel : Nat) (cur : Option Nat) (ns : List Nat) (k : Nat) (p : Nat × Nat) (eid : Int),
      chain r fuel cur = some ns →
      (slots r ns)[k]? = some p →
      (rd r p).state = INVALID →
      (∀ j q, j < k → (slots r ns)[j]? = some q → (rd r q).state ≠ INVALID) →
      alloc_enclave_nodes r fuel cur eid
        = some (some p, eid + k, wr r p (enclave_fresh (eid + k))) := by
  intro fuel
  induction fuel with
  | zero =>
    intro cur ns k p eid hc hk
    cases cur with
    | none =>
      simp only [chain, Option.some.injEq] at hc
      subst hc
      simp [slots] at hk
    | some c => simp [chain] at hc
  | succ fuel ih =>
    intro cur ns k p eid hc hk hinv hmin
    cases cur with
    | none =>
      simp only [chain, Option.some.injEq] at hc
      subst hc
      simp [slots] at hk
    | some c =>
      rw [chain_succ] at hc
      cases hn : chain r fuel (r.link_mem c).next_link_mem with
      | none => simp [hn] at hc
      | some ns1 =>
        simp only [hn, Option.map_some', Option.some.injEq] at hc
        subst hc
        simp only [slots] at hk hmin
        by_cases hlt : k < (r.link_mem c).slab_num
        · rw [List.getElem?_append_left (by rw [node_slots_length]; exact hlt),
            node_slots_getElem? r c k hlt] at hk
          simp only [Option.some.injEq] at hk
          subst hk
          have hA := alloc_enclave_slabs_found r c (r.link_mem c).slab_num 0 k eid hlt
            (by simpa using hinv)
            (by
              intro j hj
              have := hmin j (c, j) hj (by
                rw [List.getElem?_append_left (by rw [node_slots_length]; omega),
                  node_slots_getElem? r c j (by omega)])
              simpa using this)
          simp only [Nat.zero_add] at hA
          rw [alloc_enclave_nodes, hA]
        · have hge : (r.link_mem c).slab_num ≤ k := Nat.le_of_not_lt hlt
          rw [List.getElem?_append_right (by rw [node_slots_length]; exact hge),
            node_slots_length] at hk
          have hA := alloc_enclave_slabs_none r c (r.link_mem c).slab_num 0 eid (by
            intro j hj
            have := hmin j (c, j) (by omega) (by
              rw [List.getElem?_append_left (by rw [node_slots_length]; omega),
                node_slots_getElem? r c j (by omega)])
            simpa using this)
          rw [alloc_enclave_nodes, hA]
          simp only
          rw [ih _ ns1 (k - (r.link_mem c).slab_num) p _ hn hk hinv (by
            intro j q hj hq
            apply hmin (j + (r.link_mem c).slab_num) q (by omega)
            rw [List.getElem?_append_right (by rw [node_slots_length]; omega),
              node_slots_length]
            rwa [Nat.add_sub_cancel])]
          have e : eid + ((r.link_mem c).slab_num : Int) + ((k - (r.link_mem c).slab_num : Nat) : Int)
              = eid + (k : Int) := by
            rw [Nat.cast_sub hge]
            ring
          rw [e]

theorem get_enclave_nodes_eq (r : registry_t) (eid : Int) :
    ∀ (fuel : Nat) (cur : Option Nat) (ns : List Nat) (count : Nat),
      chain r fuel cur = some ns → count ≤ ulong eid →
      get_enclave_nodes r eid fuel cur count = some ((slots r ns)[ulong eid - count]?) := by
  intro fuel
  induction fuel with
  | zero =>
    intro cur ns count hc _
    cases cur with
    | none =>
      simp only [chain, Option.some.injEq] at hc
      subst hc
      simp [get_enclave_nodes, slots]
    | some c => simp [chain] at hc
  | succ fuel ih =>
    intro cur ns count hc hle
    cases cur with
    | none =>
      simp only [chain, Option.some.injEq] at hc
      subst hc
      simp [get_enclave_nodes, slots]
    | some c =>
      rw [chain_succ] at hc
      cases hn : chain r fuel (r.link_mem c).next_link_mem with
      | none => simp [hn] at hc
      | some ns1 =>
        simp only [hn, Option.map_some', Option.some.injEq] at hc
        subst hc
        rw [get_enclave_nodes]
        simp only [slots]
        by_cases hlt : ulong eid < count + (r.link_mem c).slab_num
        · rw [if_pos hlt, List.getElem?_append_left (by rw [node_slots_length]; omega),
            node_slots_getElem? r c _ (by omega)]
        · rw [if_neg hlt, ih _ ns1 _ hn (by omega),
            List.getElem?_append_right (by rw [node_slots_length]; omega), node_slots_length]
          congr 2
          omega

theorem free_enclave_nodes_eq (r : registry_t) (eid : Int) :
    ∀ (fuel : Nat) (cur : Option Nat) (ns : List Nat) (count : Nat),
      chain r fuel cur = some ns → count ≤ ulong eid →
      free_enclave_nodes r eid fuel cur count
        = some (match (slots r ns)[ulong eid - count]? with
            | some p => (0, wr r p { enclave_zero with state := INVALID })
            | none => (-1, r)) := by
  intro fuel
  induction fuel with
  | zero =>
    intro cur ns count hc _
    cases cur with
    | none =>
      simp only [chain, Option.some.injEq] at hc
      subst hc
      simp [free_enclave_nodes, slots]
    | some c => simp [chain] at hc
  | succ fuel ih =>
    intro cur ns count hc hle
    cases cur with
    | none =>
      simp only [chain, Option.some.injEq] at hc
      subst hc
      simp [free_enclave_nodes, slots]
    | some c =>
      rw [chain_succ] at hc
      cases hn : chain r fuel (r.link_mem c).next_link_mem with
      | none => simp [hn] at hc
      | some ns1 =>
        simp only [hn, Option.map_some', Option.some.injEq] at hc
        subst hc
        rw [free_enclave_nodes]
        simp only [slots]
        by_cases hlt : ulong eid < count + (r.link_mem c).slab_num
        · rw [if_pos hlt, List.getElem?_append_left (by rw [node_slots_length]; omega),
            node_slots_getElem? r c _ (by omega)]
        · rw [if_neg hlt, ih _ ns1 _ hn (by omega),
            List.getElem?_append_right (by rw [node_slots_length]; omega), node_slots_length]
          have e : ulong eid - (count + (r.link_mem c).slab_num)
              = ulong eid - count - (r.link_mem c).slab_num := by omega
          rw [e]

theorem get_enclave_eq (r : registry_t) (eid : Int) (ns : List Nat) (h : nodes r = some ns) :
    get_enclave r eid = some ((slots r ns)[ulong eid]?) := by
  have := get_enclave_nodes_eq r eid r.link_mem_num r.enclave_metadata_head ns 0 h (Nat.zero_le _)
  simpa [get_enclave] using this

theorem free_enclave_eq (r : registry_t) (eid : Int) (ns : List Nat) (h : nodes r = some ns) :
    free_enclave r eid
      = some (match (slots r ns)[ulong eid]? with
          | some p => (0, wr r p { enclave_zero with state := INVALID })
          | none => (-1, r)) := by
  have := free_enclave_nodes_eq r eid r.link_mem_num r.enclave_metadata_head ns 0 h (Nat.zero_le _)
  simpa [free_enclave] using this


/-! ## Lemmas on stores -/

theorem rd_wr_same (r : registry_t) (p : Nat × Nat) (e : enclave_t) : rd (wr r p e) p = e := by
  simp [rd, wr, set_link_mem]

theorem rd_wr_ne (r : registry_t) (p q : Nat × Nat) (e : enclave_t) (h : q ≠ p) :
    rd (wr r p e) q = rd r q := by
  obtain ⟨p1, p2⟩ := p
  obtain ⟨q1, q2⟩ := q
  simp only [rd, wr, set_link_mem]
  by_cases h1 : q1 = p1
  · subst h1
    have h2 : q2 ≠ p2 := fun h2 => h (by rw [h2])
    simp [h2]
  · simp [h1]

theorem wr_next (r : registry_t) (p : Nat × Nat) (e : enclave_t) (n : Nat) :
    ((wr r p e).link_mem n).next_link_mem = (r.link_mem n).next_link_mem := by
  simp only [wr, set_link_mem]
  by_cases h : n = p.1
  · subst h; simp
  · simp [h]

theorem wr_slab_num (r : registry_t) (p : Nat × Nat) (e : enclave_t) (n : Nat) :
    ((wr r p e).link_mem n).slab_num = (r.link_mem n).slab_num := by
  simp only [wr, set_link_mem]
  by_cases h : n = p.1
  · subst h; simp
  · simp [h]

theorem chain_wr (r : registry_t) (p : Nat × Nat) (e : enclave_t) :
    ∀ (fuel : Nat) (cur : Option Nat), chain (wr r p e) fuel cur = chain r fuel cur := by
  intro fuel
  induction fuel with
  | zero => intro cur; cases cur <;> rfl
  | succ fuel ih =>
    intro cur
    cases cur with
    | none => rfl
    | some c => rw [chain_succ, chain_succ, wr_next, ih]

theorem nodes_wr (r : registry_t) (p : Nat × Nat) (e : enclave_t) :
    nodes (wr r p e) = nodes r := by
  simp only [nodes]
  rw [chain_wr]
  rfl

theorem slots_wr (r : registry_t) (p : Nat × Nat) (e : enclave_t) (ns : List Nat) :
    slots (wr r p e) ns = slots r ns := by
  induction ns with
  | nil => rfl
  | cons n ns ih => simp only [slots, node_slots, wr_slab_num, ih]

theorem alloc_enclave_found (K : consts) (mm : mm_oracle) (r : registry_t)
    (ns : List Nat) (k : Nat) (p : Nat × Nat)
    (hns : nodes r = some ns)
    (hk : (slots r ns)[k]? = some p)
    (hinv : (rd r p).state = INVALID)
    (hmin : ∀ j q, j < k → (slots r ns)[j]? = some q → (rd r q).state ≠ INVALID) :
    alloc_enclave K mm r = some (some p, wr r p (enclave_fresh k)) := by
  have hhead : ∃ c, r.enclave_metadata_head = some c := by
    cases hh : r.enclave_metadata_head with
    | some c => exact ⟨c, rfl⟩
    | none =>
      simp only [nodes, hh, chain_none_ptr, Option.some.injEq] at hns
      subst hns
      simp [slots] at hk
  obtain ⟨c, hc⟩ := hhead
  have hB := alloc_enclave_nodes_found r r.link_mem_num r.enclave_metadata_head ns k p 0
    hns hk hinv hmin
  simp only [alloc_enclave, hc]
  rw [hc] at hB
  rw [hB]
  simp


theorem same_list_wr (r : registry_t) (p : Nat × Nat) (e : enclave_t) :
    same_list r (wr r p e) := by
  refine ⟨rfl, rfl, rfl, fun n => ?_⟩
  simp only [wr, set_link_mem]
  by_cases h : n = p.1
  · subst h; simp
  · simp [h]

theorem same_list_trans (r r1 r2 : registry_t) (h1 : same_list r r1) (h2 : same_list r1 r2) :
    same_list r r2 := by
  obtain ⟨a1, a2, a3, a4⟩ := h1
  obtain ⟨b1, b2, b3, b4⟩ := h2
  refine ⟨b1.trans a1, b2.trans a2, b3.trans a3, fun n => ?_⟩
  obtain ⟨c1, c2, c3, c4, c5, c6⟩ := a4 n
  obtain ⟨d1, d2, d3, d4, d5, d6⟩ := b4 n
  exact ⟨d1.trans c1, d2.trans c2, d3.trans c3, d4.trans c4, d5.trans c5, d6.trans c6⟩

theorem ulong_natCast (e : Nat) (h : e < 2 ^ 64) : ulong (e : Int) = e := by
  unfold ulong
  rw [Int.emod_eq_of_lt (by positivity) (by exact_mod_cast h)]
  simp

/-! ## The list of nodes has no repetition -/

theorem chain_unique (r : registry_t) :
    ∀ (f1 f2 : Nat) (cur : Option Nat) (l1 l2 : List Nat),
      chain r f1 cur = some l1 → chain r f2 cur = some l2 → l1 = l2 := by
  intro f1
  induction f1 with
  | zero =>
    intro f2 cur l1 l2 h1 h2
    cases cur with
    | none =>
      rw [chain_none_ptr] at h1 h2
      simp only [Option.some.injEq] at h1 h2
      rw [← h1, ← h2]
    | some c => simp [chain] at h1
  | succ f1 ih =>
    intro f2 cur l1 l2 h1 h2
    cases cur with
    | none =>
      rw [chain_none_ptr] at h1 h2
      simp only [Option.some.injEq] at h1 h2
      rw [← h1, ← h2]
    | some c =>
      cases f2 with
      | zero => simp [chain] at h2
      | succ f2 =>
        rw [chain_succ] at h1 h2
        cases hn1 : chain r f1 (r.link_mem c).next_link_mem with
        | none => simp [hn1] at h1
        | some m1 =>
          cases hn2 : chain r f2 (r.link_mem c).next_link_mem with
          | none => simp [hn2] at h2
          | some m2 =>
            simp only [hn1, hn2, Option.map_some', Option.some.injEq] at h1 h2
            rw [← h1, ← h2, ih f2 _ m1 m2 hn1 hn2]

theorem chain_mem_suffix (r : registry_t) :
    ∀ (f : Nat) (cur : Option Nat) (l : List Nat) (c : Nat),
      chain r f cur = some l → c ∈ l →
      ∃ f1 l1, chain r f1 (some c) = some (c :: l1) ∧ (c :: l1).length ≤ l.length := by
  intro f
  induction f with
  | zero =>
    intro cur l c h hc
    cases cur with
    | none =>
      rw [chain_none_ptr] at h
      simp only [Option.some.injEq] at h
      subst h
      simp at hc
    | some d => simp [chain] at h
  | succ f ih =>
    intro cur l c h hc
    cases cur with
    | none =>
      rw [chain_none_ptr] at h
      simp only [Option.some.injEq] at h
      subst h
      simp at hc
    | some d =>
      have h0 := h
      rw [chain_succ] at h
      cases hn : chain r f (r.link_mem d).next_link_mem with
      | none => simp [hn] at h
      | some m =>
        simp only [hn, Option.map_some', Option.some.injEq] at h
        subst h
        rcases List.mem_cons.mp hc with hcd | hcm
        · subst hcd
          exact ⟨f + 1, m, h0, le_refl _⟩
        · obtain ⟨f1, l1, e1, e2⟩ := ih _ m c hn hcm
          exact ⟨f1, l1, e1, by simp only [List.length_cons] at e2 ⊢; omega⟩

theorem chain_nodup (r : registry_t) :
    ∀ (f : Nat) (cur : Option Nat) (l : List Nat), chain r f cur = some l → l.Nodup := by
  intro f
  induction f with
  | zero =>
    intro cur l h
    cases cur with
    | none =>
      rw [chain_none_ptr] at h
      simp only [Option.some.injEq] at h
      subst h
      exact List.nodup_nil
    | some d => simp [chain] at h
  | succ f ih =>
    intro cur l h
    cases cur with
    | none =>
      rw [chain_none_ptr] at h
      simp only [Option.some.injEq] at h
      subst h
      exact List.nodup_nil
    | some d =>
      have h0 := h
      rw [chain_succ] at h
      cases hn : chain r f (r.link_mem d).next_link_mem with
      | none => simp [hn] at h
      | some m =>
        simp only [hn, Option.map_some', Option.some.injEq] at h
        subst h
        refine List.nodup_cons.mpr ⟨?_, ih _ m hn⟩
        intro hd
        obtain ⟨f1, l1, e1, e2⟩ := chain_mem_suffix r f _ m d hn hd
        have := chain_unique r _ _ _ _ _ e1 h0
        simp only [List.cons.injEq, true_and] at this
        subst this
        simp at e2

theorem mem_slots (r : registry_t) (ns : List Nat) (q : Nat × Nat) (h : q ∈ slots r ns) :
    q.1 ∈ ns := by
  induction ns with
  | nil => simp [slots] at h
  | cons n ns ih =>
    simp only [slots, List.mem_append] at h
    rcases h with h | h
    · rw [mem_node_slots] at h
      simp [h.1]
    · exact List.mem_cons_of_mem _ (ih h)

theorem slots_nodup (r : registry_t) (ns : List Nat) (h : ns.Nodup) : (slots r ns).Nodup := by
  induction ns with
  | nil => simp [slots]
  | cons n ns ih =>
    obtain ⟨hn, hns⟩ := List.nodup_cons.mp h
    simp only [slots]
    refine List.nodup_append.mpr ⟨?_, ih hns, ?_⟩
    · exact List.Nodup.map (fun a b hab => by simpa using hab) (List.nodup_range _)
    · intro q hq1 hq2
      rw [mem_node_slots] at hq1
      have := mem_slots r ns q hq2
      rw [hq1.1] at this
      exact hn this

theorem slots_index_unique (r : registry_t) (ns : List Nat) (h : nodes r = some ns)
    (i j : Nat) (p : Nat × Nat)
    (hi : (slots r ns)[i]? = some p) (hj : (slots r ns)[j]? = some p) : i = j := by
  have hnd := slots_nodup r ns (chain_nodup r _ _ ns h)
  have hil : i < (slots r ns).length := by
    by_contra hc
    rw [List.getElem?_eq_none (Nat.le_of_not_lt hc)] at hi
    simp at hi
  exact List.getElem?_inj hil hnd (hi.trans hj.symm)


/-! ## Registry properties -/

/-- C1 (defect in `add_link_mem`): with two slabs per node, six allocations in a row from
the empty registry, no free in between, hand out the eids 0, 1, 2, 3, 4, 3.  The sixth
descriptor (slot 1 of the third node) carries eid 3, the eid of the fourth descriptor
(slot 1 of the second node), and both are `FRESH` at the end: the eids are not pairwise
distinct once the list has grown twice. -/
theorem alloc_enclave_eid_repeats :
    (alloc_many consts_two 6 registry_empty).map (fun x => x.1)
        = some [((0, 0), 0), ((0, 1), 1), ((1, 0), 2), ((1, 1), 3), ((2, 0), 4), ((2, 1), 3)] ∧
      (rd (reg_after 6) (1, 1)).eid = 3 ∧ (rd (reg_after 6) (1, 1)).state = FRESH ∧
      (rd (reg_after 6) (2, 1)).eid = 3 ∧ (rd (reg_after 6) (2, 1)).state = FRESH := by
  decide

/-- C2 (same defect as C1): with two slabs per node, after five allocations and no free,
the third descriptor handed out, slot 0 of the second node, is `FRESH` with eid 2, but
`get_enclave(2)` returns slot 0 of the third node, whose eid field is 4 although its global
index in the list is 2; the second node is no longer in the list. -/
theorem get_enclave_misses_live_descriptor :
    (alloc_many consts_two 5 registry_empty).map (fun x => x.1)
        = some [((0, 0), 0), ((0, 1), 1), ((1, 0), 2), ((1, 1), 3), ((2, 0), 4)] ∧
      (rd (reg_after 5) (1, 0)).state = FRESH ∧ (rd (reg_after 5) (1, 0)).eid = 2 ∧
      get_enclave (reg_after 5) 2 = some (some (2, 0)) ∧
      nodes (reg_after 5) = some [0, 2] ∧
      (slots (reg_after 5) [0, 2])[2]? = some (2, 0) ∧
      (rd (reg_after 5) (2, 0)).eid = 4 := by
  decide

/-- C3: when the slot with global index `k` is `INVALID` and no slot with a lower global
index is, `alloc_enclave` returns that slot, leaves it zeroed except for state `FRESH` and
eid `k`, and changes no other slot and nothing of the node list. -/
theorem alloc_enclave_claims_lowest_invalid (K : consts) (mm : mm_oracle) (r : registry_t)
    (ns : List Nat) (k : Nat) (p : Nat × Nat)
    (hns : nodes r = some ns)
    (hk : (slots r ns)[k]? = some p)
    (hinv : (rd r p).state = INVALID)
    (hmin : ∀ j q, j < k → (slots r ns)[j]? = some q → (rd r q).state ≠ INVALID) :
    ∃ r1, alloc_enclave K mm r = some (some p, r1) ∧
      rd r1 p = { enclave_zero with state := FRESH, eid := (k : Int) } ∧
      (∀ q, q ≠ p → rd r1 q = rd r q) ∧
      same_list r r1 ∧ nodes r1 = some ns := by
  refine ⟨wr r p (enclave_fresh k), alloc_enclave_found K mm r ns k p hns hk hinv hmin,
    rd_wr_same _ _ _, fun q hq => rd_wr_ne _ _ _ _ hq, same_list_wr _ _ _, ?_⟩
  rw [nodes_wr, hns]

/-- C3, at the registry that holds one descriptor (two slabs per node): the next
allocation claims slot 1 of the head node. -/
theorem alloc_enclave_claims_lowest_invalid_witness :
    ∃ r1, alloc_enclave consts_two mm_ok (reg_after 1) = some (some (0, 1), r1) ∧
      rd r1 (0, 1) = { enclave_zero with state := FRESH, eid := ((1 : Nat) : Int) } ∧
      (∀ q, q ≠ (0, 1) → rd r1 q = rd (reg_after 1) q) ∧
      same_list (reg_after 1) r1 ∧ nodes r1 = some [0] :=
  alloc_enclave_claims_lowest_invalid consts_two mm_ok (reg_after 1) [0] 1 (0, 1)
    (by decide) (by decide) (by decide)
    (fun j q hj hq => by
      have h0 : j = 0 := by omega
      subst h0
      have h1 : (slots (reg_after 1) [0])[0]? = some (0, 0) := by decide
      rw [h1] at hq
      simp only [Option.some.injEq] at hq
      subst hq
      decide)

/-- C4 (same defect as C1): with two slabs per node (`N = 2`), after `2 * N + 1 = 5`
allocations the list from the head has two nodes, not three: the node appended at the
first growth (index 1) is unlinked, because the node of the second growth was stored in
the `next_link_mem` of the head, to which `enclave_metadata_tail` still points.  After
`3 * N + 1 = 7` allocations the list again has two nodes and the seventh eid is 4, not 6. -/
theorem growth_unlinks_earlier_node :
    nodes (reg_after 3) = some [0, 1] ∧
      nodes (reg_after 5) = some [0, 2] ∧
      (reg_after 5).enclave_metadata_tail = some 0 ∧
      nodes (reg_after 7) = some [0, 3] ∧
      (alloc_many consts_two 7 registry_empty).map (fun x => x.1.map Prod.snd)
        = some [0, 1, 2, 3, 4, 3, 4] := by
  decide

/-- C6, as stated, fails: after one allocation and `free_enclave(0)`, slot 0 is `INVALID`,
and a second `free_enclave(0)` returns 0, not the failure sentinel -1. -/
theorem free_enclave_double_free_returns_zero :
    get_enclave reg_freed 0 = some (some (0, 0)) ∧
      (rd reg_freed (0, 0)).state = INVALID ∧
      (free_enclave reg_freed 0).map Prod.fst = some 0 ∧
      (free_enclave reg_freed 0).map Prod.fst ≠ some (-1) := by
  decide

/-- C6, amended: `free_enclave(eid)` returns -1 and leaves the registry unchanged when
`eid` is out of range (as `unsigned long`, not below the number of slots in the list);
for every in-range `eid` it returns 0, leaves the addressed slot zeroed with state
`INVALID` and changes no other slot and nothing of the node list, whatever the state of
the slot was (a double free is not detected). -/
theorem free_enclave_contract (r : registry_t) (ns : List Nat) (eid : Int)
    (hns : nodes r = some ns) :
    ((slots r ns).length ≤ ulong eid → free_enclave r eid = some (-1, r)) ∧
    (∀ p, (slots r ns)[ulong eid]? = some p →
      ∃ r1, free_enclave r eid = some (0, r1) ∧
        rd r1 p = { enclave_zero with state := INVALID } ∧
        (∀ q, q ≠ p → rd r1 q = rd r q) ∧ same_list r r1 ∧ nodes r1 = some ns) := by
  have hfree := free_enclave_eq r eid ns hns
  constructor
  · intro hle
    rw [List.getElem?_eq_none hle] at hfree
    exact hfree
  · intro p hp
    rw [hp] at hfree
    refine ⟨_, hfree, rd_wr_same _ _ _, fun q hq => rd_wr_ne _ _ _ _ hq, same_list_wr _ _ _, ?_⟩
    rw [nodes_wr, hns]

/-- C6, amended, at the registry that holds one descriptor (two slots): `free_enclave(5)`
and `free_enclave(-1)` fail and change nothing. -/
theorem free_enclave_contract_witness :
    free_enclave (reg_after 1) 5 = some (-1, reg_after 1) ∧
      free_enclave (reg_after 1) (-1) = some (-1, reg_after 1) :=
  ⟨(free_enclave_contract (reg_after 1) [0] 5 (by decide)).1 (by decide),
   (free_enclave_contract (reg_after 1) [0] (-1) (by decide)).1 (by decide)⟩


/-! ## Lifecycle properties -/

/-- C7 (defect: `__get_real_enclave` reads `cur_callee_eid` of a slot without testing
that the slot is allocated): enclave 0 is `OCALLING` and owned by the host with
`satp = 7`; slot 1 was never allocated, so it is `INVALID` and zeroed, its `host_ptbr` is 0
and its `cur_callee_eid` reads 0 instead of the -1 that `create_enclave` writes.
`resume_from_ocall(regs, 1)` by that host takes the 0 for a callee, enters enclave 0 and
returns 0: the `host_ptbr` of the descriptor with eid 1 differs from `satp`, but the call
does not return -1 and the per-hart record and enclave 0 change. -/
theorem resume_from_ocall_follows_callee :
    get_enclave sm_ocalling.reg (int_of_uint 1) = some (some (0, 1)) ∧
      (rd sm_ocalling.reg (0, 1)).host_ptbr ≠ (sm_ocalling.csrs 0).satp ∧
      __get_real_enclave sm_ocalling.reg (int_of_uint 1) = some (some (0, 0)) ∧
      (resume_from_ocall consts_two platform_ok 0 (fun _ => 0) 1 sm_ocalling).map
        (fun c => c.ret) = some 0 ∧
      (sm_ocalling.cpus 0).in_enclave = 0 ∧
      ((state_of (resume_from_ocall consts_two platform_ok 0 (fun _ => 0) 1 sm_ocalling)).cpus
        0).in_enclave = 1 ∧
      (rd (state_of (resume_from_ocall consts_two platform_ok 0 (fun _ => 0) 1
        sm_ocalling)).reg (0, 0)).state = RUNNING := by
  decide

/-- Host binding on the descriptor a call resolves: a host call is rejected without effect
when `satp` differs from the `host_ptbr` of the descriptor the call resolves: the descriptor `get_enclave(eid)` for
`run_enclave`, `stop_enclave`, `resume_from_stop` and `resume_enclave`, and the descriptor
`__get_real_enclave(eid)` for `resume_from_ocall`. -/
theorem host_binding_rejects (K : consts) (P : platform_t) (h : Nat) (regs : Nat → Nat)
    (eid : Nat) (s : sm_state) (p : Nat × Nat)
    (hne : (rd s.reg p).host_ptbr ≠ (s.csrs h).satp) :
    (get_enclave s.reg (int_of_uint eid) = some (some p) →
      rejected s regs (run_enclave K P h regs eid s) ∧
      rejected s regs (stop_enclave h regs eid s) ∧
      rejected s regs (resume_from_stop h regs eid s) ∧
      rejected s regs (resume_enclave K P h regs eid s)) ∧
    (__get_real_enclave s.reg (int_of_uint eid) = some (some p) →
      rejected s regs (resume_from_ocall K P h regs eid s)) := by
  constructor
  · intro hg
    refine ⟨?_, ?_, ?_, ?_⟩
    · by_cases hst : (rd s.reg p).state = FRESH
      · exact ⟨_, by simp [run_enclave, acquire_enclave_metadata_lock, hg, hst, hne]; rfl,
          rfl, rfl, rfl, rfl, rfl, rfl, rfl, rfl, rfl⟩
      · exact ⟨_, by simp [run_enclave, acquire_enclave_metadata_lock, hg, hst]; rfl,
          rfl, rfl, rfl, rfl, rfl, rfl, rfl, rfl, rfl⟩
    · exact ⟨_, by simp [stop_enclave, acquire_enclave_metadata_lock, hg, hne]; rfl,
        rfl, rfl, rfl, rfl, rfl, rfl, rfl, rfl, rfl⟩
    · exact ⟨_, by simp [resume_from_stop, acquire_enclave_metadata_lock, hg, hne]; rfl,
        rfl, rfl, rfl, rfl, rfl, rfl, rfl, rfl, rfl⟩
    · exact ⟨_, by simp [resume_enclave, acquire_enclave_metadata_lock, hg, hne]; rfl,
        rfl, rfl, rfl, rfl, rfl, rfl, rfl, rfl, rfl⟩
  · intro hg
    exact ⟨_, by simp [resume_from_ocall, acquire_enclave_metadata_lock, hg, hne]; rfl,
      rfl, rfl, rfl, rfl, rfl, rfl, rfl, rfl, rfl⟩

/-- Host binding for a descriptor whose `cur_callee_eid` is -1, the value `create_enclave`
writes: when `satp` differs from its `host_ptbr`, each of the five host calls is rejected
without effect. -/
theorem host_binding_rejects_created (K : consts) (P : platform_t) (h : Nat)
    (regs : Nat → Nat) (eid : Nat) (s : sm_state) (p : Nat × Nat)
    (hg : get_enclave s.reg (int_of_uint eid) = some (some p))
    (hcal : (rd s.reg p).cur_callee_eid = -1)
    (hne : (rd s.reg p).host_ptbr ≠ (s.csrs h).satp) :
    rejected s regs (run_enclave K P h regs eid s) ∧
      rejected s regs (stop_enclave h regs eid s) ∧
      rejected s regs (resume_from_stop h regs eid s) ∧
      rejected s regs (resume_enclave K P h regs eid s) ∧
      rejected s regs (resume_from_ocall K P h regs eid s) := by
  obtain ⟨h1, h2⟩ := host_binding_rejects K P h regs eid s p hne
  obtain ⟨a, b, c, d⟩ := h1 hg
  exact ⟨a, b, c, d, h2 (by simp [__get_real_enclave, hg, hcal])⟩

/-! ## Lemmas on the entry points -/

theorem state_set_state (s : sm_state) (p q : Nat × Nat) (st : Int) :
    (rd (set_state s p st).reg q).state = if q = p then st else (rd s.reg q).state := by
  by_cases h : q = p
  · subst h
    simp [set_state, set_enclave, rd_wr_same]
  · simp [set_state, set_enclave, rd_wr_ne _ _ _ _ h, h]

theorem state_swap_from_host_to_enclave (P : platform_t) (h : Nat) (regs : Nat → Nat)
    (p q : Nat × Nat) (s : sm_state) :
    (rd (swap_from_host_to_enclave P h regs p s).2.2.reg q).state = (rd s.reg q).state := by
  unfold swap_from_host_to_enclave
  by_cases hg : P.grant_enclave_access < 0
  · simp [hg]
  · simp only [hg, if_false]
    by_cases hq : q = p
    · subst hq
      simp [enter_enclave_world, set_cpu, set_csrs, set_enclave, rd_wr_same]
    · simp [enter_enclave_world, set_cpu, set_csrs, set_enclave, rd_wr_ne _ _ _ _ hq]

theorem state_swap_from_enclave_to_host (h : Nat) (regs : Nat → Nat)
    (p q : Nat × Nat) (s : sm_state) :
    (rd (swap_from_enclave_to_host h regs p s).2.2.reg q).state = (rd s.reg q).state := by
  unfold swap_from_enclave_to_host
  by_cases hq : q = p
  · subst hq
    simp [exit_enclave_world, set_cpu, set_csrs, set_enclave, rd_wr_same]
  · simp [exit_enclave_world, set_cpu, set_csrs, set_enclave, rd_wr_ne _ _ _ _ hq]

theorem rc_swap_from_host_to_enclave (P : platform_t) (h : Nat) (regs : Nat → Nat)
    (p : Nat × Nat) (s : sm_state) :
    (swap_from_host_to_enclave P h regs p s).1 < 0 ↔ P.grant_enclave_access < 0 := by
  unfold swap_from_host_to_enclave
  by_cases hg : P.grant_enclave_access < 0 <;> simp [hg]

theorem get_enclave_total (r : registry_t) (ns : List Nat) (eid : Int)
    (hns : nodes r = some ns) : ∃ o, get_enclave r eid = some o :=
  ⟨_, get_enclave_eq r eid ns hns⟩

theorem get_real_enclave_total (r : registry_t) (ns : List Nat) (eid : Int)
    (hns : nodes r = some ns) : ∃ o, __get_real_enclave r eid = some o := by
  obtain ⟨o, ho⟩ := get_enclave_total r ns eid hns
  unfold __get_real_enclave
  rw [ho]
  cases o with
  | none => exact ⟨none, rfl⟩
  | some p =>
    simp only
    by_cases hc : (rd r p).cur_callee_eid = -1
    · exact ⟨some p, by simp [hc]⟩
    · simp only [hc, if_false]
      exact get_enclave_total r ns _ hns

theorem run_enclave_states (K : consts) (P : platform_t) (h : Nat) (regs : Nat → Nat)
    (eid : Nat) (s : sm_state) (ns : List Nat) (hns : nodes s.reg = some ns) :
    ∃ c, run_enclave K P h regs eid s = some c ∧
      ∀ q, (rd c.st.reg q).state = (rd s.reg q).state ∨
        ((rd s.reg q).state = FRESH ∧ (rd c.st.reg q).state = RUNNING) := by
  obtain ⟨o, ho⟩ := get_enclave_total s.reg ns (int_of_uint eid) hns
  unfold run_enclave
  simp only [acquire_enclave_metadata_lock, ho]
  cases o with
  | none => exact ⟨_, rfl, fun q => Or.inl rfl⟩
  | some p =>
    simp only
    by_cases h1 : (rd s.reg p).state = FRESH
    · by_cases h2 : (rd s.reg p).host_ptbr = (s.csrs h).satp
      · simp only [h1, h2, ne_eq, not_true_eq_false, if_false]
        by_cases h3 : P.grant_enclave_access < 0
        · refine ⟨_, by rw [if_pos ((rc_swap_from_host_to_enclave _ _ _ _ _).mpr h3)], ?_⟩
          intro q
          left
          exact state_swap_from_host_to_enclave _ _ _ _ _ _
        · refine ⟨_, by rw [if_neg (fun hh => h3 ((rc_swap_from_host_to_enclave _ _ _ _ _).mp hh))], ?_⟩
          intro q
          simp only [release_enclave_metadata_lock]
          rw [state_set_state]
          by_cases hq : q = p
          · subst hq
            right
            exact ⟨h1, by simp⟩
          · left
            simp only [hq, if_false]
            exact state_swap_from_host_to_enclave _ _ _ _ _ _
      · exact ⟨_, by simp [h1, h2]; rfl, fun q => Or.inl rfl⟩
    · exact ⟨_, by simp [h1]; rfl, fun q => Or.inl rfl⟩

theorem stop_enclave_states (h : Nat) (regs : Nat → Nat)
    (eid : Nat) (s : sm_state) (ns : List Nat) (hns : nodes s.reg = some ns) :
    ∃ c, stop_enclave h regs eid s = some c ∧
      ∀ q, (rd c.st.reg q).state = (rd s.reg q).state ∨
        (FRESH < (rd s.reg q).state ∧ (rd c.st.reg q).state = STOPPED) := by
  obtain ⟨o, ho⟩ := get_enclave_total s.reg ns (int_of_uint eid) hns
  unfold stop_enclave
  simp only [acquire_enclave_metadata_lock, ho]
  cases o with
  | none => exact ⟨_, rfl, fun q => Or.inl rfl⟩
  | some p =>
    simp only
    by_cases h2 : (rd s.reg p).host_ptbr = (s.csrs h).satp
    · by_cases h1 : (rd s.reg p).state ≤ FRESH
      · exact ⟨_, by simp [h1, h2]; rfl, fun q => Or.inl rfl⟩
      · rw [if_neg (not_not.mpr h2), if_neg h1]
        refine ⟨_, rfl, ?_⟩
        intro q
        simp only [release_enclave_metadata_lock]
        rw [state_set_state]
        by_cases hq : q = p
        · subst hq
          right
          exact ⟨lt_of_not_ge h1, by simp⟩
        · left
          simp only [hq, if_false]
    · exact ⟨_, by simp [h2]; rfl, fun q => Or.inl rfl⟩

theorem resume_from_stop_states (h : Nat) (regs : Nat → Nat)
    (eid : Nat) (s : sm_state) (ns : List Nat) (hns : nodes s.reg = some ns) :
    ∃ c, resume_from_stop h regs eid s = some c ∧
      ∀ q, (rd c.st.reg q).state = (rd s.reg q).state ∨
        ((rd s.reg q).state = STOPPED ∧ (rd c.st.reg q).state = RUNNABLE) := by
  obtain ⟨o, ho⟩ := get_enclave_total s.reg ns (int_of_uint eid) hns
  unfold resume_from_stop
  simp only [acquire_enclave_metadata_lock, ho]
  cases o with
  | none => exact ⟨_, rfl, fun q => Or.inl rfl⟩
  | some p =>
    simp only
    by_cases h2 : (rd s.reg p).host_ptbr = (s.csrs h).satp
    · by_cases h1 : (rd s.reg p).state = STOPPED
      · rw [if_neg (not_not.mpr h2), if_neg (not_not.mpr h1)]
        refine ⟨_, rfl, ?_⟩
        intro q
        simp only [release_enclave_metadata_lock]
        rw [state_set_state]
        by_cases hq : q = p
        · subst hq
          right
          exact ⟨h1, by simp⟩
        · left
          simp only [hq, if_false]
      · exact ⟨_, by simp [h1, h2]; rfl, fun q => Or.inl rfl⟩
    · exact ⟨_, by simp [h2]; rfl, fun q => Or.inl rfl⟩

theorem resume_enclave_states (K : consts) (P : platform_t) (h : Nat) (regs : Nat → Nat)
    (eid : Nat) (s : sm_state) (ns : List Nat) (hns : nodes s.reg = some ns) :
    ∃ c, resume_enclave K P h regs eid s = some c ∧
      ∀ q, (rd c.st.reg q).state = (rd s.reg q).state ∨
        ((rd s.reg q).state = RUNNABLE ∧ (rd c.st.reg q).state = RUNNING) := by
  obtain ⟨o, ho⟩ := get_enclave_total s.reg ns (int_of_uint eid) hns
  unfold resume_enclave
  simp only [acquire_enclave_metadata_lock, ho]
  cases o with
  | none => exact ⟨_, rfl, fun q => Or.inl rfl⟩
  | some p =>
    simp only
    by_cases h2 : (rd s.reg p).host_ptbr = (s.csrs h).satp
    · by_cases h0 : (rd s.reg p).state = STOPPED
      · exact ⟨_, by simp [h0, h2]; rfl, fun q => Or.inl rfl⟩
      · by_cases h1 : (rd s.reg p).state = RUNNABLE
        · rw [if_neg (not_not.mpr h2), if_neg h0, if_neg (not_not.mpr h1)]
          by_cases h3 : P.grant_enclave_access < 0
          · refine ⟨_, by rw [if_pos ((rc_swap_from_host_to_enclave _ _ _ _ _).mpr h3)], ?_⟩
            intro q
            left
            exact state_swap_from_host_to_enclave _ _ _ _ _ _
          · refine ⟨_, by rw [if_neg (fun hh => h3 ((rc_swap_from_host_to_enclave _ _ _ _ _).mp hh))], ?_⟩
            intro q
            simp only [release_enclave_metadata_lock]
            rw [state_set_state]
            by_cases hq : q = p
            · subst hq
              right
              exact ⟨h1, by simp⟩
            · left
              simp only [hq, if_false]
              exact state_swap_from_host_to_enclave _ _ _ _ _ _
        · exact ⟨_, by simp [h0, h1, h2]; rfl, fun q => Or.inl rfl⟩
    · exact ⟨_, by simp [h2]; rfl, fun q => Or.inl rfl⟩

theorem resume_from_ocall_states (K : consts) (P : platform_t) (h : Nat) (regs : Nat → Nat)
    (eid : Nat) (s : sm_state) (ns : List Nat) (hns : nodes s.reg = some ns) :
    ∃ c, resume_from_ocall K P h regs eid s = some c ∧
      ∀ q, (rd c.st.reg q).state = (rd s.reg q).state ∨
        ((rd s.reg q).state = OCALLING ∧ (rd c.st.reg q).state = RUNNING) := by
  obtain ⟨o, ho⟩ := get_real_enclave_total s.reg ns (int_of_uint eid) hns
  unfold resume_from_ocall
  simp only [acquire_enclave_metadata_lock, ho]
  cases o with
  | none => exact ⟨_, rfl, fun q => Or.inl rfl⟩
  | some p =>
    simp only
    by_cases h1 : (rd s.reg p).state = OCALLING
    · by_cases h2 : (rd s.reg p).host_ptbr = (s.csrs h).satp
      · rw [if_neg (fun hh => hh.elim (fun a => a h1) (fun a => a h2))]
        by_cases h3 : P.grant_enclave_access < 0
        · refine ⟨_, by rw [if_pos ((rc_swap_from_host_to_enclave _ _ _ _ _).mpr h3)], ?_⟩
          intro q
          left
          exact state_swap_from_host_to_enclave _ _ _ _ _ _
        · refine ⟨_, by rw [if_neg (fun hh => h3 ((rc_swap_from_host_to_enclave _ _ _ _ _).mp hh))], ?_⟩
          intro q
          simp only [release_enclave_metadata_lock]
          rw [state_set_state]
          by_cases hq : q = p
          · subst hq
            right
            exact ⟨h1, by simp⟩
          · left
            simp only [hq, if_false]
            exact state_swap_from_host_to_enclave _ _ _ _ _ _
      · exact ⟨_, by simp [h1, h2]; rfl, fun q => Or.inl rfl⟩
    · exact ⟨_, by simp [h1]; rfl, fun q => Or.inl rfl⟩

theorem enclave_sys_write_states (K : consts) (P : platform_t) (h : Nat) (regs : Nat → Nat)
    (s : sm_state) (ns : List Nat) (hns : nodes s.reg = some ns) :
    ∃ c, enclave_sys_write K P h regs s = some c ∧
      ∀ q, (rd c.st.reg q).state = (rd s.reg q).state ∨
        ((rd s.reg q).state = RUNNING ∧ (rd c.st.reg q).state = OCALLING) := by
  obtain ⟨o, ho⟩ := get_enclave_total s.reg ns (s.cpus h).eid hns
  unfold enclave_sys_write
  by_cases hw : check_in_enclave_world P s h < 0
  · exact ⟨_, by simp [hw]; rfl, fun q => Or.inl rfl⟩
  · simp only [hw, if_false, acquire_enclave_metadata_lock, get_enclave_id, ho]
    cases o with
    | none => exact ⟨_, rfl, fun q => Or.inl rfl⟩
    | some p =>
      simp only
      by_cases h1 : check_enclave_authentication P ≠ 0 ∨ (rd s.reg p).state ≠ RUNNING
      · exact ⟨_, by rw [if_pos h1], fun q => Or.inl rfl⟩
      · refine ⟨_, by rw [if_neg h1], ?_⟩
        intro q
        simp only [release_enclave_metadata_lock]
        rw [state_set_state]
        by_cases hq : q = p
        · subst hq
          right
          refine ⟨?_, by simp⟩
          by_contra hc
          exact h1 (Or.inr hc)
        · left
          simp only [hq, if_false]
          exact state_swap_from_enclave_to_host _ _ _ _ _

theorem do_timer_irq_states (K : consts) (h : Nat) (regs : Nat → Nat)
    (s : sm_state) (ns : List Nat) (hns : nodes s.reg = some ns) :
    ∃ c, do_timer_irq K h regs s = some c ∧
      ∀ q, (rd c.st.reg q).state = (rd s.reg q).state ∨
        (((rd s.reg q).state = RUNNING ∨ (rd s.reg q).state = STOPPED) ∧
          (rd c.st.reg q).state = RUNNABLE) := by
  obtain ⟨o, ho⟩ := get_enclave_total s.reg ns
    (int_of_uint (uint_of_int (s.cpus h).eid)) hns
  unfold do_timer_irq
  simp only [acquire_enclave_metadata_lock, get_enclave_id, ho]
  cases o with
  | none => exact ⟨_, rfl, fun q => Or.inl rfl⟩
  | some p =>
    simp only
    by_cases h1 : (rd s.reg p).state ≠ RUNNING ∧ (rd s.reg p).state ≠ STOPPED
    · exact ⟨_, by rw [if_pos h1], fun q => Or.inl rfl⟩
    · refine ⟨_, by rw [if_neg h1], ?_⟩
      intro q
      simp only [release_enclave_metadata_lock]
      rw [state_set_state]
      by_cases hq : q = p
      · subst hq
        right
        refine ⟨?_, by simp⟩
        by_contra hc
        exact h1 ⟨fun a => hc (Or.inl a), fun a => hc (Or.inr a)⟩
      · left
        simp only [hq, if_false]
        exact state_swap_from_enclave_to_host _ _ _ _ _

/-! ## Allocation and creation never produce an `INVALID` slot -/

theorem rd_set_link_mem_ne (r : registry_t) (n : Nat) (l : link_mem_t) (q : Nat × Nat)
    (h : q.1 ≠ n) : rd (set_link_mem r n l) q = rd r q := by
  simp [rd, set_link_mem, h]

theorem alloc_enclave_slabs_shape (r : registry_t) (cur : Nat) :
    ∀ (n i : Nat) (eid : Int),
      ((alloc_enclave_slabs r cur n i eid).1 = none ∧
        (alloc_enclave_slabs r cur n i eid).2.2 = r) ∨
      ∃ p e, (alloc_enclave_slabs r cur n i eid).1 = some p ∧
        (alloc_enclave_slabs r cur n i eid).2.2 = wr r p (enclave_fresh e) := by
  intro n
  induction n with
  | zero => intro i eid; left; simp [alloc_enclave_slabs]
  | succ n ih =>
    intro i eid
    rw [alloc_enclave_slabs]
    by_cases h0 : (rd r (cur, i)).state = INVALID
    · right
      exact ⟨(cur, i), eid, by simp [h0], by simp [h0]⟩
    · rw [if_neg h0]
      exact ih (i + 1) (eid + 1)

theorem alloc_enclave_nodes_shape (r : registry_t) :
    ∀ (fuel : Nat) (cur : Option Nat) (eid : Int) (o : Option (Nat × Nat)) (e : Int)
      (r1 : registry_t),
      alloc_enclave_nodes r fuel cur eid = some (o, e, r1) →
      (o = none ∧ r1 = r) ∨ ∃ p e1, o = some p ∧ r1 = wr r p (enclave_fresh e1) := by
  intro fuel
  induction fuel with
  | zero =>
    intro cur eid o e r1 h
    cases cur with
    | none =>
      simp only [alloc_enclave_nodes, Option.some.injEq, Prod.mk.injEq] at h
      left
      exact ⟨h.1.symm, h.2.2.symm⟩
    | some c => simp [alloc_enclave_nodes] at h
  | succ fuel ih =>
    intro cur eid o e r1 h
    cases cur with
    | none =>
      simp only [alloc_enclave_nodes, Option.some.injEq, Prod.mk.injEq] at h
      left
      exact ⟨h.1.symm, h.2.2.symm⟩
    | some c =>
      rw [alloc_enclave_nodes] at h
      rcases alloc_enclave_slabs_shape r c (r.link_mem c).slab_num 0 eid with
        ⟨h1, _⟩ | ⟨p, e1, h1, h2⟩
      · rcases hres : alloc_enclave_slabs r c (r.link_mem c).slab_num 0 eid with ⟨o1, e2, r2⟩
        rw [hres] at h h1
        simp only at h1
        subst h1
        simp only at h
        exact ih _ _ _ _ _ h
      · rcases hres : alloc_enclave_slabs r c (r.link_mem c).slab_num 0 eid with ⟨o1, e2, r2⟩
        rw [hres] at h h1 h2
        simp only at h1 h2
        subst h1
        simp only [Option.some.injEq, Prod.mk.injEq] at h
        right
        exact ⟨p, e1, h.1.symm, by rw [← h.2.2, h2]⟩

theorem add_link_mem_shape (K : consts) (mm : Option Nat) (r : registry_t)
    (o : Option Nat) (r3 : registry_t) (h : add_link_mem K mm r = some (o, r3)) :
    (∀ q : Nat × Nat, q.1 < r.link_mem_num → rd r3 q = rd r q) ∧
      (∀ nx, o = some nx → nx = r.link_mem_num) := by
  unfold add_link_mem at h
  cases ht : r.enclave_metadata_tail with
  | none => simp [ht] at h
  | some t =>
    cases mm with
    | none =>
      simp only [ht, Option.some.injEq, Prod.mk.injEq] at h
      obtain ⟨h1, h2⟩ := h
      subst h1 h2
      exact ⟨fun _ _ => rfl, fun nx hnx => by simp at hnx⟩
    | some b =>
      by_cases hb : b = 0
      · simp only [ht, hb, if_true, Option.some.injEq, Prod.mk.injEq] at h
        obtain ⟨h1, h2⟩ := h
        subst h1 h2
        exact ⟨fun _ _ => rfl, fun nx hnx => by simp at hnx⟩
      · simp only [ht, hb, if_false, Option.some.injEq, Prod.mk.injEq] at h
        obtain ⟨h1, h2⟩ := h
        subst h1 h2
        refine ⟨?_, fun nx hnx => by simpa using hnx.symm⟩
        intro q hq
        simp only [rd, set_link_mem]
        have hq1 : q.1 ≠ r.link_mem_num := Nat.ne_of_lt hq
        by_cases hqt : q.1 = t
        · have htn : t ≠ r.link_mem_num := fun hc => hq1 (hqt.trans hc)
          simp [hqt, htn]
        · simp [hq1, hqt]

theorem alloc_enclave_no_invalid (K : consts) (mm : mm_oracle) (r : registry_t)
    (o : Option (Nat × Nat)) (r1 : registry_t) (h : alloc_enclave K mm r = some (o, r1))
    (q : Nat × Nat) (hq : q.1 < r.link_mem_num) :
    (o ≠ some q → (rd r1 q).state = INVALID → (rd r q).state = INVALID) ∧
      (o = some q → (rd r1 q).state = FRESH) := by
  have key : ∀ (ra : registry_t), (∀ q : Nat × Nat, q.1 < r.link_mem_num → rd ra q = rd r q) →
      r.link_mem_num ≤ ra.link_mem_num →
      (match alloc_enclave_nodes ra ra.link_mem_num ra.enclave_metadata_head 0 with
        | none => none
        | some (some p, _, r2) => some (some p, r2)
        | some (none, eid, r2) =>
          match add_link_mem K mm.add r2 with
          | none => none
          | some (none, r3) => some (none, r3)
          | some (some next, r3) => some (some (next, 0), wr r3 (next, 0) (enclave_fresh eid)))
        = some (o, r1) →
      (o ≠ some q → (rd r1 q).state = INVALID → (rd r q).state = INVALID) ∧
        (o = some q → (rd r1 q).state = FRESH) := by
    intro ra hra hnum hm
    cases hn : alloc_enclave_nodes ra ra.link_mem_num ra.enclave_metadata_head 0 with
    | none => simp [hn] at hm
    | some res =>
      obtain ⟨o1, e1, r2⟩ := res
      rcases alloc_enclave_nodes_shape ra _ _ _ _ _ _ hn with ⟨ho, hr⟩ | ⟨p, e2, ho, hr⟩
      · subst ho hr
        simp only [hn] at hm
        cases ha : add_link_mem K mm.add r2 with
        | none => simp [ha] at hm
        | some res2 =>
          obtain ⟨o2, r3⟩ := res2
          obtain ⟨hs1, hs2⟩ := add_link_mem_shape K mm.add r2 o2 r3 ha
          cases o2 with
          | none =>
            simp only [ha, Option.some.injEq, Prod.mk.injEq] at hm
            obtain ⟨hm1, hm2⟩ := hm
            subst hm1 hm2
            refine ⟨fun _ hs => ?_, fun hc => by simp at hc⟩
            rw [hs1 q (lt_of_lt_of_le hq hnum), hra q hq] at hs
            exact hs
          | some nx =>
            simp only [ha, Option.some.injEq, Prod.mk.injEq] at hm
            obtain ⟨hm1, hm2⟩ := hm
            subst hm1 hm2
            have hnx := hs2 nx rfl
            have hqne : q ≠ (nx, 0) := by
              intro hc
              rw [hc] at hq
              simp only at hq
              omega
            refine ⟨fun _ hs => ?_, fun hc => ?_⟩
            · rw [rd_wr_ne _ _ _ _ hqne, hs1 q (lt_of_lt_of_le hq hnum), hra q hq] at hs
              exact hs
            · simp only [Option.some.injEq] at hc
              exact absurd hc.symm hqne
      · subst ho hr
        simp only [hn, Option.some.injEq, Prod.mk.injEq] at hm
        obtain ⟨hm1, hm2⟩ := hm
        subst hm1 hm2
        refine ⟨fun hne hs => ?_, fun hc => ?_⟩
        · have hqp : q ≠ p := fun hc => hne (by rw [hc])
          rw [rd_wr_ne _ _ _ _ hqp, hra q hq] at hs
          exact hs
        · simp only [Option.some.injEq] at hc
          subst hc
          rw [rd_wr_same]
          rfl
  unfold alloc_enclave at h
  cases hh : r.enclave_metadata_head with
  | some c =>
    simp only [hh] at h
    exact key r (fun _ _ => rfl) (le_refl _) (by rw [hh]; exact h)
  | none =>
    simp only [hh] at h
    cases hi : mm.init with
    | none =>
      simp only [init_mem_link, hi, Option.some.injEq, Prod.mk.injEq] at h
      obtain ⟨h1, h2⟩ := h
      subst h1 h2
      exact ⟨fun _ hs => hs, fun hc => by simp at hc⟩
    | some b =>
      by_cases hb : b = 0
      · simp only [init_mem_link, hi, hb, if_true, Option.some.injEq, Prod.mk.injEq] at h
        obtain ⟨h1, h2⟩ := h
        subst h1 h2
        exact ⟨fun _ hs => hs, fun hc => by simp at hc⟩
      · simp only [init_mem_link, hi, hb, if_false] at h
        refine key _ ?_ ?_ h
        · intro q1 hq1
          simp only [rd, set_link_mem]
          simp [Nat.ne_of_lt hq1]
        · simp

theorem create_vma_loop_state (K : consts) (pma : Nat) :
    ∀ (fuel vma : Nat) (st : Nat → vm_area_struct) (e : enclave_t)
      (st1 : Nat → vm_area_struct) (e1 : enclave_t),
      create_vma_loop K pma fuel vma st e = some (st1, e1) → e1.state = e.state := by
  intro fuel
  induction fuel with
  | zero =>
    intro vma st e st1 e1 h
    rw [create_vma_loop] at h
    by_cases hv : vma = 0
    · simp only [hv, if_true, Option.some.injEq, Prod.mk.injEq] at h
      rw [← h.2]
    · simp [hv] at h
  | succ fuel ih =>
    intro vma st e st1 e1 h
    rw [create_vma_loop] at h
    by_cases hv : vma = 0
    · simp only [hv, if_true, Option.some.injEq, Prod.mk.injEq] at h
      rw [← h.2]
    · simp only [hv, if_false] at h
      have := ih _ _ _ _ _ h
      rw [this]
      by_cases c1 : (st vma).va_start = K.ENCLAVE_DEFAULT_TEXT_BASE <;>
        by_cases c2 : (st vma).va_end = K.ENCLAVE_DEFAULT_STACK_BASE <;> simp [c1, c2]

theorem create_enclave_no_invalid (K : consts) (O : create_oracle) (h : Nat)
    (a : enclave_sbi_param_t) (s : sm_state) (ret : Nat) (s1 : sm_state)
    (hc : create_enclave K O h a s = some (ret, s1))
    (q : Nat × Nat) (hq : q.1 < s.reg.link_mem_num)
    (hs : (rd s1.reg q).state = INVALID) : (rd s.reg q).state = INVALID := by
  unfold create_enclave at hc
  simp only [acquire_enclave_metadata_lock] at hc
  cases ha : alloc_enclave K O.mm s.reg with
  | none => simp [ha] at hc
  | some res =>
    obtain ⟨o, r1⟩ := res
    obtain ⟨hA, hB⟩ := alloc_enclave_no_invalid K O.mm s.reg o r1 ha q hq
    cases o with
    | none =>
      simp only [ha, Option.some.injEq, Prod.mk.injEq] at hc
      rw [← hc.2] at hs
      exact hA (by simp) hs
    | some p =>
      simp only [ha] at hc
      by_cases hqp : q = p
      · exfalso
        subst hqp
        split at hc
        · simp only [Option.some.injEq, Prod.mk.injEq] at hc
          rw [← hc.2] at hs
          simp [rd_wr_same] at hs
        · split at hc
          · simp at hc
          · rename_i vm3 e3 hv
            have hst := create_vma_loop_state K _ _ _ _ _ _ _ hv
            split at hc
            · simp at hc
            · split at hc
              · simp only [Option.some.injEq, Prod.mk.injEq] at hc
                rw [← hc.2] at hs
                simp only [rd_wr_same] at hs
                rw [hst] at hs
                simp at hs
              · simp only [Option.some.injEq, Prod.mk.injEq] at hc
                rw [← hc.2] at hs
                simp only [release_enclave_metadata_lock, rd_wr_same] at hs
                rw [hst] at hs
                simp at hs
      · apply hA (fun hc1 => hqp (by simpa using hc1.symm))
        split at hc
        · simp only [Option.some.injEq, Prod.mk.injEq] at hc
          rw [← hc.2] at hs
          simpa [rd_wr_ne _ _ _ _ hqp] using hs
        · split at hc
          · simp at hc
          · split at hc
            · simp at hc
            · split at hc
              · simp only [Option.some.injEq, Prod.mk.injEq] at hc
                rw [← hc.2] at hs
                simpa [rd_wr_ne _ _ _ _ hqp] using hs
              · simp only [Option.some.injEq, Prod.mk.injEq] at hc
                rw [← hc.2] at hs
                simpa [release_enclave_metadata_lock, rd_wr_ne _ _ _ _ hqp] using hs

/-! ## Lifecycle properties, continued -/

/-- Host binding on the machine where enclave 0 is `FRESH` and another host process
runs: `run_enclave(regs, 0)` is rejected without effect. -/
theorem host_binding_rejects_witness :
    rejected sm_foreign (fun _ => 0)
      (run_enclave consts_two platform_ok 0 (fun _ => 0) 0 sm_foreign) :=
  ((host_binding_rejects consts_two platform_ok 0 (fun _ => 0) 0 sm_foreign (0, 0)
    (by decide)).1 (by decide)).1

/-- C8, as stated, fails for `stop_enclave`: on the machine where enclave 0 is `RUNNABLE`
(preempted by the timer), `stop_enclave(regs, 0)` by the owning host returns 0 and moves
the state from `RUNNABLE` to `STOPPED`, which is neither "unchanged" nor the listed
transition `RUNNING -> STOPPED`. -/
theorem stop_enclave_stops_runnable :
    (rd sm_runnable.reg (0, 0)).state = RUNNABLE ∧
      (stop_enclave 0 (fun _ => 0) 0 sm_runnable).map (fun c => c.ret) = some 0 ∧
      (rd (state_of (stop_enclave 0 (fun _ => 0) 0 sm_runnable)).reg (0, 0)).state = STOPPED := by
  decide

/-- C8, amended: on a registry whose list ends, every host call returns and leaves the
state of every descriptor unchanged or performs its transition: `run` `FRESH -> RUNNING`;
`stop` from any state above `FRESH` (`RUNNABLE`, `RUNNING`, `STOPPED`, `OCALLING`) to
`STOPPED`; `resume_from_stop` `STOPPED -> RUNNABLE`; `resume` `RUNNABLE -> RUNNING`;
`resume_from_ocall` `OCALLING -> RUNNING`.  None of them, nor `enclave_sys_write`,
`do_timer_irq` or `create_enclave`, turns a state that is not `INVALID` into `INVALID`. -/
theorem state_closure (K : consts) (P : platform_t) (O : create_oracle) (h : Nat)
    (regs : Nat → Nat) (eid : Nat) (a : enclave_sbi_param_t) (s : sm_state) (ns : List Nat)
    (hns : nodes s.reg = some ns) :
    (∃ c, run_enclave K P h regs eid s = some c ∧
      ∀ q, ((rd c.st.reg q).state = (rd s.reg q).state ∨
          ((rd s.reg q).state = FRESH ∧ (rd c.st.reg q).state = RUNNING)) ∧
        ((rd c.st.reg q).state = INVALID → (rd s.reg q).state = INVALID)) ∧
    (∃ c, stop_enclave h regs eid s = some c ∧
      ∀ q, ((rd c.st.reg q).state = (rd s.reg q).state ∨
          (FRESH < (rd s.reg q).state ∧ (rd c.st.reg q).state = STOPPED)) ∧
        ((rd c.st.reg q).state = INVALID → (rd s.reg q).state = INVALID)) ∧
    (∃ c, resume_from_stop h regs eid s = some c ∧
      ∀ q, ((rd c.st.reg q).state = (rd s.reg q).state ∨
          ((rd s.reg q).state = STOPPED ∧ (rd c.st.reg q).state = RUNNABLE)) ∧
        ((rd c.st.reg q).state = INVALID → (rd s.reg q).state = INVALID)) ∧
    (∃ c, resume_enclave K P h regs eid s = some c ∧
      ∀ q, ((rd c.st.reg q).state = (rd s.reg q).state ∨
          ((rd s.reg q).state = RUNNABLE ∧ (rd c.st.reg q).state = RUNNING)) ∧
        ((rd c.st.reg q).state = INVALID → (rd s.reg q).state = INVALID)) ∧
    (∃ c, resume_from_ocall K P h regs eid s = some c ∧
      ∀ q, ((rd c.st.reg q).state = (rd s.reg q).state ∨
          ((rd s.reg q).state = OCALLING ∧ (rd c.st.reg q).state = RUNNING)) ∧
        ((rd c.st.reg q).state = INVALID → (rd s.reg q).state = INVALID)) ∧
    (∃ c, enclave_sys_write K P h regs s = some c ∧
      ∀ q, (rd c.st.reg q).state = INVALID → (rd s.reg q).state = INVALID) ∧
    (∃ c, do_timer_irq K h regs s = some c ∧
      ∀ q, (rd c.st.reg q).state = INVALID → (rd s.reg q).state = INVALID) ∧
    (∀ ret s1, create_enclave K O h a s = some (ret, s1) →
      ∀ q : Nat × Nat, q.1 < s.reg.link_mem_num →
        (rd s1.reg q).state = INVALID → (rd s.reg q).state = INVALID) := by
  refine ⟨?_, ?_, ?_, ?_, ?_, ?_, ?_, ?_⟩
  · obtain ⟨c, hc, hq⟩ := run_enclave_states K P h regs eid s ns hns
    refine ⟨c, hc, fun q => ⟨hq q, fun hi => ?_⟩⟩
    rcases hq q with h1 | ⟨_, h2⟩
    · rw [← h1]; exact hi
    · rw [h2] at hi; exact absurd hi (by decide)
  · obtain ⟨c, hc, hq⟩ := stop_enclave_states h regs eid s ns hns
    refine ⟨c, hc, fun q => ⟨hq q, fun hi => ?_⟩⟩
    rcases hq q with h1 | ⟨_, h2⟩
    · rw [← h1]; exact hi
    · rw [h2] at hi; exact absurd hi (by decide)
  · obtain ⟨c, hc, hq⟩ := resume_from_stop_states h regs eid s ns hns
    refine ⟨c, hc, fun q => ⟨hq q, fun hi => ?_⟩⟩
    rcases hq q with h1 | ⟨_, h2⟩
    · rw [← h1]; exact hi
    · rw [h2] at hi; exact absurd hi (by decide)
  · obtain ⟨c, hc, hq⟩ := resume_enclave_states K P h regs eid s ns hns
    refine ⟨c, hc, fun q => ⟨hq q, fun hi => ?_⟩⟩
    rcases hq q with h1 | ⟨_, h2⟩
    · rw [← h1]; exact hi
    · rw [h2] at hi; exact absurd hi (by decide)
  · obtain ⟨c, hc, hq⟩ := resume_from_ocall_states K P h regs eid s ns hns
    refine ⟨c, hc, fun q => ⟨hq q, fun hi => ?_⟩⟩
    rcases hq q with h1 | ⟨_, h2⟩
    · rw [← h1]; exact hi
    · rw [h2] at hi; exact absurd hi (by decide)
  · obtain ⟨c, hc, hq⟩ := enclave_sys_write_states K P h regs s ns hns
    refine ⟨c, hc, fun q hi => ?_⟩
    rcases hq q with h1 | ⟨_, h2⟩
    · rw [← h1]; exact hi
    · rw [h2] at hi; exact absurd hi (by decide)
  · obtain ⟨c, hc, hq⟩ := do_timer_irq_states K h regs s ns hns
    refine ⟨c, hc, fun q hi => ?_⟩
    rcases hq q with h1 | ⟨_, h2⟩
    · rw [← h1]; exact hi
    · rw [h2] at hi; exact absurd hi (by decide)
  · intro ret s1 hc q hq hi
    exact create_enclave_no_invalid K O h a s ret s1 hc q hq hi

/-- C8, amended, on the machine where enclave 0 is `RUNNABLE`: `stop_enclave(regs, 0)`
returns and every descriptor keeps its state or moves from a state above `FRESH` to
`STOPPED`. -/
theorem state_closure_witness :
    ∃ c, stop_enclave 0 (fun _ => 0) 0 sm_runnable = some c ∧
      ∀ q, ((rd c.st.reg q).state = (rd sm_runnable.reg q).state ∨
          (FRESH < (rd sm_runnable.reg q).state ∧ (rd c.st.reg q).state = STOPPED)) ∧
        ((rd c.st.reg q).state = INVALID → (rd sm_runnable.reg q).state = INVALID) :=
  (state_closure consts_two platform_ok oracle_example 0 (fun _ => 0) 0 args_example
    sm_runnable [0] (by decide)).2.1

/-- The contract of `run_enclave` in terms of the descriptor's own `eid` field: on a
registry whose list ends, `run_enclave(regs, eid)` returns; it returns 0 with
the descriptor in state `RUNNING` exactly when the descriptor exists, is `FRESH`, its
`host_ptbr` equals `satp` and `grant_enclave_access` succeeds.  In that case `mepc` is the
entry point, `regs[2]` is the default stack, `regs[11..13]` are the entry point,
`untrusted_ptr` and `untrusted_size`, and the per-hart record of the calling hart is
in-enclave with the eid of the descriptor.  In every other case it returns -1 and the
registry and the per-hart table are unchanged. -/
theorem run_enclave_contract (K : consts) (P : platform_t) (h : Nat) (regs : Nat → Nat)
    (eid : Nat) (s : sm_state) (ns : List Nat) (hns : nodes s.reg = some ns) :
    ∃ c o, run_enclave K P h regs eid s = some c ∧
      get_enclave s.reg (int_of_uint eid) = some o ∧
      ((c.ret = 0 ∧ ∃ p, o = some p ∧ (rd c.st.reg p).state = RUNNING) ↔
        ∃ p, o = some p ∧ (rd s.reg p).state = FRESH ∧
          (rd s.reg p).host_ptbr = (s.csrs h).satp ∧ 0 ≤ P.grant_enclave_access) ∧
      (∀ p, o = some p → (rd s.reg p).state = FRESH →
        (rd s.reg p).host_ptbr = (s.csrs h).satp → 0 ≤ P.grant_enclave_access →
        c.ret = 0 ∧ (rd c.st.reg p).state = RUNNING ∧
          (c.st.csrs h).mepc = (rd s.reg p).entry_point ∧
          c.regs 2 = K.ENCLAVE_DEFAULT_STACK ∧
          c.regs 11 = (rd s.reg p).entry_point ∧
          c.regs 12 = (rd s.reg p).untrusted_ptr ∧
          c.regs 13 = (rd s.reg p).untrusted_size ∧
          (c.st.cpus h).in_enclave = 1 ∧ (c.st.cpus h).eid = (rd s.reg p).eid) ∧
      ((¬ ∃ p, o = some p ∧ (rd s.reg p).state = FRESH ∧
          (rd s.reg p).host_ptbr = (s.csrs h).satp ∧ 0 ≤ P.grant_enclave_access) →
        c.ret = FAIL ∧ c.st.reg = s.reg ∧ c.st.cpus = s.cpus) := by
  obtain ⟨o, ho⟩ := get_enclave_total s.reg ns (int_of_uint eid) hns
  unfold run_enclave
  simp only [acquire_enclave_metadata_lock, ho]
  cases o with
  | none =>
    refine ⟨_, none, rfl, rfl, ?_, ?_, ?_⟩
    · simp
    · intro p hp; simp at hp
    · intro _; exact ⟨rfl, rfl, rfl⟩
  | some p =>
    simp only
    by_cases h1 : (rd s.reg p).state = FRESH
    · by_cases h2 : (rd s.reg p).host_ptbr = (s.csrs h).satp
      · rw [if_neg (not_not.mpr h1), if_neg (not_not.mpr h2)]
        by_cases h3 : P.grant_enclave_access < 0
        · rw [if_pos ((rc_swap_from_host_to_enclave _ _ _ _ _).mpr h3)]
          refine ⟨_, some p, rfl, rfl, ?_, ?_, ?_⟩
          · constructor
            · rintro ⟨hr, _⟩
              simp at hr
            · rintro ⟨p1, _, _, _, hg⟩
              omega
          · intro p1 _ _ _ hg
            omega
          · intro _
            refine ⟨rfl, ?_, ?_⟩ <;>
              simp [swap_from_host_to_enclave, h3, release_enclave_metadata_lock]
        · rw [if_neg (fun hh => h3 ((rc_swap_from_host_to_enclave _ _ _ _ _).mp hh))]
          have hsucc : ∀ p1, some p = some p1 →
              (0 : Nat) = 0 ∧
              (rd (release_enclave_metadata_lock (set_state (set_csrs
                (swap_from_host_to_enclave P h regs p
                  { cpus := s.cpus, csrs := s.csrs, enclave_metadata_lock := true, reg := s.reg,
                    mem := s.mem, pma := s.pma, vma := s.vma, page := s.page }).2.2 h
                { ((swap_from_host_to_enclave P h regs p
                  { cpus := s.cpus, csrs := s.csrs, enclave_metadata_lock := true, reg := s.reg,
                    mem := s.mem, pma := s.pma, vma := s.vma, page := s.page }).2.2.csrs h) with
                  mepc := (rd (swap_from_host_to_enclave P h regs p
                  { cpus := s.cpus, csrs := s.csrs, enclave_metadata_lock := true, reg := s.reg,
                    mem := s.mem, pma := s.pma, vma := s.vma, page := s.page }).2.2.reg p).entry_point,
                  mie := ((swap_from_host_to_enclave P h regs p
                  { cpus := s.cpus, csrs := s.csrs, enclave_metadata_lock := true, reg := s.reg,
                    mem := s.mem, pma := s.pma, vma := s.vma, page := s.page }).2.2.csrs h).mie
                    ||| MIP_MTIP }) p RUNNING)).reg p1).state = RUNNING := by
            intro p1 hp1
            simp only [Option.some.injEq] at hp1
            subst hp1
            refine ⟨rfl, ?_⟩
            simp only [release_enclave_metadata_lock]
            rw [state_set_state]
            simp
          refine ⟨_, some p, rfl, rfl, ?_, ?_, ?_⟩
          · constructor
            · intro _
              exact ⟨p, rfl, h1, h2, le_of_not_lt h3⟩
            · intro _
              exact ⟨rfl, p, rfl, (hsucc p rfl).2⟩
          · intro p1 hp1 _ _ _
            have hpp : p1 = p := by simpa using hp1.symm
            subst hpp
            refine ⟨rfl, (hsucc p1 rfl).2, ?_, ?_, ?_, ?_, ?_, ?_, ?_⟩ <;>
              simp [swap_from_host_to_enclave, h3, release_enclave_metadata_lock, set_state,
                set_enclave, set_csrs, set_cpu, enter_enclave_world, rd_wr_same, set_reg,
                swap_prev_state, swap_csrs, switch_ptbr, swap_prev_stvec, swap_prev_mie,
                swap_prev_mideleg, swap_prev_medeleg, swap_prev_mepc]
          · intro hn
            exact absurd ⟨p, rfl, h1, h2, le_of_not_lt h3⟩ hn
      · rw [if_neg (not_not.mpr h1), if_pos h2]
        refine ⟨_, some p, rfl, rfl, ?_, ?_, ?_⟩
        · constructor
          · rintro ⟨hr, _⟩
            simp at hr
          · rintro ⟨p1, hp1, _, hh, _⟩
            simp only [Option.some.injEq] at hp1
            subst hp1
            exact absurd hh h2
        · intro p1 hp1 _ hh _
          simp only [Option.some.injEq] at hp1
          subst hp1
          exact absurd hh h2
        · intro _; exact ⟨rfl, rfl, rfl⟩
    · rw [if_pos h1]
      refine ⟨_, some p, rfl, rfl, ?_, ?_, ?_⟩
      · constructor
        · rintro ⟨hr, _⟩
          simp at hr
        · rintro ⟨p1, hp1, hh, _⟩
          simp only [Option.some.injEq] at hp1
          subst hp1
          exact absurd hh h1
      · intro p1 hp1 hh _ _
        simp only [Option.some.injEq] at hp1
        subst hp1
        exact absurd hh h1
      · intro _; exact ⟨rfl, rfl, rfl⟩

/-- The contract of `run_enclave` on the machine where enclave 0 is `FRESH` and its
creator runs on hart 0. -/
theorem run_enclave_contract_witness :
    ∃ c o, run_enclave consts_two platform_ok 0 (fun _ => 0) 0 sm_created = some c ∧
      get_enclave sm_created.reg (int_of_uint 0) = some o ∧
      ((c.ret = 0 ∧ ∃ p, o = some p ∧ (rd c.st.reg p).state = RUNNING) ↔
        ∃ p, o = some p ∧ (rd sm_created.reg p).state = FRESH ∧
          (rd sm_created.reg p).host_ptbr = (sm_created.csrs 0).satp ∧
          0 ≤ platform_ok.grant_enclave_access) ∧
      (∀ p, o = some p → (rd sm_created.reg p).state = FRESH →
        (rd sm_created.reg p).host_ptbr = (sm_created.csrs 0).satp →
        0 ≤ platform_ok.grant_enclave_access →
        c.ret = 0 ∧ (rd c.st.reg p).state = RUNNING ∧
          (c.st.csrs 0).mepc = (rd sm_created.reg p).entry_point ∧
          c.regs 2 = consts_two.ENCLAVE_DEFAULT_STACK ∧
          c.regs 11 = (rd sm_created.reg p).entry_point ∧
          c.regs 12 = (rd sm_created.reg p).untrusted_ptr ∧
          c.regs 13 = (rd sm_created.reg p).untrusted_size ∧
          (c.st.cpus 0).in_enclave = 1 ∧ (c.st.cpus 0).eid = (rd sm_created.reg p).eid) ∧
      ((¬ ∃ p, o = some p ∧ (rd sm_created.reg p).state = FRESH ∧
          (rd sm_created.reg p).host_ptbr = (sm_created.csrs 0).satp ∧
          0 ≤ platform_ok.grant_enclave_access) →
        c.ret = FAIL ∧ c.st.reg = sm_created.reg ∧ c.st.cpus = sm_created.cpus) :=
  run_enclave_contract consts_two platform_ok 0 (fun _ => 0) 0 sm_created [0] (by decide)

/-- C9 (defect: the tail pointer is never advanced, so after a second growth of the list
the `eid` field of a descriptor is no longer its index): after five creations with two
slabs per node, `get_enclave(2)` is a `FRESH` descriptor owned by the caller whose `eid`
field is 4; `run_enclave(regs, 2)` returns 0, sets it `RUNNING` and marks hart 0
in-enclave with eid 4, not with the eid 2 passed to the call. -/
theorem run_enclave_marks_other_eid :
    (run_events consts_two trace_five sm_boot).isSome = true ∧
      get_enclave (sm_after trace_five).reg (int_of_uint 2) = some (some (2, 0)) ∧
      (rd (sm_after trace_five).reg (2, 0)).state = FRESH ∧
      (rd (sm_after trace_five).reg (2, 0)).host_ptbr = ((sm_after trace_five).csrs 0).satp ∧
      (rd (sm_after trace_five).reg (2, 0)).eid = 4 ∧
      (run_enclave consts_two platform_ok 0 (fun _ => 0) 2 (sm_after trace_five)).map
        (fun c => (c.ret, (rd c.st.reg (2, 0)).state, (c.st.cpus 0).in_enclave,
          (c.st.cpus 0).eid)) = some (0, RUNNING, 1, 4) := by
  decide

theorem int_of_uint_small (e : Nat) (he : e < 2 ^ 31) : int_of_uint e = (e : Int) := by
  unfold int_of_uint
  have h2 : e % 2 ^ 32 = e := Nat.mod_eq_of_lt (by omega)
  rw [h2, if_pos he]

/-- While every occupied slot carries its index as `eid` (no second growth of the list has
happened), a `run_enclave(regs, eid)` that returns 0 marks the calling hart in-enclave with
the eid passed to the call. -/
theorem run_enclave_marks_passed_eid (K : consts) (P : platform_t) (h : Nat)
    (regs : Nat → Nat) (eid : Nat) (s : sm_state) (ns : List Nat)
    (hns : nodes s.reg = some ns) (hidx : eid_is_index s.reg ns) (he : eid < 2 ^ 31)
    (c : call_t) (hc : run_enclave K P h regs eid s = some c) (hret : c.ret = 0) :
    (c.st.cpus h).in_enclave = 1 ∧ (c.st.cpus h).eid = (eid : Int) := by
  obtain ⟨c1, o, h1, h2, _, h4, h5⟩ := run_enclave_contract K P h regs eid s ns hns
  rw [hc] at h1
  cases h1
  by_cases hcond : ∃ p, o = some p ∧ (rd s.reg p).state = FRESH ∧
      (rd s.reg p).host_ptbr = (s.csrs h).satp ∧ 0 ≤ P.grant_enclave_access
  · obtain ⟨p, hp, g1, g2, g3⟩ := hcond
    obtain ⟨_, _, _, _, _, _, _, k1, k2⟩ := h4 p hp g1 g2 g3
    refine ⟨k1, ?_⟩
    rw [k2]
    rw [get_enclave_eq s.reg _ ns hns, hp, int_of_uint_small eid he,
      ulong_natCast eid (by omega)] at h2
    simp only [Option.some.injEq] at h2
    exact hidx eid p h2 (by rw [g1]; decide)
  · have := (h5 hcond).1
    rw [hret] at this
    exact absurd this (by decide)

/-- C10 (defect in `do_timer_irq`): hart 0 runs enclave 0 (`RUNNING`); hart 1 never
entered an enclave, so its per-hart record is the zero-initialised one (`in_enclave = 0`,
`eid = 0`) and `check_in_enclave_world()` fails on it.  `do_timer_irq` on hart 1 calls
neither `check_in_enclave_world` nor `check_enclave_authentication`: it returns 0, moves
enclave 0 to `RUNNABLE`, rewrites the per-hart record of hart 1 and swaps the snapshot
with the CSRs of hart 1 (its `mstatus.MPP` becomes supervisor). -/
theorem do_timer_irq_skips_world_check :
    (sm_running.cpus 1).in_enclave = 0 ∧ (sm_running.cpus 1).eid = 0 ∧
      check_in_enclave_world platform_ok sm_running 1 = -1 ∧
      (sm_running.cpus 0).in_enclave = 1 ∧ (sm_running.cpus 0).eid = 0 ∧
      (rd sm_running.reg (0, 0)).state = RUNNING ∧
      (do_timer_irq consts_two 1 (fun _ => 0) sm_running).map (fun c => c.ret) = some 0 ∧
      (rd (state_of (do_timer_irq consts_two 1 (fun _ => 0) sm_running)).reg (0, 0)).state
        = RUNNABLE ∧
      ((state_of (do_timer_irq consts_two 1 (fun _ => 0) sm_running)).cpus 1).eid = -1 ∧
      (sm_running.csrs 1).mstatus = 0 ∧
      ((state_of (do_timer_irq consts_two 1 (fun _ => 0) sm_running)).csrs 1).mstatus
        = 2048 := by
  decide

/-- The part of C10 that holds: on a registry whose list ends, `exit_enclave` and
`enclave_sys_write` are rejected without effect when the calling hart is not in the
enclave world or when `check_enclave_authentication` fails. -/
theorem enclave_origin_rejects (K : consts) (P : platform_t) (h : Nat) (regs : Nat → Nat)
    (s : sm_state) (ns : List Nat) (hns : nodes s.reg = some ns)
    (hbad : check_in_enclave_world P s h < 0 ∨ check_enclave_authentication P < 0) :
    rejected s regs (exit_enclave P h regs s) ∧
      rejected s regs (enclave_sys_write K P h regs s) := by
  obtain ⟨o, ho⟩ := get_enclave_total s.reg ns (s.cpus h).eid hns
  by_cases hw : check_in_enclave_world P s h < 0
  · constructor
    · exact ⟨_, by simp [exit_enclave, hw]; rfl, rfl, rfl, rfl, rfl, rfl, rfl, rfl, rfl, rfl⟩
    · exact ⟨_, by simp [enclave_sys_write, hw]; rfl, rfl, rfl, rfl, rfl, rfl, rfl, rfl, rfl, rfl⟩
  · have ha : check_enclave_authentication P < 0 := hbad.resolve_left hw
    have ha0 : check_enclave_authentication P ≠ 0 := by omega
    constructor
    · unfold exit_enclave
      simp only [hw, if_false, acquire_enclave_metadata_lock, get_enclave_id, ho]
      cases o with
      | none => exact ⟨_, rfl, rfl, rfl, rfl, rfl, rfl, rfl, rfl, rfl, rfl⟩
      | some p =>
        simp only
        rw [if_pos ha]
        exact ⟨_, rfl, rfl, rfl, rfl, rfl, rfl, rfl, rfl, rfl, rfl⟩
    · unfold enclave_sys_write
      simp only [hw, if_false, acquire_enclave_metadata_lock, get_enclave_id, ho]
      cases o with
      | none => exact ⟨_, rfl, rfl, rfl, rfl, rfl, rfl, rfl, rfl, rfl, rfl⟩
      | some p =>
        simp only
        rw [if_pos (Or.inl ha0)]
        exact ⟨_, rfl, rfl, rfl, rfl, rfl, rfl, rfl, rfl, rfl, rfl⟩

/-! ## The tail pointer is never advanced: any number of slabs per node -/

theorem enclave_fresh_state_ne (e : Int) : (enclave_fresh e).state ≠ INVALID := by
  simp [enclave_fresh]

theorem one_node_nodes (N j : Nat) (r : registry_t) (h : one_node N j r) :
    nodes r = some [0] := by
  obtain ⟨h1, h2, _, _, h5, _, _⟩ := h
  simp [nodes, h1, h2, chain, h5]

theorem two_nodes_nodes (N num b j : Nat) (r : registry_t) (h : two_nodes N num b j r) :
    nodes r = some [0, b] := by
  obtain ⟨h1, h2, _, _, h5, h6, h7, _, h9, _, _, _⟩ := h
  have hnum : ∃ m, num = m + 2 := ⟨num - 2, by omega⟩
  obtain ⟨m, hm⟩ := hnum
  simp only [nodes, h1, h2, hm]
  rw [chain_succ, h5, chain_succ, h9, chain_none_ptr]
  rfl

theorem slots_one (r : registry_t) (N i : Nat) (hN : (r.link_mem 0).slab_num = N)
    (hi : i < N) : (slots r [0])[i]? = some (0, i) := by
  simp only [slots, List.append_nil]
  exact node_slots_getElem? r 0 i (by omega)

theorem slots_two_head (r : registry_t) (N b i : Nat) (hN : (r.link_mem 0).slab_num = N)
    (hi : i < N) : (slots r [0, b])[i]? = some (0, i) := by
  simp only [slots, List.append_nil]
  rw [List.getElem?_append_left (by rw [node_slots_length]; omega)]
  exact node_slots_getElem? r 0 i (by omega)

theorem slots_two_second (r : registry_t) (N b i : Nat) (hN : (r.link_mem 0).slab_num = N)
    (hb : (r.link_mem b).slab_num = N) (hi : i < N) :
    (slots r [0, b])[N + i]? = some (b, i) := by
  simp only [slots, List.append_nil]
  rw [List.getElem?_append_right (by rw [node_slots_length]; omega), node_slots_length, hN,
    Nat.add_sub_cancel_left]
  exact node_slots_getElem? r b i (by omega)

theorem one_node_alloc (K : consts) (N j : Nat) (r : registry_t) (h : one_node N j r)
    (hj : j < N) :
    ∃ r1, alloc_enclave K mm_ok r = some (some (0, j), r1) ∧ (rd r1 (0, j)).eid = (j : Int) ∧
      one_node N (j + 1) r1 := by
  have hns := one_node_nodes N j r h
  obtain ⟨h1, h2, h3, h4, h5, h6, h7⟩ := h
  refine ⟨wr r (0, j) (enclave_fresh j), ?_, ?_, ?_⟩
  · apply alloc_enclave_found K mm_ok r [0] j (0, j) hns (slots_one r N j h4 hj)
      (h7 j (le_refl _))
    intro i q hi hq
    rw [slots_one r N i h4 (by omega)] at hq
    simp only [Option.some.injEq] at hq
    rw [← hq]
    exact h6 i hi
  · rw [rd_wr_same]; rfl
  · refine ⟨h1, h2, h3, ?_, ?_, ?_, ?_⟩
    · rw [wr_slab_num]; exact h4
    · rw [wr_next]; exact h5
    · intro i hi
      by_cases hij : i = j
      · subst hij
        rw [rd_wr_same]
        exact enclave_fresh_state_ne _
      · rw [rd_wr_ne _ _ _ _ (by simpa using hij)]
        exact h6 i (by omega)
    · intro i hi
      rw [rd_wr_ne _ _ _ _ (by simp; omega)]
      exact h7 i (by omega)

theorem two_nodes_alloc (K : consts) (N num b j : Nat) (r : registry_t)
    (h : two_nodes N num b j r) (hj : j < N) :
    ∃ r1, alloc_enclave K mm_ok r = some (some (b, j), r1) ∧
      (rd r1 (b, j)).eid = ((N + j : Nat) : Int) ∧ two_nodes N num b (j + 1) r1 := by
  have hns := two_nodes_nodes N num b j r h
  obtain ⟨h1, h2, h3, h4, h5, hb0, hbn, h8, h9, h10, h11, h12⟩ := h
  refine ⟨wr r (b, j) (enclave_fresh ((N + j : Nat) : Int)), ?_, ?_, ?_⟩
  · apply alloc_enclave_found K mm_ok r [0, b] (N + j) (b, j) hns
      (slots_two_second r N b j h4 h8 hj) (h12 j (le_refl _))
    intro i q hi hq
    by_cases hiN : i < N
    · rw [slots_two_head r N b i h4 hiN] at hq
      simp only [Option.some.injEq] at hq
      rw [← hq]
      exact h10 i hiN
    · have hi2 : i = N + (i - N) := by omega
      rw [hi2, slots_two_second r N b (i - N) h4 h8 (by omega)] at hq
      simp only [Option.some.injEq] at hq
      rw [← hq]
      exact h11 (i - N) (by omega)
  · rw [rd_wr_same]; rfl
  · refine ⟨h1, h2, h3, ?_, ?_, hb0, hbn, ?_, ?_, ?_, ?_, ?_⟩
    · rw [wr_slab_num]; exact h4
    · rw [wr_next]; exact h5
    · rw [wr_slab_num]; exact h8
    · rw [wr_next]; exact h9
    · intro i hi
      rw [rd_wr_ne _ _ _ _ (by simp; intro hc; exact absurd hc.symm hb0)]
      exact h10 i hi
    · intro i hi
      by_cases hij : i = j
      · subst hij
        rw [rd_wr_same]
        exact enclave_fresh_state_ne _
      · rw [rd_wr_ne _ _ _ _ (by simpa using hij)]
        exact h11 i (by omega)
    · intro i hi
      rw [rd_wr_ne _ _ _ _ (by simp; omega)]
      exact h12 i (by omega)

theorem alloc_enclave_first (K : consts) (hN : 1 ≤ slabs_per_node K) :
    ∃ r1, alloc_enclave K mm_ok registry_empty = some (some (0, 0), r1) ∧
      (rd r1 (0, 0)).eid = 0 ∧ one_node (slabs_per_node K) 1 r1 := by
  obtain ⟨ri, hri⟩ : ∃ ri : registry_t, ri =
      { (init_mem_link K mm_ok.init K.ENCLAVE_METADATA_REGION_SIZE K.sizeof_enclave_t
          registry_empty).2 with
        enclave_metadata_head := some 0, enclave_metadata_tail := some 0 } := ⟨_, rfl⟩
  have e1 : ri.link_mem_num = 1 := by rw [hri]; rfl
  have e2 : ri.enclave_metadata_head = some 0 := by rw [hri]
  have e3 : ri.enclave_metadata_tail = some 0 := by rw [hri]
  have e4 : (ri.link_mem 0).slab_num = slabs_per_node K := by rw [hri]; rfl
  have e5 : (ri.link_mem 0).next_link_mem = none := by rw [hri]; rfl
  have e6 : ∀ i, (rd ri (0, i)).state = INVALID := by intro i; rw [hri]; rfl
  have hone : one_node (slabs_per_node K) 0 ri :=
    ⟨e1, e2, e3, e4, e5, fun i hi => by omega, fun i _ => e6 i⟩
  obtain ⟨r1, h1, h2, h3⟩ := one_node_alloc K (slabs_per_node K) 0 ri hone (by omega)
  refine ⟨r1, ?_, by simpa using h2, h3⟩
  have hal : alloc_enclave K mm_ok registry_empty = alloc_enclave K mm_ok ri := by
    rw [hri]
    simp [alloc_enclave, registry_empty, init_mem_link, mm_ok, set_link_mem]
  rw [hal, h1]

theorem alloc_enclave_grows (K : consts) (N : Nat) (r : registry_t) (ns : List Nat)
    (hns : nodes r = some ns) (hh : r.enclave_metadata_head = some 0)
    (ht : r.enclave_metadata_tail = some 0) (hN : (r.link_mem 0).slab_num = N)
    (hnum : 0 < r.link_mem_num)
    (hfull : ∀ q, q ∈ slots r ns → (rd r q).state ≠ INVALID)
    (hhead : ∀ i, i < N → (rd r (0, i)).state ≠ INVALID) :
    ∃ r1, alloc_enclave K mm_ok r = some (some (r.link_mem_num, 0), r1) ∧
      (rd r1 (r.link_mem_num, 0)).eid = ((slots r ns).length : Int) ∧
      two_nodes N (r.link_mem_num + 1) r.link_mem_num 1 r1 := by
  have hB := alloc_enclave_nodes_none r r.link_mem_num r.enclave_metadata_head ns 0 hns hfull
  have hne : r.link_mem_num ≠ 0 := by omega
  have hne2 : (0 : Nat) ≠ r.link_mem_num := fun hc => hne hc.symm
  obtain ⟨r3, hr3⟩ : ∃ r3 : registry_t, r3 =
      { set_link_mem
          (set_link_mem r 0 { r.link_mem 0 with next_link_mem := some r.link_mem_num })
          r.link_mem_num
          { base := 8192
            mem_size := (r.link_mem 0).mem_size
            slab_size := (r.link_mem 0).slab_size
            slab_num := (r.link_mem 0).slab_num
            addr := size_up_align (8192 + K.sizeof_link_mem_t) (r.link_mem 0).slab_size
            next_link_mem := none
            slabs := fun _ => enclave_zero } with
        link_mem_num := r.link_mem_num + 1 } := ⟨_, rfl⟩
  have hadd : add_link_mem K mm_ok.add r = some (some r.link_mem_num, r3) := by
    rw [hr3]
    simp only [add_link_mem, ht, mm_ok]
    rfl
  refine ⟨wr r3 (r.link_mem_num, 0) (enclave_fresh (0 + ((slots r ns).length : Int))),
    ?_, ?_, ?_⟩
  · simp only [alloc_enclave, hh]
    rw [hh] at hB
    rw [hB]
    simp only [hadd]
  · rw [rd_wr_same]
    simp [enclave_fresh]
  · have f1 : r3.link_mem_num = r.link_mem_num + 1 := by rw [hr3]
    have f2 : r3.enclave_metadata_head = some 0 := by rw [hr3]; exact hh
    have f3 : r3.enclave_metadata_tail = some 0 := by rw [hr3]; exact ht
    have f4 : (r3.link_mem 0).slab_num = N := by
      rw [hr3]; simp [set_link_mem, hne2, hN]
    have f5 : (r3.link_mem 0).next_link_mem = some r.link_mem_num := by
      rw [hr3]; simp [set_link_mem, hne2]
    have f6 : (r3.link_mem r.link_mem_num).slab_num = N := by
      rw [hr3]; simp [set_link_mem, hN]
    have f7 : (r3.link_mem r.link_mem_num).next_link_mem = none := by
      rw [hr3]; simp [set_link_mem]
    have f8 : ∀ i, rd r3 (0, i) = rd r (0, i) := by
      intro i; rw [hr3]; simp [rd, set_link_mem, hne2]
    have f9 : ∀ i, rd r3 (r.link_mem_num, i) = enclave_zero := by
      intro i; rw [hr3]; simp [rd, set_link_mem]
    refine ⟨f1, f2, f3, ?_, ?_, hne, by omega, ?_, ?_, ?_, ?_, ?_⟩
    · rw [wr_slab_num]; exact f4
    · rw [wr_next]; exact f5
    · rw [wr_slab_num]; exact f6
    · rw [wr_next]; exact f7
    · intro i hi
      rw [rd_wr_ne _ _ _ _ (by simp; intro hc; exact absurd hc hne2), f8]
      exact hhead i hi
    · intro i hi
      have hi0 : i = 0 := by omega
      subst hi0
      rw [rd_wr_same]
      exact enclave_fresh_state_ne _
    · intro i hi
      rw [rd_wr_ne _ _ _ _ (by simp; omega), f9]
      rfl

theorem alloc_many_step (K : consts) (n : Nat) (r r1 : registry_t) (p : Nat × Nat)
    (h : alloc_enclave K mm_ok r = some (some p, r1)) :
    alloc_many K (n + 1) r
      = (alloc_many K n r1).map (fun x => ((p, (rd r1 p).eid) :: x.1, x.2)) := by
  rw [alloc_many, h]
  cases hm : alloc_many K n r1 with
  | none => simp [hm]
  | some x => simp [hm]

theorem alloc_many_append (K : consts) :
    ∀ (m n : Nat) (r r1 r2 : registry_t) (es1 es2 : List ((Nat × Nat) × Int)),
      alloc_many K m r = some (es1, r1) → alloc_many K n r1 = some (es2, r2) →
      alloc_many K (m + n) r = some (es1 ++ es2, r2) := by
  intro m
  induction m with
  | zero =>
    intro n r r1 r2 es1 es2 h1 h2
    simp only [alloc_many, Option.some.injEq, Prod.mk.injEq] at h1
    obtain ⟨h11, h12⟩ := h1
    subst h11 h12
    simpa using h2
  | succ m ih =>
    intro n r r1 r2 es1 es2 h1 h2
    rw [alloc_many] at h1
    cases ha : alloc_enclave K mm_ok r with
    | none => simp [ha] at h1
    | some res =>
      obtain ⟨o, ra⟩ := res
      cases o with
      | none => simp [ha] at h1
      | some p =>
        simp only [ha] at h1
        cases hm : alloc_many K m ra with
        | none => simp [hm] at h1
        | some x =>
          obtain ⟨es, rb⟩ := x
          simp only [hm, Option.some.injEq, Prod.mk.injEq] at h1
          obtain ⟨h11, h12⟩ := h1
          subst h11 h12
          have := ih n ra rb r2 es es2 hm h2
          rw [show m + 1 + n = (m + n) + 1 by omega, alloc_many_step K (m + n) r ra p ha, this]
          rfl

theorem one_node_run (K : consts) (N : Nat) :
    ∀ (m j : Nat) (r : registry_t), one_node N j r → j + m ≤ N →
      ∃ r1, alloc_many K m r
          = some ((List.range' j m).map (fun (i : Nat) => (((0 : Nat), i), (i : Int))), r1) ∧
        one_node N (j + m) r1 := by
  intro m
  induction m with
  | zero => intro j r h _; exact ⟨r, rfl, h⟩
  | succ m ih =>
    intro j r h hle
    obtain ⟨ra, ha, he, hone⟩ := one_node_alloc K N j r h (by omega)
    obtain ⟨rb, hb, hone2⟩ := ih (j + 1) ra hone (by omega)
    refine ⟨rb, ?_, by rw [show j + (m + 1) = j + 1 + m by omega]; exact hone2⟩
    rw [alloc_many_step K m r ra (0, j) ha, hb, he, List.range'_succ]
    rfl

theorem two_nodes_run (K : consts) (N num b : Nat) :
    ∀ (m j : Nat) (r : registry_t), two_nodes N num b j r → j + m ≤ N →
      ∃ r1, alloc_many K m r
          = some ((List.range' j m).map (fun (i : Nat) => ((b, i), ((N + i : Nat) : Int))), r1) ∧
        two_nodes N num b (j + m) r1 := by
  intro m
  induction m with
  | zero => intro j r h _; exact ⟨r, rfl, h⟩
  | succ m ih =>
    intro j r h hle
    obtain ⟨ra, ha, he, htwo⟩ := two_nodes_alloc K N num b j r h (by omega)
    obtain ⟨rb, hb, htwo2⟩ := ih (j + 1) ra htwo (by omega)
    refine ⟨rb, ?_, by rw [show j + (m + 1) = j + 1 + m by omega]; exact htwo2⟩
    rw [alloc_many_step K m r ra (b, j) ha, hb, he, List.range'_succ]
    rfl

theorem one_node_full (N : Nat) (r : registry_t) (h : one_node N N r) :
    (∀ q, q ∈ slots r [0] → (rd r q).state ≠ INVALID) ∧ (slots r [0]).length = N := by
  obtain ⟨_, _, _, h4, _, h6, _⟩ := h
  constructor
  · intro q hq
    simp only [slots, List.append_nil, mem_node_slots] at hq
    obtain ⟨q1, q2⟩ := q
    simp only at hq
    obtain ⟨hq1, hq2⟩ := hq
    subst hq1
    exact h6 q2 (by omega)
  · simp [slots, node_slots_length, h4]

theorem two_nodes_full (N num b : Nat) (r : registry_t) (h : two_nodes N num b N r) :
    (∀ q, q ∈ slots r [0, b] → (rd r q).state ≠ INVALID) ∧
      (slots r [0, b]).length = 2 * N := by
  obtain ⟨_, _, _, h4, _, _, _, h8, _, h10, h11, _⟩ := h
  constructor
  · intro q hq
    simp only [slots, List.append_nil, List.mem_append, mem_node_slots] at hq
    obtain ⟨q1, q2⟩ := q
    simp only at hq
    rcases hq with ⟨hq1, hq2⟩ | ⟨hq1, hq2⟩
    · subst hq1
      exact h10 q2 (by omega)
    · subst hq1
      exact h11 q2 (by omega)
  · simp [slots, node_slots_length, h4, h8]
    omega

/-- For any number `N ≥ 1` of slabs per node: `2 * N + 1` allocations in a row from the
empty registry hand out the slots of node 0, then those of node 1, then slot 0 of node 2,
with eids `0 .. 2 * N`, and leave a list that consists of the head and node 2 only, with
`enclave_metadata_tail` still at the head. -/
theorem alloc_many_second_growth (K : consts) (hN : 1 ≤ slabs_per_node K) :
    ∃ r, alloc_many K (2 * slabs_per_node K + 1) registry_empty
        = some ((List.range' 0 (slabs_per_node K)).map (fun (i : Nat) => (((0 : Nat), i), (i : Int)))
            ++ ((List.range' 0 (slabs_per_node K)).map
                (fun (i : Nat) => (((1 : Nat), i), ((slabs_per_node K + i : Nat) : Int)))
              ++ [((2, 0), ((2 * slabs_per_node K : Nat) : Int))]), r) ∧
      two_nodes (slabs_per_node K) 3 2 1 r ∧
      (rd r (2, 0)).eid = ((2 * slabs_per_node K : Nat) : Int) := by
  obtain ⟨N, hNdef⟩ : ∃ N, N = slabs_per_node K := ⟨_, rfl⟩
  rw [← hNdef] at hN ⊢
  obtain ⟨M, hM⟩ : ∃ M, N = M + 1 := ⟨N - 1, by omega⟩
  -- node 0
  obtain ⟨r1, h1, he1, hone1⟩ := alloc_enclave_first K (by rw [← hNdef]; exact hN)
  rw [← hNdef] at hone1
  obtain ⟨r2, h2, hone2⟩ := one_node_run K N M 1 r1 hone1 (by omega)
  have hA : alloc_many K N registry_empty
      = some ((List.range' 0 N).map (fun (i : Nat) => (((0 : Nat), i), (i : Int))), r2) := by
    rw [show alloc_many K N registry_empty = alloc_many K (M + 1) registry_empty by rw [hM],
      show List.range' 0 N = 0 :: List.range' 1 M by rw [hM, List.range'_succ],
      alloc_many_step K M registry_empty r1 (0, 0) h1, h2, he1]
    simp
  rw [show 1 + M = N by omega] at hone2
  -- first growth and node 1
  obtain ⟨hf, hl⟩ := one_node_full N r2 hone2
  have hone2' := hone2
  obtain ⟨g1, g2, g3, g4, g5, g6, g7⟩ := hone2'
  obtain ⟨r3, h3, he3, htwo3⟩ := alloc_enclave_grows K N r2 [0]
    (one_node_nodes N N r2 hone2) g2 g3 g4 (by omega) hf (fun i hi => g6 i hi)
  rw [g1] at h3 he3 htwo3
  rw [hl] at he3
  obtain ⟨r4, h4, htwo4⟩ := two_nodes_run K N 2 1 M 1 r3 htwo3 (by omega)
  have hB : alloc_many K N r2
      = some ((List.range' 0 N).map (fun (i : Nat) => (((1 : Nat), i), ((N + i : Nat) : Int))), r4) := by
    rw [show alloc_many K N r2 = alloc_many K (M + 1) r2 by rw [hM],
      show List.range' 0 N = 0 :: List.range' 1 M by rw [hM, List.range'_succ],
      alloc_many_step K M r2 r3 (1, 0) h3, h4, he3]
    simp
  rw [show 1 + M = N by omega] at htwo4
  -- second growth
  obtain ⟨hf2, hl2⟩ := two_nodes_full N 2 1 r4 htwo4
  have htwo4' := htwo4
  obtain ⟨k1, k2, k3, k4, k5, k6, k7, k8, k9, k10, k11, k12⟩ := htwo4'
  obtain ⟨r5, h5, he5, htwo5⟩ := alloc_enclave_grows K N r4 [0, 1]
    (two_nodes_nodes N 2 1 N r4 htwo4) k2 k3 k4 (by omega) hf2 k10
  rw [k1] at h5 he5 htwo5
  rw [hl2] at he5
  have hC : alloc_many K 1 r4 = some ([((2, 0), ((2 * N : Nat) : Int))], r5) := by
    rw [alloc_many_step K 0 r4 r5 (2, 0) h5, he5]
    rfl
  refine ⟨r5, ?_, htwo5, he5⟩
  have hBC := alloc_many_append K N 1 r2 r4 r5 _ _ hB hC
  have hABC := alloc_many_append K N (N + 1) registry_empty r2 r5 _ _ hA hBC
  rw [show 2 * N + 1 = N + (N + 1) by omega]
  exact hABC

theorem slabs_per_node_lt (K : consts) : slabs_per_node K < 2 ^ 64 := by
  unfold slabs_per_node
  exact lt_of_le_of_lt (Nat.div_le_self _ _) (Nat.mod_lt _ (by positivity))

/-- The defect behind C1, C2 and C4 for any number `N ≥ 1` of slabs per node: after
`2 * N + 1` allocations in a row from the empty registry, (C4) the list from the head
consists of the head and the node of the second growth only, while the tail pointer is
still the head; (C2) the descriptor handed out by allocation `N + 1`, slot 0 of the node
of the first growth, carried eid `N`, but `get_enclave(N)` returns slot 0 of the node of
the second growth, whose eid field is `2 * N`; (C1) the eid that the next allocation
hands out was handed out before. -/
theorem tail_never_advanced (K : consts) (hN : 1 ≤ slabs_per_node K) :
    ∃ es r, alloc_many K (2 * slabs_per_node K + 1) registry_empty = some (es, r) ∧
      es.length = 2 * slabs_per_node K + 1 ∧
      es[slabs_per_node K]? = some ((1, 0), (slabs_per_node K : Int)) ∧
      nodes r = some [0, 2] ∧ r.enclave_metadata_tail = some 0 ∧
      get_enclave r (slabs_per_node K : Int) = some (some (2, 0)) ∧
      (rd r (2, 0)).eid = ((2 * slabs_per_node K : Nat) : Int) ∧
      ∃ last r1, alloc_enclave K mm_ok r = some (some last, r1) ∧
        (rd r1 last).eid ∈ es.map Prod.snd := by
  obtain ⟨r, hr, htwo, heid⟩ := alloc_many_second_growth K hN
  obtain ⟨N, hNdef⟩ : ∃ N, N = slabs_per_node K := ⟨_, rfl⟩
  have hlt : N < 2 ^ 64 := by rw [hNdef]; exact slabs_per_node_lt K
  rw [← hNdef] at hN hr htwo heid ⊢
  have hnodes := two_nodes_nodes N 3 2 1 r htwo
  have htwo' := htwo
  obtain ⟨k1, k2, k3, k4, k5, k6, k7, k8, k9, k10, k11, k12⟩ := htwo'
  refine ⟨_, r, hr, ?_, ?_, hnodes, k3, ?_, heid, ?_⟩
  · simp
    omega
  · have hA : ((List.range' 0 N).map
        (fun (i : Nat) => (((0 : Nat), i), (i : Int)))).length = N := by simp
    rw [List.getElem?_append_right (by rw [hA]), hA, Nat.sub_self,
      List.getElem?_append_left (by simp; omega), List.getElem?_map,
      List.getElem?_range' _ _ (by omega)]
    simp
  · rw [get_enclave_eq r _ [0, 2] hnodes, ulong_natCast N hlt]
    have := slots_two_second r N 2 0 k4 k8 (by omega)
    simpa using this
  · by_cases h1 : 1 < N
    · obtain ⟨r1, ha, he, _⟩ := two_nodes_alloc K N 3 2 1 r htwo h1
      refine ⟨(2, 1), r1, ha, ?_⟩
      rw [he]
      simp only [List.map_append, List.mem_append, List.mem_map]
      right
      left
      refine ⟨((1, 1), ((N + 1 : Nat) : Int)), ⟨1, ?_, rfl⟩, rfl⟩
      rw [List.mem_range'_1]
      omega
    · have hN1 : N = 1 := by omega
      have htwoN : two_nodes N 3 2 N r := by rw [hN1] at htwo ⊢; exact htwo
      obtain ⟨hf, hl⟩ := two_nodes_full N 3 2 r htwoN
      obtain ⟨r1, ha, he, _⟩ := alloc_enclave_grows K N r [0, 2] hnodes k2 k3 k4
        (by omega) hf k10
      rw [k1] at ha he
      refine ⟨(3, 0), r1, ha, ?_⟩
      rw [he, hl]
      simp only [List.map_append, List.mem_append, List.mem_map]
      right
      right
      exact ⟨((2, 0), ((2 * N : Nat) : Int)), by simp, rfl⟩

/-! ## Preemption, resume and OCALL -/

theorem swap_from_enclave_to_host_eq (h : Nat) (regs : Nat → Nat) (p : Nat × Nat)
    (s : sm_state) :
    swap_from_enclave_to_host h regs p s
      = (0, (rd s.reg p).thread_context.prev_state,
          { s with
            cpus := fun k => if k = h then ⟨0, -1⟩ else s.cpus k
            csrs := fun k => if k = h then
                { satp := (rd s.reg p).host_ptbr
                  stvec := (rd s.reg p).thread_context.prev_stvec
                  mie := (rd s.reg p).thread_context.prev_mie
                  mip := (s.csrs h).mip
                  mideleg := (rd s.reg p).thread_context.prev_mideleg
                  medeleg := (rd s.reg p).thread_context.prev_medeleg
                  mepc := (rd s.reg p).thread_context.prev_mepc
                  mstatus := insert_mpp (s.csrs h).mstatus PRV_S }
              else s.csrs k
            reg := wr s.reg p
              { rd s.reg p with
                thread_context :=
                  { encl_ptbr := (rd s.reg p).thread_context.encl_ptbr
                    prev_stvec := (s.csrs h).stvec
                    prev_mie := (s.csrs h).mie
                    prev_mideleg := (s.csrs h).mideleg
                    prev_medeleg := (s.csrs h).medeleg
                    prev_mepc := (s.csrs h).mepc
                    prev_state := regs } } }) := by
  rfl

/-- The contract of `enclave_sys_write` on a hart in the enclave world whose recorded eid
addresses the descriptor, with the authentication passing.  State `RUNNING`: the eight
bytes at `ocall_func_id` receive `OCALL_SYS_WRITE` (little endian) and no other byte of
memory changes, the context is swapped out, the state becomes `OCALLING`, the hart is
marked out of the enclave world and the call returns `ENCLAVE_OCALL`.  Any other state:
returns -1 and changes nothing.  The swap is pinned register by register: the frame and
`stvec`, `mie`, `mideleg`, `medeleg`, `mepc` are exchanged with the snapshot, `satp`
becomes `host_ptbr`, `mstatus.MPP` becomes supervisor and `mip` stays; no other field of
the descriptor and no other hart changes. -/
theorem enclave_sys_write_contract (K : consts) (P : platform_t) (h : Nat)
    (regs : Nat → Nat) (s : sm_state) (p : Nat × Nat)
    (hw : ¬ check_in_enclave_world P s h < 0)
    (hp : get_enclave s.reg (s.cpus h).eid = some (some p))
    (ha : check_enclave_authentication P = 0) :
    ((rd s.reg p).state = RUNNING →
      ∃ c, enclave_sys_write K P h regs s = some c ∧ c.ret = K.ENCLAVE_OCALL ∧
        (∀ i, i < 8 →
          c.st.mem ((rd s.reg p).ocall_func_id + i) = (K.OCALL_SYS_WRITE / 256 ^ i) % 256) ∧
        (∀ a, ¬ ((rd s.reg p).ocall_func_id ≤ a ∧ a < (rd s.reg p).ocall_func_id + 8) →
          c.st.mem a = s.mem a) ∧
        (rd c.st.reg p).state = OCALLING ∧
        c.regs = (rd s.reg p).thread_context.prev_state ∧
        (rd c.st.reg p).thread_context.prev_state = regs ∧
        (c.st.csrs h).satp = (rd s.reg p).host_ptbr ∧
        (c.st.cpus h).in_enclave = 0 ∧ (c.st.cpus h).eid = -1 ∧
        (∀ q, q ≠ p → rd c.st.reg q = rd s.reg q) ∧
        c.st.csrs h =
          { satp := (rd s.reg p).host_ptbr
            stvec := (rd s.reg p).thread_context.prev_stvec
            mie := (rd s.reg p).thread_context.prev_mie
            mip := (s.csrs h).mip
            mideleg := (rd s.reg p).thread_context.prev_mideleg
            medeleg := (rd s.reg p).thread_context.prev_medeleg
            mepc := (rd s.reg p).thread_context.prev_mepc
            mstatus := insert_mpp (s.csrs h).mstatus PRV_S } ∧
        rd c.st.reg p =
          { rd s.reg p with
            state := OCALLING
            thread_context :=
              { encl_ptbr := (rd s.reg p).thread_context.encl_ptbr
                prev_stvec := (s.csrs h).stvec
                prev_mie := (s.csrs h).mie
                prev_mideleg := (s.csrs h).mideleg
                prev_medeleg := (s.csrs h).medeleg
                prev_mepc := (s.csrs h).mepc
                prev_state := regs } } ∧
        (∀ k, k ≠ h → c.st.csrs k = s.csrs k ∧ c.st.cpus k = s.cpus k)) ∧
    ((rd s.reg p).state ≠ RUNNING → rejected s regs (enclave_sys_write K P h regs s)) := by
  constructor
  · intro hst
    have hc : ¬ (check_enclave_authentication P ≠ 0 ∨ (rd s.reg p).state ≠ RUNNING) := by
      rintro (a | a)
      · exact a ha
      · exact a hst
    unfold enclave_sys_write
    simp only [hw, if_false, acquire_enclave_metadata_lock, get_enclave_id, hp]
    rw [if_neg hc, swap_from_enclave_to_host_eq]
    refine ⟨_, rfl, rfl, ?_, ?_, ?_, rfl, ?_, ?_, ?_, ?_, ?_, ?_, ?_, ?_⟩
    · intro i hi
      simp [release_enclave_metadata_lock, set_state, set_enclave, copy_dword_to_host, hi]
    · intro a hna
      simp [release_enclave_metadata_lock, set_state, set_enclave, copy_dword_to_host, hna]
    · simp [release_enclave_metadata_lock, set_state, set_enclave, rd_wr_same]
    · simp [release_enclave_metadata_lock, set_state, set_enclave, rd_wr_same]
    · simp [release_enclave_metadata_lock, set_state, set_enclave]
    · simp [release_enclave_metadata_lock, set_state, set_enclave]
    · simp [release_enclave_metadata_lock, set_state, set_enclave]
    · intro q hq
      simp [release_enclave_metadata_lock, set_state, set_enclave, rd_wr_ne _ _ _ _ hq]
    · simp [release_enclave_metadata_lock, set_state, set_enclave]
    · simp [release_enclave_metadata_lock, set_state, set_enclave, rd_wr_same]
    · intro k hk
      simp [release_enclave_metadata_lock, set_state, set_enclave, hk]
  · intro hst
    unfold enclave_sys_write
    simp only [hw, if_false, acquire_enclave_metadata_lock, get_enclave_id, hp]
    rw [if_pos (Or.inr hst)]
    exact ⟨_, rfl, rfl, rfl, rfl, rfl, rfl, rfl, rfl, rfl, rfl⟩

/-- The contract of `enclave_sys_write` on the machine where hart 0 executes the running
enclave 0. -/
theorem enclave_sys_write_contract_witness :
    ∃ c, enclave_sys_write consts_two platform_ok 0 (fun _ => 0) sm_running = some c ∧ c.ret = consts_two.ENCLAVE_OCALL ∧
        (∀ i, i < 8 →
          c.st.mem ((rd sm_running.reg (0, 0)).ocall_func_id + i) = (consts_two.OCALL_SYS_WRITE / 256 ^ i) % 256) ∧
        (∀ a, ¬ ((rd sm_running.reg (0, 0)).ocall_func_id ≤ a ∧ a < (rd sm_running.reg (0, 0)).ocall_func_id + 8) →
          c.st.mem a = sm_running.mem a) ∧
        (rd c.st.reg (0, 0)).state = OCALLING ∧
        c.regs = (rd sm_running.reg (0, 0)).thread_context.prev_state ∧
        (rd c.st.reg (0, 0)).thread_context.prev_state = (fun _ => 0) ∧
        (c.st.csrs 0).satp = (rd sm_running.reg (0, 0)).host_ptbr ∧
        (c.st.cpus 0).in_enclave = 0 ∧ (c.st.cpus 0).eid = -1 ∧
        (∀ q, q ≠ (0, 0) → rd c.st.reg q = rd sm_running.reg q) ∧
        c.st.csrs 0 =
          { satp := (rd sm_running.reg (0, 0)).host_ptbr
            stvec := (rd sm_running.reg (0, 0)).thread_context.prev_stvec
            mie := (rd sm_running.reg (0, 0)).thread_context.prev_mie
            mip := (sm_running.csrs 0).mip
            mideleg := (rd sm_running.reg (0, 0)).thread_context.prev_mideleg
            medeleg := (rd sm_running.reg (0, 0)).thread_context.prev_medeleg
            mepc := (rd sm_running.reg (0, 0)).thread_context.prev_mepc
            mstatus := insert_mpp (sm_running.csrs 0).mstatus PRV_S } ∧
        rd c.st.reg (0, 0) =
          { rd sm_running.reg (0, 0) with
            state := OCALLING
            thread_context :=
              { encl_ptbr := (rd sm_running.reg (0, 0)).thread_context.encl_ptbr
                prev_stvec := (sm_running.csrs 0).stvec
                prev_mie := (sm_running.csrs 0).mie
                prev_mideleg := (sm_running.csrs 0).mideleg
                prev_medeleg := (sm_running.csrs 0).medeleg
                prev_mepc := (sm_running.csrs 0).mepc
                prev_state := (fun _ => 0) } } ∧
        (∀ k, k ≠ 0 → c.st.csrs k = sm_running.csrs k ∧ c.st.cpus k = sm_running.cpus k) :=
  (enclave_sys_write_contract consts_two platform_ok 0 (fun _ => 0) sm_running (0, 0)
    (by decide) (by decide) (by decide)).1 (by decide)

/-- C13 (defect: the tail pointer is never advanced, so a hart can record an eid that
addresses no descriptor): after five creations with two slabs per node and
`run_enclave(regs, 2)`, hart 0 is in the enclave world, both checks pass and the enclave
it executes is `RUNNING`, but the hart records eid 4 and `get_enclave(4)` is `NULL`;
`enclave_sys_write` returns -1, writes nothing at `ocall_func_id` and leaves the enclave
`RUNNING` on the hart. -/
theorem enclave_sys_write_misses_running_enclave :
    (run_events consts_two trace_five_run sm_boot).isSome = true ∧
      check_in_enclave_world platform_ok (sm_after trace_five_run) 0 = 0 ∧
      check_enclave_authentication platform_ok = 0 ∧
      ((sm_after trace_five_run).cpus 0).eid = 4 ∧
      get_enclave (sm_after trace_five_run).reg 2 = some (some (2, 0)) ∧
      (rd (sm_after trace_five_run).reg (2, 0)).state = RUNNING ∧
      (rd (sm_after trace_five_run).reg (2, 0)).eid = 4 ∧
      get_enclave (sm_after trace_five_run).reg 4 = some none ∧
      (enclave_sys_write consts_two platform_ok 0 (fun _ => 0) (sm_after trace_five_run)).map
        (fun c => (c.ret, (rd c.st.reg (2, 0)).state, (c.st.cpus 0).in_enclave,
          c.st.mem (rd c.st.reg (2, 0)).ocall_func_id)) = some (FAIL, RUNNING, 1, 0) := by
  decide

/-- The contract of `exit_enclave` on a hart in the enclave world whose recorded eid
addresses the descriptor, with the authentication passing: the context is swapped out to
the host (the frame receives the saved registers, `stvec`, `mie`, `mideleg`, `medeleg`,
`mepc` receive the saved values, `satp` becomes `host_ptbr`, `mstatus.MPP` becomes
supervisor, `mip` stays), the bytes of `[paddr, paddr+size)`, read from the descriptor
while it is still allocated, are zeroed and no other byte changes, `free_enclave` is then
called on that registry, returns 0 and leaves the slot zeroed with state `INVALID`, no
other descriptor and no other hart changes, the hart is marked out of the enclave world,
the lock is released and the call returns 0.  On a hart that is not in the enclave world
the call returns -1 and changes nothing. -/
theorem exit_enclave_contract (P : platform_t) (h : Nat) (regs : Nat → Nat) (s : sm_state)
    (ns : List Nat) (p : Nat × Nat) (hns : nodes s.reg = some ns) :
    (¬ check_in_enclave_world P s h < 0 →
      (slots s.reg ns)[ulong (s.cpus h).eid]? = some p →
      ¬ check_enclave_authentication P < 0 →
      ∃ c r3, exit_enclave P h regs s = some c ∧ c.ret = 0 ∧
        get_enclave s.reg (s.cpus h).eid = some (some p) ∧
        free_enclave (exit_enclave_scrubbed h regs p s).reg (s.cpus h).eid = some (0, r3) ∧
        (∀ a, (rd s.reg p).paddr ≤ a → a < (rd s.reg p).paddr + (rd s.reg p).size →
          (exit_enclave_scrubbed h regs p s).mem a = 0) ∧
        c.st.reg = r3 ∧ c.st.mem = (exit_enclave_scrubbed h regs p s).mem ∧
        rd c.st.reg p = { enclave_zero with state := INVALID } ∧
        (∀ q, q ≠ p → rd c.st.reg q = rd s.reg q) ∧
        c.regs = (rd s.reg p).thread_context.prev_state ∧
        (c.st.csrs h).satp = (rd s.reg p).host_ptbr ∧
        (c.st.cpus h).in_enclave = 0 ∧ (c.st.cpus h).eid = -1 ∧
        c.st.csrs h =
          { satp := (rd s.reg p).host_ptbr
            stvec := (rd s.reg p).thread_context.prev_stvec
            mie := (rd s.reg p).thread_context.prev_mie
            mip := (s.csrs h).mip
            mideleg := (rd s.reg p).thread_context.prev_mideleg
            medeleg := (rd s.reg p).thread_context.prev_medeleg
            mepc := (rd s.reg p).thread_context.prev_mepc
            mstatus := insert_mpp (s.csrs h).mstatus PRV_S } ∧
        (∀ a, (rd s.reg p).paddr ≤ a → a < (rd s.reg p).paddr + (rd s.reg p).size →
          c.st.mem a = 0) ∧
        (∀ a, ¬ ((rd s.reg p).paddr ≤ a ∧ a < (rd s.reg p).paddr + (rd s.reg p).size) →
          c.st.mem a = s.mem a) ∧
        (rd (exit_enclave_scrubbed h regs p s).reg p).state = (rd s.reg p).state ∧
        (rd (exit_enclave_scrubbed h regs p s).reg p).paddr = (rd s.reg p).paddr ∧
        (rd (exit_enclave_scrubbed h regs p s).reg p).size = (rd s.reg p).size ∧
        (∀ k, k ≠ h → c.st.csrs k = s.csrs k ∧ c.st.cpus k = s.cpus k) ∧
        c.st.enclave_metadata_lock = false) ∧
    (check_in_enclave_world P s h < 0 → rejected s regs (exit_enclave P h regs s)) := by
  constructor
  · intro hw hp ha
    have hget : get_enclave s.reg (s.cpus h).eid = some (some p) := by
      rw [get_enclave_eq s.reg _ ns hns, hp]
    have hreg : (swap_from_enclave_to_host h regs p (acquire_enclave_metadata_lock s)).2.2.reg
        = wr s.reg p (rd (swap_from_enclave_to_host h regs p
            (acquire_enclave_metadata_lock s)).2.2.reg p) := by
      simp [swap_from_enclave_to_host, exit_enclave_world, set_cpu, set_csrs, set_enclave,
        acquire_enclave_metadata_lock, rd_wr_same]
    have hfree : free_enclave (exit_enclave_scrubbed h regs p s).reg (s.cpus h).eid
        = some (0, wr (exit_enclave_scrubbed h regs p s).reg p
            { enclave_zero with state := INVALID }) := by
      have hn1 : nodes (exit_enclave_scrubbed h regs p s).reg = some ns := by
        show nodes (swap_from_enclave_to_host h regs p
          (acquire_enclave_metadata_lock s)).2.2.reg = some ns
        rw [hreg, nodes_wr, hns]
      have hs1 : slots (exit_enclave_scrubbed h regs p s).reg ns = slots s.reg ns := by
        show slots (swap_from_enclave_to_host h regs p
          (acquire_enclave_metadata_lock s)).2.2.reg ns = slots s.reg ns
        rw [hreg, slots_wr]
      rw [free_enclave_eq _ _ ns hn1, hs1, hp]
    refine ⟨⟨0, (swap_from_enclave_to_host h regs p (acquire_enclave_metadata_lock s)).2.1,
        release_enclave_metadata_lock
          { exit_enclave_scrubbed h regs p s with
            reg := wr (exit_enclave_scrubbed h regs p s).reg p
              { enclave_zero with state := INVALID } }⟩,
      wr (exit_enclave_scrubbed h regs p s).reg p { enclave_zero with state := INVALID },
      ?_, ?_, hget, hfree, ?_, rfl, ?_, ?_, ?_, ?_, ?_, ?_, ?_, ?_, ?_, ?_, ?_, ?_, ?_, ?_, rfl⟩
    · unfold exit_enclave
      simp only [hw, if_false, get_enclave_id]
      have e0 : (acquire_enclave_metadata_lock s).reg = s.reg := rfl
      have e1 : (acquire_enclave_metadata_lock s).cpus = s.cpus := rfl
      rw [e0, e1, hget]
      simp only [ha, if_false]
      have hfree2 := hfree
      unfold exit_enclave_scrubbed at hfree2
      rw [hfree2]
      rfl
    · rfl
    · intro a h1 h2
      simp [exit_enclave_scrubbed, memset_state, memset_zero, swap_from_enclave_to_host,
        exit_enclave_world, set_cpu, set_csrs, set_enclave, acquire_enclave_metadata_lock,
        rd_wr_same, h1, h2]
    · rfl
    · simp only [release_enclave_metadata_lock]
      rw [rd_wr_same]
    · intro q hq
      simp only [release_enclave_metadata_lock]
      rw [rd_wr_ne _ _ _ _ hq]
      show rd (swap_from_enclave_to_host h regs p
        (acquire_enclave_metadata_lock s)).2.2.reg q = rd s.reg q
      rw [hreg, rd_wr_ne _ _ _ _ hq]
    · simp [swap_from_enclave_to_host, swap_prev_state, acquire_enclave_metadata_lock]
    · simp [release_enclave_metadata_lock, exit_enclave_scrubbed, memset_state,
        swap_from_enclave_to_host, exit_enclave_world, set_cpu, set_csrs, set_enclave,
        acquire_enclave_metadata_lock, swap_prev_state, swap_csrs, swap_prev_stvec,
        swap_prev_mie, swap_prev_mideleg, swap_prev_medeleg, swap_prev_mepc, switch_ptbr]
    · simp [release_enclave_metadata_lock, exit_enclave_scrubbed, memset_state,
        swap_from_enclave_to_host, exit_enclave_world, set_cpu, set_csrs, set_enclave,
        acquire_enclave_metadata_lock]
    · simp [release_enclave_metadata_lock, exit_enclave_scrubbed, memset_state,
        swap_from_enclave_to_host, exit_enclave_world, set_cpu, set_csrs, set_enclave,
        acquire_enclave_metadata_lock]
    · simp only [release_enclave_metadata_lock, exit_enclave_scrubbed, memset_state,
        swap_from_enclave_to_host_eq, acquire_enclave_metadata_lock]
      simp
    · intro a h1 h2
      simp [release_enclave_metadata_lock, exit_enclave_scrubbed, memset_state, memset_zero,
        swap_from_enclave_to_host_eq, acquire_enclave_metadata_lock, rd_wr_same, h1, h2]
    · intro a hna
      simp only [release_enclave_metadata_lock, exit_enclave_scrubbed, memset_state, memset_zero,
        swap_from_enclave_to_host_eq, acquire_enclave_metadata_lock, rd_wr_same]
      rw [if_neg hna]
    · simp [exit_enclave_scrubbed, memset_state, swap_from_enclave_to_host_eq,
        acquire_enclave_metadata_lock, rd_wr_same]
    · simp [exit_enclave_scrubbed, memset_state, swap_from_enclave_to_host_eq,
        acquire_enclave_metadata_lock, rd_wr_same]
    · simp [exit_enclave_scrubbed, memset_state, swap_from_enclave_to_host_eq,
        acquire_enclave_metadata_lock, rd_wr_same]
    · intro k hk
      simp [release_enclave_metadata_lock, exit_enclave_scrubbed, memset_state,
        swap_from_enclave_to_host_eq, acquire_enclave_metadata_lock, hk]
  · intro hw
    exact ⟨_, by simp [exit_enclave, hw]; rfl, rfl, rfl, rfl, rfl, rfl, rfl, rfl, rfl, rfl⟩

/-- The contract of `exit_enclave` on the machine where hart 0 executes the running
enclave 0. -/
theorem exit_enclave_contract_witness :
    ∃ c r3, exit_enclave platform_ok 0 (fun _ => 0) sm_running = some c ∧ c.ret = 0 ∧
        get_enclave sm_running.reg (sm_running.cpus 0).eid = some (some (0, 0)) ∧
        free_enclave (exit_enclave_scrubbed 0 (fun _ => 0) (0, 0) sm_running).reg (sm_running.cpus 0).eid = some (0, r3) ∧
        (∀ a, (rd sm_running.reg (0, 0)).paddr ≤ a → a < (rd sm_running.reg (0, 0)).paddr + (rd sm_running.reg (0, 0)).size →
          (exit_enclave_scrubbed 0 (fun _ => 0) (0, 0) sm_running).mem a = 0) ∧
        c.st.reg = r3 ∧ c.st.mem = (exit_enclave_scrubbed 0 (fun _ => 0) (0, 0) sm_running).mem ∧
        rd c.st.reg (0, 0) = { enclave_zero with state := INVALID } ∧
        (∀ q, q ≠ (0, 0) → rd c.st.reg q = rd sm_running.reg q) ∧
        c.regs = (rd sm_running.reg (0, 0)).thread_context.prev_state ∧
        (c.st.csrs 0).satp = (rd sm_running.reg (0, 0)).host_ptbr ∧
        (c.st.cpus 0).in_enclave = 0 ∧ (c.st.cpus 0).eid = -1 ∧
        c.st.csrs 0 =
          { satp := (rd sm_running.reg (0, 0)).host_ptbr
            stvec := (rd sm_running.reg (0, 0)).thread_context.prev_stvec
            mie := (rd sm_running.reg (0, 0)).thread_context.prev_mie
            mip := (sm_running.csrs 0).mip
            mideleg := (rd sm_running.reg (0, 0)).thread_context.prev_mideleg
            medeleg := (rd sm_running.reg (0, 0)).thread_context.prev_medeleg
            mepc := (rd sm_running.reg (0, 0)).thread_context.prev_mepc
            mstatus := insert_mpp (sm_running.csrs 0).mstatus PRV_S } ∧
        (∀ a, (rd sm_running.reg (0, 0)).paddr ≤ a → a < (rd sm_running.reg (0, 0)).paddr + (rd sm_running.reg (0, 0)).size →
          c.st.mem a = 0) ∧
        (∀ a, ¬ ((rd sm_running.reg (0, 0)).paddr ≤ a ∧ a < (rd sm_running.reg (0, 0)).paddr + (rd sm_running.reg (0, 0)).size) →
          c.st.mem a = sm_running.mem a) ∧
        (rd (exit_enclave_scrubbed 0 (fun _ => 0) (0, 0) sm_running).reg (0, 0)).state = (rd sm_running.reg (0, 0)).state ∧
        (rd (exit_enclave_scrubbed 0 (fun _ => 0) (0, 0) sm_running).reg (0, 0)).paddr = (rd sm_running.reg (0, 0)).paddr ∧
        (rd (exit_enclave_scrubbed 0 (fun _ => 0) (0, 0) sm_running).reg (0, 0)).size = (rd sm_running.reg (0, 0)).size ∧
        (∀ k, k ≠ 0 → c.st.csrs k = sm_running.csrs k ∧ c.st.cpus k = sm_running.cpus k) ∧
        c.st.enclave_metadata_lock = false :=
  (exit_enclave_contract platform_ok 0 (fun _ => 0) sm_running [0] (0, 0) (by decide)).1
    (by decide) (by decide) (by decide)

/-- C15 (defect: the tail pointer is never advanced, so a hart can record an eid that
addresses no descriptor): after five creations with two slabs per node and
`run_enclave(regs, 2)`, hart 0 is in the enclave world, both checks pass and the enclave
it executes is `RUNNING`, but the hart records eid 4 and `get_enclave(4)` is `NULL`;
`exit_enclave` returns -1 with the lock held and leaves the enclave `RUNNING` on the
hart. -/
theorem exit_enclave_misses_running_enclave :
    (run_events consts_two trace_five_run sm_boot).isSome = true ∧
      check_in_enclave_world platform_ok (sm_after trace_five_run) 0 = 0 ∧
      check_enclave_authentication platform_ok = 0 ∧
      ((sm_after trace_five_run).cpus 0).eid = 4 ∧
      (rd (sm_after trace_five_run).reg (2, 0)).state = RUNNING ∧
      (rd (sm_after trace_five_run).reg (2, 0)).eid = 4 ∧
      get_enclave (sm_after trace_five_run).reg 4 = some none ∧
      (exit_enclave platform_ok 0 (fun _ => 0) (sm_after trace_five_run)).map
        (fun c => (c.ret, (rd c.st.reg (2, 0)).state, (c.st.cpus 0).in_enclave,
          c.st.enclave_metadata_lock)) = some (FAIL, RUNNING, 1, true) := by
  decide

/-- C16: with the `swap_prev_*` helpers read as exchanges, when `satp` is the `host_ptbr`
of the descriptor and `grant_enclave_access` succeeds, `swap_from_host_to_enclave`
followed immediately by `swap_from_enclave_to_host` returns 0 twice and leaves `satp`,
`stvec`, `mie`, `mideleg`, `medeleg`, `mepc` of the hart, the whole register frame and the
`thread_context` snapshot of the descriptor as they were, with the hart marked out of the
enclave world. -/
theorem swap_symmetry (P : platform_t) (h : Nat) (regs : Nat → Nat) (p : Nat × Nat)
    (s : sm_state) (hown : (s.csrs h).satp = (rd s.reg p).host_ptbr)
    (hg : 0 ≤ P.grant_enclave_access) :
    (swap_from_host_to_enclave P h regs p s).1 = 0 ∧
      (swap_round_trip P h regs p s).1 = 0 ∧
      ((swap_round_trip P h regs p s).2.2.csrs h).satp = (s.csrs h).satp ∧
      ((swap_round_trip P h regs p s).2.2.csrs h).stvec = (s.csrs h).stvec ∧
      ((swap_round_trip P h regs p s).2.2.csrs h).mie = (s.csrs h).mie ∧
      ((swap_round_trip P h regs p s).2.2.csrs h).mideleg = (s.csrs h).mideleg ∧
      ((swap_round_trip P h regs p s).2.2.csrs h).medeleg = (s.csrs h).medeleg ∧
      ((swap_round_trip P h regs p s).2.2.csrs h).mepc = (s.csrs h).mepc ∧
      (swap_round_trip P h regs p s).2.1 = regs ∧
      (rd (swap_round_trip P h regs p s).2.2.reg p).thread_context
        = (rd s.reg p).thread_context ∧
      ((swap_round_trip P h regs p s).2.2.cpus h).in_enclave = 0 ∧
      (∀ q, q ≠ p → rd (swap_round_trip P h regs p s).2.2.reg q = rd s.reg q) := by
  have h3 : ¬ P.grant_enclave_access < 0 := not_lt.mpr hg
  refine ⟨?_, ?_, ?_, ?_, ?_, ?_, ?_, ?_, ?_, ?_, ?_, ?_⟩
  · simp [swap_from_host_to_enclave, h3]
  · simp [swap_round_trip, swap_from_enclave_to_host]
  case refine_12 =>
    intro q hq
    simp [swap_round_trip, swap_from_enclave_to_host, swap_from_host_to_enclave, h3,
      exit_enclave_world, enter_enclave_world, set_cpu, set_csrs, set_enclave,
      rd_wr_ne _ _ _ _ hq]
  all_goals
    simp [swap_round_trip, swap_from_enclave_to_host, swap_from_host_to_enclave, h3,
      exit_enclave_world, enter_enclave_world, set_cpu, set_csrs, set_enclave, rd_wr_same,
      swap_prev_state, swap_csrs, swap_prev_stvec, swap_prev_mie, swap_prev_mideleg,
      swap_prev_medeleg, swap_prev_mepc, switch_ptbr, hown]

/-- C16, on the machine where enclave 0 is `FRESH` and its creator runs on hart 0. -/
theorem swap_symmetry_witness :
    (swap_from_host_to_enclave platform_ok 0 regs_a0_five (0, 0) sm_created).1 = 0 ∧
      (swap_round_trip platform_ok 0 regs_a0_five (0, 0) sm_created).1 = 0 ∧
      ((swap_round_trip platform_ok 0 regs_a0_five (0, 0) sm_created).2.2.csrs 0).satp
        = (sm_created.csrs 0).satp ∧
      ((swap_round_trip platform_ok 0 regs_a0_five (0, 0) sm_created).2.2.csrs 0).stvec
        = (sm_created.csrs 0).stvec ∧
      ((swap_round_trip platform_ok 0 regs_a0_five (0, 0) sm_created).2.2.csrs 0).mie
        = (sm_created.csrs 0).mie ∧
      ((swap_round_trip platform_ok 0 regs_a0_five (0, 0) sm_created).2.2.csrs 0).mideleg
        = (sm_created.csrs 0).mideleg ∧
      ((swap_round_trip platform_ok 0 regs_a0_five (0, 0) sm_created).2.2.csrs 0).medeleg
        = (sm_created.csrs 0).medeleg ∧
      ((swap_round_trip platform_ok 0 regs_a0_five (0, 0) sm_created).2.2.csrs 0).mepc
        = (sm_created.csrs 0).mepc ∧
      (swap_round_trip platform_ok 0 regs_a0_five (0, 0) sm_created).2.1 = regs_a0_five ∧
      (rd (swap_round_trip platform_ok 0 regs_a0_five (0, 0) sm_created).2.2.reg
        (0, 0)).thread_context = (rd sm_created.reg (0, 0)).thread_context ∧
      ((swap_round_trip platform_ok 0 regs_a0_five (0, 0) sm_created).2.2.cpus 0).in_enclave
        = 0 ∧
      (∀ q, q ≠ (0, 0) →
        rd (swap_round_trip platform_ok 0 regs_a0_five (0, 0) sm_created).2.2.reg q
          = rd sm_created.reg q) :=
  swap_symmetry platform_ok 0 regs_a0_five (0, 0) sm_created (by decide) (by decide)

/-! ## Lock discipline and creation failures -/

/-- C17 (defect: early returns that skip the release): on the machine where enclave 0
exists and the lock is free, `run_enclave`, `stop_enclave`, `resume_from_stop` and
`resume_enclave` with the unknown eid 5 return -1 with the lock held; so does
`do_timer_irq` on a hart whose recorded eid addresses no descriptor, and `create_enclave`
when it rejects a misaligned `free_mem` on the boot state. -/
theorem early_returns_keep_lock :
    sm_created.enclave_metadata_lock = false ∧
      get_enclave sm_created.reg (int_of_uint 5) = some none ∧
      (run_enclave consts_two platform_ok 0 (fun _ => 0) 5 sm_created).map
        (fun c => (c.ret, c.st.enclave_metadata_lock)) = some (FAIL, true) ∧
      (stop_enclave 0 (fun _ => 0) 5 sm_created).map
        (fun c => (c.ret, c.st.enclave_metadata_lock)) = some (FAIL, true) ∧
      (resume_from_stop 0 (fun _ => 0) 5 sm_created).map
        (fun c => (c.ret, c.st.enclave_metadata_lock)) = some (FAIL, true) ∧
      (resume_enclave consts_two platform_ok 0 (fun _ => 0) 5 sm_created).map
        (fun c => (c.ret, c.st.enclave_metadata_lock)) = some (FAIL, true) ∧
      (sm_ocalling.cpus 0).eid = -1 ∧ sm_ocalling.enclave_metadata_lock = false ∧
      (do_timer_irq consts_two 0 (fun _ => 0) sm_ocalling).map
        (fun c => (c.ret, c.st.enclave_metadata_lock)) = some (FAIL, true) ∧
      sm_boot.enclave_metadata_lock = false ∧
      (create_enclave consts_two oracle_example 0 args_misaligned sm_boot).map
        (fun x => (x.1, x.2.enclave_metadata_lock)) = some (consts_two.ENCLAVE_ERROR, true) := by
  decide

/-- C18 (defect: `alloc_enclave` runs before the validation and nothing undoes it): on the
boot state `create_enclave` rejects a misaligned `free_mem` with `ENCLAVE_ERROR`, but slot
0, which did not exist before, is left allocated in state `FRESH` with the rejected
arguments and can be looked up; the successful creation that follows gets slot 1 and
writes eid 1 to `*eid_ptr`, while without the rejected call it gets slot 0 and eid 0. -/
theorem rejected_create_keeps_descriptor :
    (create_enclave consts_two oracle_example 0 args_misaligned sm_boot).map Prod.fst
        = some consts_two.ENCLAVE_ERROR ∧
      get_enclave sm_boot.reg 0 = some none ∧
      get_enclave sm_rejected.reg 0 = some (some (0, 0)) ∧
      (rd sm_rejected.reg (0, 0)).state = FRESH ∧
      (rd sm_rejected.reg (0, 0)).free_mem = 0x80080001 ∧
      (create_enclave consts_two oracle_example 0 args_example sm_rejected).map Prod.fst
        = some 0 ∧
      (rd sm_created_after_rejected.reg (0, 1)).state = FRESH ∧
      (rd sm_created_after_rejected.reg (0, 1)).eid = 1 ∧
      sm_created_after_rejected.mem args_example.eid_ptr = 1 ∧
      (create_enclave consts_two oracle_example 0 args_example sm_boot).map Prod.fst
        = some 0 ∧
      (rd sm_created.reg (0, 0)).eid = 0 ∧ sm_created.mem args_example.eid_ptr = 0 := by
  decide

theorem create_free_pages_zero :
    ∀ (fuel free_mem : Nat) (pg : Nat → page_t) (free_pages free_pages_num : Nat),
      create_free_pages 0 fuel free_mem pg free_pages free_pages_num = none := by
  intro fuel
  induction fuel with
  | zero => intro free_mem pg fp n; simp [create_free_pages]
  | succ fuel ih =>
    intro free_mem pg fp n
    rw [create_free_pages]
    simp only [ge_iff_le, Nat.zero_le, if_true]
    exact ih _ _ _ _

/-- When the region starts at physical address 0 and `free_mem = 0`, the `free_mem`
check passes and the carving loop `while(free_mem >= create_args.free_mem)` never ends:
`create_enclave` does not return once a descriptor is allocated, whatever the other
arguments are. -/
theorem create_enclave_zero_free_mem (K : consts) (O : create_oracle) (h : Nat)
    (a : enclave_sbi_param_t) (s : sm_state) (p : Nat × Nat) (r1 : registry_t)
    (hal : alloc_enclave K O.mm s.reg = some (some p, r1))
    (hpaddr : a.paddr = 0) (hfree : a.free_mem = 0) (hsize : 0 < a.size)
    (hsize64 : a.size < 2 ^ 64) :
    create_enclave K O h a s = none := by
  unfold create_enclave
  simp only [acquire_enclave_metadata_lock, hal]
  have hchk : ¬ (a.free_mem < a.paddr ∨ a.free_mem ≥ (a.paddr + a.size) % 2 ^ 64
      ∨ a.free_mem % 2 ^ RISCV_PGSHIFT ≠ 0) := by
    rw [hpaddr, hfree, Nat.zero_add, Nat.mod_eq_of_lt hsize64]
    simp
    omega
  rw [if_neg hchk]
  split
  · rfl
  · rw [hfree, create_free_pages_zero]

/-- C19 (defect in the carving loop): on the boot state, the creation arguments
`paddr = 0`, `size = 0x2000`, `free_mem = 0`, `kbuffer = 0x80002000`,
`kbuffer_size = 0x1000` satisfy none of the rejection conditions and the descriptor
allocation succeeds, but `create_enclave` returns neither 0 nor `ENCLAVE_ERROR`: the loop
`while(free_mem >= create_args.free_mem)` compares unsigned values with
`create_args.free_mem = 0` and never ends, for any amount of fuel. -/
theorem create_enclave_never_returns :
    ¬ (args_zero.free_mem < args_zero.paddr ∨
        args_zero.free_mem ≥ args_zero.paddr + args_zero.size ∨
        args_zero.free_mem % RISCV_PGSIZE ≠ 0 ∨ args_zero.kbuffer % RISCV_PGSIZE ≠ 0 ∨
        args_zero.kbuffer_size = 0 ∨ args_zero.kbuffer_size % RISCV_PGSIZE ≠ 0) ∧
      (alloc_enclave consts_two oracle_example.mm sm_boot.reg).map Prod.fst
        = some (some (0, 0)) ∧
      (∀ (fuel free_mem : Nat) (pg : Nat → page_t) (free_pages free_pages_num : Nat),
        create_free_pages args_zero.free_mem fuel free_mem pg free_pages free_pages_num
          = none) ∧
      create_enclave consts_two oracle_example 0 args_zero sm_boot = none := by
  refine ⟨by decide, by decide, create_free_pages_zero, ?_⟩
  obtain ⟨r1, h1, _, _⟩ := alloc_enclave_first consts_two (by decide)
  exact create_enclave_zero_free_mem consts_two oracle_example 0 args_zero sm_boot (0, 0) r1
    h1 rfl rfl (by decide) (by decide)

theorem create_vma_loop_fields (K : consts) (pma : Nat) :
    ∀ (fuel vma : Nat) (st : Nat → vm_area_struct) (e : enclave_t)
      (st1 : Nat → vm_area_struct) (e1 : enclave_t),
      create_vma_loop K pma fuel vma st e = some (st1, e1) →
      ∃ a b c, e1 = { e with text_vma := a, stack_vma := b, _stack_top := c } := by
  intro fuel
  induction fuel with
  | zero =>
    intro vma st e st1 e1 h
    rw [create_vma_loop] at h
    by_cases hv : vma = 0
    · simp only [hv, if_true, Option.some.injEq, Prod.mk.injEq] at h
      rw [← h.2]
      exact ⟨_, _, _, rfl⟩
    · simp [hv] at h
  | succ fuel ih =>
    intro vma st e st1 e1 h
    rw [create_vma_loop] at h
    by_cases hv : vma = 0
    · simp only [hv, if_true, Option.some.injEq, Prod.mk.injEq] at h
      rw [← h.2]
      exact ⟨_, _, _, rfl⟩
    · simp only [hv, if_false] at h
      obtain ⟨x, y, z, hxyz⟩ := ih _ _ _ _ _ h
      rw [hxyz]
      by_cases c1 : (st vma).va_start = K.ENCLAVE_DEFAULT_TEXT_BASE <;>
        by_cases c2 : (st vma).va_end = K.ENCLAVE_DEFAULT_STACK_BASE <;>
        simp only [c1, c2, if_true, if_false] <;> exact ⟨_, _, _, rfl⟩

theorem create_free_pages_returns (lo : Nat) (hlo : 4096 ≤ lo) :
    ∀ (fuel free_mem : Nat) (pg : Nat → page_t) (free_pages free_pages_num : Nat),
      free_mem < 2 ^ 64 → free_mem / 4096 < fuel →
      ∃ res, create_free_pages lo fuel free_mem pg free_pages free_pages_num = some res := by
  intro fuel
  induction fuel with
  | zero => intro fm pg fp n _ h; omega
  | succ fuel ih =>
    intro fm pg fp n h64 hf
    rw [create_free_pages]
    by_cases hge : fm ≥ lo
    · rw [if_pos hge]
      apply ih
      · exact Nat.mod_lt _ (by norm_num)
      · have : (fm + 2 ^ 64 - RISCV_PGSIZE) % 2 ^ 64 = fm - 4096 := by
          simp only [RISCV_PGSIZE]
          omega
        rw [this]
        omega
    · rw [if_neg hge]
      exact ⟨_, rfl⟩

theorem create_enclave_returns (K : consts) (O : create_oracle) (h : Nat)
    (a : enclave_sbi_param_t) (s : sm_state) (p : Nat × Nat) (r1 : registry_t)
    (hal : alloc_enclave K O.mm s.reg = some (some p, r1))
    (hlo : a.free_mem ≠ 0)
    (hvma : ∀ e, ∃ res, create_vma_loop K a.paddr O.vma_fuel
      ((a.paddr + K.sizeof_pm_area_struct) % 2 ^ 64) (O.traverse_vmas s.vma) e = some res) :
    ∃ x, create_enclave K O h a s = some x := by
  rw [← Option.isSome_iff_exists]
  unfold create_enclave
  simp only [acquire_enclave_metadata_lock, hal]
  split
  · rfl
  · rename_i hchk
    have hge : 4096 ≤ a.free_mem := by
      have h3 : ¬ a.free_mem % 2 ^ RISCV_PGSHIFT ≠ 0 := fun hh => hchk (Or.inr (Or.inr hh))
      simp only [RISCV_PGSHIFT] at h3
      omega
    split
    · rename_i heq
      exact (hvma _).elim fun res hres => nomatch (hres.symm.trans heq)
    · split
      · rename_i heq
        exact (create_free_pages_returns a.free_mem hge (2 ^ 52 + 1) _ _ _ _
          (Nat.mod_lt _ (by norm_num))
          (by
            have := Nat.mod_lt (a.paddr + a.size + 2 ^ 64 - RISCV_PGSIZE)
              (show 0 < 2 ^ 64 by norm_num)
            omega)).elim
          fun res hres => nomatch (hres.symm.trans heq)
      · split <;> rfl

/-- The result contract of `create_enclave` that C19 states, for every call outside the
defect of the carving loop (`free_mem ≠ 0`): given that the descriptor allocation
succeeds, the region does not wrap, the VMA list handed back by `traverse_vmas` ends and
`ENCLAVE_ERROR` is not 0, the call returns; it returns `ENCLAVE_ERROR` exactly when
`free_mem` is outside the region or not page aligned, `kbuffer` is not page aligned, or
`kbuffer_size` is not a non-zero multiple of the page size; otherwise it returns 0,
stores the eid at `*eid_ptr`, and the descriptor is `FRESH` with the host's `satp`, the
root page table, `encl_ptbr` and the three call-chain fields as stated. -/
theorem create_enclave_contract (K : consts) (O : create_oracle) (h : Nat)
    (a : enclave_sbi_param_t) (s : sm_state) (p : Nat × Nat) (r1 : registry_t)
    (hal : alloc_enclave K O.mm s.reg = some (some p, r1))
    (hlo : a.free_mem ≠ 0)
    (hvma : ∀ e, ∃ res, create_vma_loop K a.paddr O.vma_fuel
      ((a.paddr + K.sizeof_pm_area_struct) % 2 ^ 64) (O.traverse_vmas s.vma) e = some res)
    (hwrap : a.paddr + a.size < 2 ^ 64) (herr : K.ENCLAVE_ERROR ≠ 0) :
    ∃ ret s1, create_enclave K O h a s = some (ret, s1) ∧
      (ret = K.ENCLAVE_ERROR ↔
        (a.free_mem < a.paddr ∨ a.free_mem ≥ a.paddr + a.size ∨
          a.free_mem % RISCV_PGSIZE ≠ 0 ∨ a.kbuffer % RISCV_PGSIZE ≠ 0 ∨
          a.kbuffer_size = 0 ∨ a.kbuffer_size % RISCV_PGSIZE ≠ 0)) ∧
      (ret ≠ K.ENCLAVE_ERROR →
        ret = 0 ∧
        s1.mem = copy_word_to_host (O.mmap_mem s.mem) a.eid_ptr (ulong (rd r1 p).eid % 2 ^ 32) ∧
        (rd s1.reg p).eid = (rd r1 p).eid ∧
        (rd s1.reg p).state = FRESH ∧
        (rd s1.reg p).host_ptbr = (s.csrs h).satp ∧
        (rd s1.reg p).root_page_table = (a.paddr + RISCV_PGSIZE) % 2 ^ 64 ∧
        (rd s1.reg p).thread_context.encl_ptbr
          = (((a.paddr + RISCV_PGSIZE) % 2 ^ 64) / 2 ^ RISCV_PGSHIFT) ||| K.SATP_MODE_CHOICE ∧
        (rd s1.reg p).caller_eid = -1 ∧ (rd s1.reg p).top_caller_eid = -1 ∧
        (rd s1.reg p).cur_callee_eid = -1) := by
  obtain ⟨⟨ret, s1⟩, hc⟩ := create_enclave_returns K O h a s p r1 hal hlo hvma
  refine ⟨ret, s1, hc, ?_⟩
  unfold create_enclave at hc
  simp only [acquire_enclave_metadata_lock, hal] at hc
  split at hc
  · rename_i hchk
    simp only [Option.some.injEq, Prod.mk.injEq] at hc
    obtain ⟨h1, _⟩ := hc
    rw [Nat.mod_eq_of_lt hwrap] at hchk
    simp only [RISCV_PGSHIFT] at hchk
    simp only [RISCV_PGSIZE]
    refine ⟨⟨fun _ => ?_, fun _ => h1.symm⟩, fun hn => absurd h1.symm hn⟩
    rcases hchk with h2 | h2 | h2
    · exact Or.inl h2
    · exact Or.inr (Or.inl h2)
    · exact Or.inr (Or.inr (Or.inl (by omega)))
  · rename_i hchk
    rw [Nat.mod_eq_of_lt hwrap] at hchk
    simp only [RISCV_PGSHIFT] at hchk
    split at hc
    · simp at hc
    · rename_i vm3 e3 hv
      obtain ⟨x, y, z, hxyz⟩ := create_vma_loop_fields K _ _ _ _ _ _ _ hv
      split at hc
      · simp at hc
      · split at hc
        · rename_i hkb
          simp only [Option.some.injEq, Prod.mk.injEq] at hc
          obtain ⟨h1, _⟩ := hc
          simp only [RISCV_PGSIZE] at hkb ⊢
          refine ⟨⟨fun _ => ?_, fun _ => h1.symm⟩, fun hn => absurd h1.symm hn⟩
          omega
        · rename_i hkb
          simp only [Option.some.injEq, Prod.mk.injEq] at hc
          obtain ⟨h1, h2⟩ := hc
          simp only [RISCV_PGSIZE] at hkb
          refine ⟨⟨fun hr => absurd (h1.trans hr).symm herr, fun hcond => ?_⟩, fun _ => ?_⟩
          · exfalso
            simp only [RISCV_PGSIZE] at hcond
            omega
          · rw [← h2, ← h1]
            simp [release_enclave_metadata_lock, rd_wr_same, hxyz]

/-- The result contract of `create_enclave` on the boot state with the creation arguments
of the first scenario: the call returns 0 and publishes eid 0. -/
theorem create_enclave_contract_example :
    ∃ r1 ret s1, alloc_enclave consts_two oracle_example.mm sm_boot.reg
        = some (some (0, 0), r1) ∧
      create_enclave consts_two oracle_example 0 args_example sm_boot = some (ret, s1) ∧
      ret = 0 ∧ (rd r1 (0, 0)).eid = 0 ∧
      s1.mem = copy_word_to_host (oracle_example.mmap_mem sm_boot.mem) args_example.eid_ptr
        (ulong (rd r1 (0, 0)).eid % 2 ^ 32) ∧
      (rd s1.reg (0, 0)).state = FRESH ∧ (rd s1.reg (0, 0)).host_ptbr = 7 ∧
      (rd s1.reg (0, 0)).root_page_table = 0x80001000 := by
  obtain ⟨r1, h1, h0, _⟩ := alloc_enclave_first consts_two (by decide)
  obtain ⟨ret, s1, h2, h3, h4⟩ := create_enclave_contract consts_two oracle_example 0
    args_example sm_boot (0, 0) r1 h1 (by decide) (fun e => ⟨_, rfl⟩) (by decide) (by decide)
  have hne : ret ≠ consts_two.ENCLAVE_ERROR := by
    intro hr
    exact absurd (h3.mp hr) (by decide)
  obtain ⟨g1, g2, _, g4, g5, g6, _⟩ := h4 hne
  exact ⟨r1, ret, s1, h1, h2, g1, h0, g2, g4, g5, g6⟩

/-! ## No hart executes an enclave that is not RUNNING -/

theorem slots_same_list (r r1 : registry_t) (h : same_list r r1) (ns : List Nat) :
    slots r1 ns = slots r ns := by
  induction ns with
  | nil => rfl
  | cons n ns ih => simp only [slots, node_slots, ih, (h.2.2.2 n).2.1]

theorem reg_shape_same_list (N : Nat) (r r1 : registry_t) (ns : List Nat)
    (h : same_list r r1) (hs : reg_shape N r ns) : reg_shape N r1 ns := by
  obtain ⟨h1, h2, h3, h4⟩ := h
  unfold reg_shape at *
  rw [h1, h2, h3, (h4 0).1, (h4 0).2.1, (h4 1).1, (h4 1).2.1]
  exact hs

theorem reg_shape_nodes (N : Nat) (r : registry_t) (ns : List Nat) (hs : reg_shape N r ns) :
    nodes r = some ns := by
  rcases hs with ⟨h1, h2, rfl⟩ | ⟨h1, h2, _, _, h5, rfl⟩ | ⟨h1, h2, _, _, h5, _, h7, rfl⟩
  · simp [nodes, h2, chain]
  · simp [nodes, h1, h2, chain, h5]
  · simp [nodes, h1, h2, chain, h5, h7]

theorem reg_shape_length (N : Nat) (r : registry_t) (ns : List Nat) (hs : reg_shape N r ns) :
    (slots r ns).length ≤ 2 * N := by
  rcases hs with ⟨h1, h2, rfl⟩ | ⟨h1, h2, _, h4, h5, rfl⟩ | ⟨h1, h2, _, h4, h5, h6, h7, rfl⟩
  · simp [slots]
  · simp [slots, node_slots_length, h4]; omega
  · simp [slots, node_slots_length, h4, h6]; omega
theorem slot_frame_trans (r r1 r2 : registry_t) (p : Nat × Nat)
    (h1 : slot_frame r r1 p) (h2 : slot_frame r1 r2 p) : slot_frame r r2 p :=
  ⟨same_list_trans _ _ _ h1.1 h2.1, fun q hq => (h2.2.1 q hq).trans (h1.2.1 q hq),
    h2.2.2.trans h1.2.2⟩

theorem slot_frame_wr (r : registry_t) (p : Nat × Nat) (e : enclave_t)
    (h : e.eid = (rd r p).eid) : slot_frame r (wr r p e) p :=
  ⟨same_list_wr r p e, fun q hq => rd_wr_ne r p q e hq, by rw [rd_wr_same]; exact h⟩

theorem frame_set_state (s : sm_state) (p : Nat × Nat) (st : Int) :
    slot_frame s.reg (set_state s p st).reg p ∧ (set_state s p st).cpus = s.cpus :=
  ⟨slot_frame_wr _ _ _ rfl, rfl⟩

theorem frame_swap_from_host_to_enclave (P : platform_t) (h : Nat) (regs : Nat → Nat)
    (p : Nat × Nat) (s : sm_state) (hg : ¬ P.grant_enclave_access < 0) :
    slot_frame s.reg (swap_from_host_to_enclave P h regs p s).2.2.reg p ∧
      (swap_from_host_to_enclave P h regs p s).2.2.cpus
        = fun k => if k = h then ⟨1, (rd s.reg p).eid⟩ else s.cpus k := by
  unfold swap_from_host_to_enclave
  rw [if_neg hg]
  exact ⟨slot_frame_wr _ _ _ rfl, rfl⟩

theorem frame_swap_from_enclave_to_host (h : Nat) (regs : Nat → Nat)
    (p : Nat × Nat) (s : sm_state) :
    slot_frame s.reg (swap_from_enclave_to_host h regs p s).2.2.reg p ∧
      (swap_from_enclave_to_host h regs p s).2.2.cpus
        = fun k => if k = h then ⟨0, -1⟩ else s.cpus k := by
  unfold swap_from_enclave_to_host
  exact ⟨slot_frame_wr _ _ _ rfl, rfl⟩

theorem run_enclave_effect (K : consts) (P : platform_t) (h : Nat) (regs : Nat → Nat)
    (eid : Nat) (s : sm_state) (ns : List Nat) (hns : nodes s.reg = some ns) :
    ∃ c, run_enclave K P h regs eid s = some c ∧
      ((c.st.reg = s.reg ∧ c.st.cpus = s.cpus) ∨
        ∃ p, (slots s.reg ns)[ulong (int_of_uint eid)]? = some p ∧
          (rd s.reg p).state = FRESH ∧ enters s c.st h p) := by
  have ho := get_enclave_eq s.reg (int_of_uint eid) ns hns
  unfold run_enclave
  simp only [acquire_enclave_metadata_lock, ho]
  cases hk : (slots s.reg ns)[ulong (int_of_uint eid)]? with
  | none => exact ⟨_, rfl, Or.inl ⟨rfl, rfl⟩⟩
  | some p =>
    simp only
    by_cases h1 : (rd s.reg p).state = FRESH
    · by_cases h2 : (rd s.reg p).host_ptbr = (s.csrs h).satp
      · simp only [h1, h2, ne_eq, not_true_eq_false, if_false]
        by_cases h3 : P.grant_enclave_access < 0
        · refine ⟨_, by rw [if_pos ((rc_swap_from_host_to_enclave _ _ _ _ _).mpr h3)], Or.inl ?_⟩
          simp [swap_from_host_to_enclave, h3, release_enclave_metadata_lock]
        · refine ⟨_, by rw [if_neg (fun hh => h3 ((rc_swap_from_host_to_enclave _ _ _ _ _).mp hh))],
            Or.inr ⟨p, rfl, h1, ?_⟩⟩
          obtain ⟨hf, hc⟩ := frame_swap_from_host_to_enclave P h regs p
            { s with enclave_metadata_lock := true } h3
          refine ⟨slot_frame_trans _ _ _ _ hf (frame_set_state _ _ _).1, ?_, hc⟩
          simp only [release_enclave_metadata_lock]
          rw [state_set_state]
          simp
      · exact ⟨_, by simp [h1, h2]; rfl, Or.inl ⟨rfl, rfl⟩⟩
    · exact ⟨_, by simp [h1]; rfl, Or.inl ⟨rfl, rfl⟩⟩
theorem chain_same_list (r r1 : registry_t) (h : same_list r r1) :
    ∀ (fuel : Nat) (cur : Option Nat), chain r1 fuel cur = chain r fuel cur := by
  intro fuel
  induction fuel with
  | zero => intro cur; cases cur <;> rfl
  | succ f ih =>
    intro cur
    cases cur with
    | none => rfl
    | some c => simp only [chain, (h.2.2.2 c).1, ih]

theorem nodes_same_list (r r1 : registry_t) (h : same_list r r1) : nodes r1 = nodes r := by
  unfold nodes
  rw [h.1, h.2.1]
  exact chain_same_list r r1 h _ _

theorem stop_enclave_effect (h : Nat) (regs : Nat → Nat)
    (eid : Nat) (s : sm_state) (ns : List Nat) (hns : nodes s.reg = some ns) :
    ∃ c, stop_enclave h regs eid s = some c ∧
      ((c.st.reg = s.reg ∧ c.st.cpus = s.cpus) ∨
        ∃ p, (slots s.reg ns)[ulong (int_of_uint eid)]? = some p ∧
          FRESH < (rd s.reg p).state ∧ retags s c.st p) := by
  have ho := get_enclave_eq s.reg (int_of_uint eid) ns hns
  unfold stop_enclave
  simp only [acquire_enclave_metadata_lock, ho]
  cases hk : (slots s.reg ns)[ulong (int_of_uint eid)]? with
  | none => exact ⟨_, rfl, Or.inl ⟨rfl, rfl⟩⟩
  | some p =>
    simp only
    by_cases h2 : (rd s.reg p).host_ptbr = (s.csrs h).satp
    · by_cases h1 : (rd s.reg p).state ≤ FRESH
      · exact ⟨_, by simp [h1, h2]; rfl, Or.inl ⟨rfl, rfl⟩⟩
      · rw [if_neg (not_not.mpr h2), if_neg h1]
        exact ⟨_, rfl, Or.inr ⟨p, rfl, lt_of_not_ge h1, (frame_set_state _ _ _).1, rfl⟩⟩
    · exact ⟨_, by simp [h2]; rfl, Or.inl ⟨rfl, rfl⟩⟩

theorem resume_from_stop_effect (h : Nat) (regs : Nat → Nat)
    (eid : Nat) (s : sm_state) (ns : List Nat) (hns : nodes s.reg = some ns) :
    ∃ c, resume_from_stop h regs eid s = some c ∧
      ((c.st.reg = s.reg ∧ c.st.cpus = s.cpus) ∨
        ∃ p, (slots s.reg ns)[ulong (int_of_uint eid)]? = some p ∧
          (rd s.reg p).state = STOPPED ∧ retags s c.st p) := by
  have ho := get_enclave_eq s.reg (int_of_uint eid) ns hns
  unfold resume_from_stop
  simp only [acquire_enclave_metadata_lock, ho]
  cases hk : (slots s.reg ns)[ulong (int_of_uint eid)]? with
  | none => exact ⟨_, rfl, Or.inl ⟨rfl, rfl⟩⟩
  | some p =>
    simp only
    by_cases h2 : (rd s.reg p).host_ptbr = (s.csrs h).satp
    · by_cases h1 : (rd s.reg p).state = STOPPED
      · rw [if_neg (not_not.mpr h2), if_neg (not_not.mpr h1)]
        exact ⟨_, rfl, Or.inr ⟨p, rfl, h1, (frame_set_state _ _ _).1, rfl⟩⟩
      · exact ⟨_, by simp [h1, h2]; rfl, Or.inl ⟨rfl, rfl⟩⟩
    · exact ⟨_, by simp [h2]; rfl, Or.inl ⟨rfl, rfl⟩⟩

theorem resume_enclave_effect (K : consts) (P : platform_t) (h : Nat) (regs : Nat → Nat)
    (eid : Nat) (s : sm_state) (ns : List Nat) (hns : nodes s.reg = some ns) :
    ∃ c, resume_enclave K P h regs eid s = some c ∧
      ((c.st.reg = s.reg ∧ c.st.cpus = s.cpus) ∨
        ∃ p, (slots s.reg ns)[ulong (int_of_uint eid)]? = some p ∧
          (rd s.reg p).state = RUNNABLE ∧ enters s c.st h p) := by
  have ho := get_enclave_eq s.reg (int_of_uint eid) ns hns
  unfold resume_enclave
  simp only [acquire_enclave_metadata_lock, ho]
  cases hk : (slots s.reg ns)[ulong (int_of_uint eid)]? with
  | none => exact ⟨_, rfl, Or.inl ⟨rfl, rfl⟩⟩
  | some p =>
    simp only
    by_cases h2 : (rd s.reg p).host_ptbr = (s.csrs h).satp
    · by_cases h0 : (rd s.reg p).state = STOPPED
      · exact ⟨_, by simp [h0, h2]; rfl, Or.inl ⟨rfl, rfl⟩⟩
      · by_cases h1 : (rd s.reg p).state = RUNNABLE
        · rw [if_neg (not_not.mpr h2), if_neg h0, if_neg (not_not.mpr h1)]
          by_cases h3 : P.grant_enclave_access < 0
          · refine ⟨_, by rw [if_pos ((rc_swap_from_host_to_enclave _ _ _ _ _).mpr h3)],
              Or.inl ?_⟩
            simp [swap_from_host_to_enclave, h3, release_enclave_metadata_lock]
          · refine ⟨_, by rw [if_neg (fun hh => h3 ((rc_swap_from_host_to_enclave _ _ _ _ _).mp hh))],
              Or.inr ⟨p, rfl, h1, ?_⟩⟩
            obtain ⟨hf, hc⟩ := frame_swap_from_host_to_enclave P h regs p
              { s with enclave_metadata_lock := true } h3
            refine ⟨slot_frame_trans _ _ _ _ hf (frame_set_state _ _ _).1, ?_, hc⟩
            simp only [release_enclave_metadata_lock]
            rw [state_set_state]
            simp
        · exact ⟨_, by simp [h0, h1, h2]; rfl, Or.inl ⟨rfl, rfl⟩⟩
    · exact ⟨_, by simp [h2]; rfl, Or.inl ⟨rfl, rfl⟩⟩

theorem get_real_enclave_slot (r : registry_t) (ns : List Nat) (eid : Int)
    (hns : nodes r = some ns) (p : Nat × Nat)
    (hp : __get_real_enclave r eid = some (some p)) : ∃ k : Nat, (slots r ns)[k]? = some p := by
  unfold __get_real_enclave at hp
  rw [get_enclave_eq r eid ns hns] at hp
  cases hk : (slots r ns)[ulong eid]? with
  | none => rw [hk] at hp; simp at hp
  | some q =>
    rw [hk] at hp
    simp only at hp
    by_cases hc : (rd r q).cur_callee_eid = -1
    · rw [if_pos hc] at hp
      simp only [Option.some.injEq] at hp
      exact ⟨_, hp ▸ hk⟩
    · rw [if_neg hc, get_enclave_eq r _ ns hns] at hp
      simp only [Option.some.injEq] at hp
      exact ⟨_, hp⟩

theorem resume_from_ocall_effect (K : consts) (P : platform_t) (h : Nat) (regs : Nat → Nat)
    (eid : Nat) (s : sm_state) (ns : List Nat) (hns : nodes s.reg = some ns) :
    ∃ c, resume_from_ocall K P h regs eid s = some c ∧
      ((c.st.reg = s.reg ∧ c.st.cpus = s.cpus) ∨
        ∃ (p : Nat × Nat) (k : Nat), (slots s.reg ns)[k]? = some p ∧
          (rd s.reg p).state = OCALLING ∧ enters s c.st h p) := by
  obtain ⟨o, ho⟩ := get_real_enclave_total s.reg ns (int_of_uint eid) hns
  unfold resume_from_ocall
  simp only [acquire_enclave_metadata_lock, ho]
  cases o with
  | none => exact ⟨_, rfl, Or.inl ⟨rfl, rfl⟩⟩
  | some p =>
    simp only
    obtain ⟨k, hk⟩ := get_real_enclave_slot s.reg ns _ hns p ho
    by_cases h1 : (rd s.reg p).state ≠ OCALLING ∨ (rd s.reg p).host_ptbr ≠ (s.csrs h).satp
    · rw [if_pos h1]
      exact ⟨_, rfl, Or.inl ⟨rfl, rfl⟩⟩
    · rw [if_neg h1]
      have hst : (rd s.reg p).state = OCALLING := by
        by_contra hh
        exact h1 (Or.inl hh)
      by_cases h3 : P.grant_enclave_access < 0
      · refine ⟨_, by rw [if_pos ((rc_swap_from_host_to_enclave _ _ _ _ _).mpr h3)],
          Or.inl ?_⟩
        simp [swap_from_host_to_enclave, h3, release_enclave_metadata_lock]
      · refine ⟨_, by rw [if_neg (fun hh => h3 ((rc_swap_from_host_to_enclave _ _ _ _ _).mp hh))],
          Or.inr ⟨p, k, hk, hst, ?_⟩⟩
        obtain ⟨hf, hc⟩ := frame_swap_from_host_to_enclave P h regs p
          { s with enclave_metadata_lock := true } h3
        refine ⟨slot_frame_trans _ _ _ _ hf (frame_set_state _ _ _).1, ?_, hc⟩
        simp only [release_enclave_metadata_lock]
        rw [state_set_state]
        simp
theorem check_in_enclave_world_ok (P : platform_t) (s : sm_state) (h : Nat)
    (hc : ¬ check_in_enclave_world P s h < 0) : (s.cpus h).in_enclave ≠ 0 := by
  intro h0
  apply hc
  simp [check_in_enclave_world, h0]

theorem enclave_sys_write_effect (K : consts) (P : platform_t) (h : Nat) (regs : Nat → Nat)
    (s : sm_state) (ns : List Nat) (hns : nodes s.reg = some ns) :
    ∃ c, enclave_sys_write K P h regs s = some c ∧
      ((c.st.reg = s.reg ∧ c.st.cpus = s.cpus) ∨
        ∃ p, (s.cpus h).in_enclave ≠ 0 ∧ (slots s.reg ns)[ulong (s.cpus h).eid]? = some p ∧
          (rd s.reg p).state = RUNNING ∧ leaves s c.st h p) := by
  have ho := get_enclave_eq s.reg (s.cpus h).eid ns hns
  unfold enclave_sys_write
  by_cases hw : check_in_enclave_world P s h < 0
  · rw [if_pos hw]
    exact ⟨_, rfl, Or.inl ⟨rfl, rfl⟩⟩
  · rw [if_neg hw]
    simp only [acquire_enclave_metadata_lock, get_enclave_id, ho]
    cases hk : (slots s.reg ns)[ulong (s.cpus h).eid]? with
    | none => exact ⟨_, rfl, Or.inl ⟨rfl, rfl⟩⟩
    | some p =>
      simp only
      by_cases h1 : check_enclave_authentication P ≠ 0 ∨ (rd s.reg p).state ≠ RUNNING
      · rw [if_pos h1]
        exact ⟨_, rfl, Or.inl ⟨rfl, rfl⟩⟩
      · rw [if_neg h1]
        have hst : (rd s.reg p).state = RUNNING := by
          by_contra hh
          exact h1 (Or.inr hh)
        refine ⟨_, rfl, Or.inr ⟨p, check_in_enclave_world_ok P s h hw, rfl, hst, ?_⟩⟩
        obtain ⟨hf, hc⟩ := frame_swap_from_enclave_to_host h regs p
          { s with enclave_metadata_lock := true,
                   mem := copy_dword_to_host s.mem (rd s.reg p).ocall_func_id K.OCALL_SYS_WRITE }
        have hf2 := slot_frame_trans _ _ _ _ hf (frame_set_state _ p OCALLING).1
        exact ⟨hf2.1, hf2.2.1, Or.inr hf2.2.2, hc⟩

theorem do_timer_irq_effect (K : consts) (h : Nat) (regs : Nat → Nat)
    (s : sm_state) (ns : List Nat) (hns : nodes s.reg = some ns) :
    ∃ c, do_timer_irq K h regs s = some c ∧
      ((c.st.reg = s.reg ∧ c.st.cpus = s.cpus) ∨
        ∃ p, (slots s.reg ns)[ulong (int_of_uint (uint_of_int (s.cpus h).eid))]? = some p ∧
          leaves s c.st h p) := by
  have ho := get_enclave_eq s.reg (int_of_uint (uint_of_int (s.cpus h).eid)) ns hns
  unfold do_timer_irq
  simp only [acquire_enclave_metadata_lock, get_enclave_id, ho]
  cases hk : (slots s.reg ns)[ulong (int_of_uint (uint_of_int (s.cpus h).eid))]? with
  | none => exact ⟨_, rfl, Or.inl ⟨rfl, rfl⟩⟩
  | some p =>
    simp only
    by_cases h1 : (rd s.reg p).state ≠ RUNNING ∧ (rd s.reg p).state ≠ STOPPED
    · rw [if_pos h1]
      exact ⟨_, rfl, Or.inl ⟨rfl, rfl⟩⟩
    · rw [if_neg h1]
      refine ⟨_, rfl, Or.inr ⟨p, rfl, ?_⟩⟩
      obtain ⟨hf, hc⟩ := frame_swap_from_enclave_to_host h regs p
        { s with enclave_metadata_lock := true }
      have hf2 := slot_frame_trans _ _ _ _ hf (frame_set_state _ p RUNNABLE).1
      exact ⟨hf2.1, hf2.2.1, Or.inr hf2.2.2, hc⟩

theorem exit_enclave_effect (P : platform_t) (h : Nat) (regs : Nat → Nat)
    (s : sm_state) (ns : List Nat) (hns : nodes s.reg = some ns) :
    ∃ c, exit_enclave P h regs s = some c ∧
      ((c.st.reg = s.reg ∧ c.st.cpus = s.cpus) ∨
        ∃ p, (s.cpus h).in_enclave ≠ 0 ∧ (slots s.reg ns)[ulong (s.cpus h).eid]? = some p ∧
          leaves s c.st h p) := by
  have ho := get_enclave_eq s.reg (s.cpus h).eid ns hns
  unfold exit_enclave
  by_cases hw : check_in_enclave_world P s h < 0
  · rw [if_pos hw]
    exact ⟨_, rfl, Or.inl ⟨rfl, rfl⟩⟩
  · rw [if_neg hw]
    simp only [acquire_enclave_metadata_lock, get_enclave_id, ho]
    cases hk : (slots s.reg ns)[ulong (s.cpus h).eid]? with
    | none => exact ⟨_, rfl, Or.inl ⟨rfl, rfl⟩⟩
    | some p =>
      simp only
      by_cases h1 : check_enclave_authentication P < 0
      · rw [if_pos h1]
        exact ⟨_, rfl, Or.inl ⟨rfl, rfl⟩⟩
      · rw [if_neg h1]
        obtain ⟨hf, hc⟩ := frame_swap_from_enclave_to_host h regs p
          { s with enclave_metadata_lock := true }
        obtain ⟨r1, hr1⟩ : ∃ r1, r1 = (swap_from_enclave_to_host h regs p
          { s with enclave_metadata_lock := true }).2.2.reg := ⟨_, rfl⟩
        have hns1 : nodes r1 = some ns := by
          rw [hr1, nodes_same_list _ _ hf.1]; exact hns
        have hfree := free_enclave_eq r1 (s.cpus h).eid ns hns1
        rw [hr1, slots_same_list _ _ hf.1, hk] at hfree
        simp only [memset_state]
        rw [hfree]
        refine ⟨_, rfl, Or.inr ⟨p, check_in_enclave_world_ok P s h hw, rfl, ?_⟩⟩
        refine ⟨same_list_trans _ _ _ hf.1 (same_list_wr _ _ _), ?_, Or.inl ?_, hc⟩
        · intro q hq
          simp only [release_enclave_metadata_lock]
          rw [rd_wr_ne _ _ _ _ hq]
          exact hf.2.1 q hq
        · simp only [release_enclave_metadata_lock]
          rw [rd_wr_same]
theorem world_inv_noop (N : Nat) (s s1 : sm_state) (ns : List Nat) (hi : world_inv N s ns)
    (h1 : s1.reg = s.reg) (h2 : s1.cpus = s.cpus) : world_inv N s1 ns := by
  unfold world_inv
  rw [h1, h2]
  exact hi

theorem world_inv_idle (N : Nat) (s : sm_state) (ns : List Nat) (hi : world_inv N s ns)
    (k : Nat) (p : Nat × Nat) (hk : (slots s.reg ns)[k]? = some p)
    (h1 : (rd s.reg p).state ≠ INVALID) (h2 : (rd s.reg p).state ≠ RUNNING) (h : Nat) :
    ¬ executing s h p := by
  rintro ⟨hin, he⟩
  obtain ⟨_, hidx, hH1, _⟩ := hi
  obtain ⟨k1, p1, e1, e2, e3⟩ := hH1 h hin
  rw [hidx k p hk h1, e1] at he
  have hkk : k1 = k := by exact_mod_cast he
  subst hkk
  rw [hk] at e2
  cases e2
  exact h2 e3

theorem world_inv_enters (N : Nat) (s s1 : sm_state) (ns : List Nat) (h k : Nat)
    (p : Nat × Nat) (hi : world_inv N s ns) (hk : (slots s.reg ns)[k]? = some p)
    (h1 : (rd s.reg p).state ≠ INVALID) (h2 : (rd s.reg p).state ≠ RUNNING)
    (he : enters s s1 h p) : world_inv N s1 ns := by
  have hidle := world_inv_idle N s ns hi k p hk h1 h2
  obtain ⟨hsh, hidx, hH1, hH2⟩ := hi
  obtain ⟨⟨hsl, hoth, heid⟩, hrun, hcpu⟩ := he
  have hslots := slots_same_list _ _ hsl ns
  have hpe : (rd s.reg p).eid = (k : Int) := hidx k p hk h1
  refine ⟨reg_shape_same_list _ _ _ _ hsl hsh, ?_, ?_, ?_⟩
  · intro j q hj hq
    rw [hslots] at hj
    by_cases hqp : q = p
    · subst hqp
      rw [heid]
      exact hidx j q hj h1
    · rw [hoth q hqp] at hq ⊢
      exact hidx j q hj hq
  · intro h3 hin
    rw [hcpu] at hin ⊢
    by_cases hh : h3 = h
    · subst hh
      simp only [if_true]
      exact ⟨k, p, hpe, by rw [hslots]; exact hk, hrun⟩
    · simp only [hh, if_false] at hin ⊢
      obtain ⟨k1, p1, e1, e2, e3⟩ := hH1 h3 hin
      have hne : p1 ≠ p := by
        rintro rfl
        exact h2 e3
      exact ⟨k1, p1, e1, by rw [hslots]; exact e2, by rw [hoth p1 hne]; exact e3⟩
  · intro a b ha hb hab
    rw [hcpu] at ha hb hab
    by_cases hah : a = h
    · by_cases hbh : b = h
      · rw [hah, hbh]
      · exfalso
        simp only [hah, hbh, if_true, if_false] at hb hab
        exact hidle b ⟨hb, hab.symm⟩
    · by_cases hbh : b = h
      · exfalso
        simp only [hah, hbh, if_true, if_false] at ha hab
        exact hidle a ⟨ha, hab⟩
      · simp only [hah, hbh, if_false] at ha hb hab
        exact hH2 a b ha hb hab

theorem world_inv_retags (N : Nat) (s s1 : sm_state) (ns : List Nat) (k : Nat)
    (p : Nat × Nat) (hi : world_inv N s ns) (hk : (slots s.reg ns)[k]? = some p)
    (h1 : (rd s.reg p).state ≠ INVALID) (hno : ∀ h, ¬ executing s h p)
    (he : retags s s1 p) : world_inv N s1 ns := by
  obtain ⟨hsh, hidx, hH1, hH2⟩ := hi
  obtain ⟨⟨hsl, hoth, heid⟩, hcpu⟩ := he
  have hslots := slots_same_list _ _ hsl ns
  refine ⟨reg_shape_same_list _ _ _ _ hsl hsh, ?_, ?_, ?_⟩
  · intro j q hj hq
    rw [hslots] at hj
    by_cases hqp : q = p
    · subst hqp
      rw [heid]
      exact hidx j q hj h1
    · rw [hoth q hqp] at hq ⊢
      exact hidx j q hj hq
  · intro h3 hin
    rw [hcpu] at hin ⊢
    obtain ⟨k1, p1, e1, e2, e3⟩ := hH1 h3 hin
    have hne : p1 ≠ p := by
      rintro rfl
      exact hno h3 ⟨hin, by rw [e1, hidx k1 p1 e2 h1]⟩
    exact ⟨k1, p1, e1, by rw [hslots]; exact e2, by rw [hoth p1 hne]; exact e3⟩
  · rw [hcpu]
    exact hH2

theorem world_inv_leaves (N : Nat) (hN : 2 * N ≤ 2 ^ 31) (s s1 : sm_state) (ns : List Nat)
    (h : Nat) (p : Nat × Nat) (hi : world_inv N s ns) (hin : (s.cpus h).in_enclave ≠ 0)
    (hp : (slots s.reg ns)[ulong (s.cpus h).eid]? = some p)
    (he : leaves s s1 h p) : world_inv N s1 ns := by
  obtain ⟨hsh, hidx, hH1, hH2⟩ := hi
  obtain ⟨hsl, hoth, heid, hcpu⟩ := he
  have hslots := slots_same_list _ _ hsl ns
  obtain ⟨k0, p0, f1, f2, f3⟩ := hH1 h hin
  have hk0 : k0 < 2 ^ 64 := by
    have := (List.getElem?_eq_some_iff.mp f2).1
    have := reg_shape_length N _ _ hsh
    omega
  rw [f1, ulong_natCast k0 hk0, f2] at hp
  cases hp
  have hlive : (rd s.reg p).state ≠ INVALID := by rw [f3]; decide
  refine ⟨reg_shape_same_list _ _ _ _ hsl hsh, ?_, ?_, ?_⟩
  · intro j q hj hq
    rw [hslots] at hj
    by_cases hqp : q = p
    · subst hqp
      rcases heid with h0 | h0
      · exact absurd h0 hq
      · rw [h0]
        exact hidx j q hj hlive
    · rw [hoth q hqp] at hq ⊢
      exact hidx j q hj hq
  · intro h3 hin3
    rw [hcpu] at hin3 ⊢
    by_cases hh : h3 = h
    · simp [hh] at hin3
    · simp only [hh, if_false] at hin3 ⊢
      obtain ⟨k1, p1, e1, e2, e3⟩ := hH1 h3 hin3
      have hne : p1 ≠ p := by
        rintro rfl
        have := slots_index_unique s.reg ns (reg_shape_nodes N _ _ hsh) k1 k0 p1 e2 f2
        subst this
        exact hh (hH2 h3 h hin3 hin (e1.trans f1.symm))
      exact ⟨k1, p1, e1, by rw [hslots]; exact e2, by rw [hoth p1 hne]; exact e3⟩
  · intro a b ha hb hab
    rw [hcpu] at ha hb hab
    by_cases hah : a = h
    · simp [hah] at ha
    · by_cases hbh : b = h
      · simp [hbh] at hb
      · simp only [hah, hbh, if_false] at ha hb hab
        exact hH2 a b ha hb hab
theorem slots_one_inv (r : registry_t) (N k : Nat) (q : Nat × Nat)
    (hN : (r.link_mem 0).slab_num = N) (hk : (slots r [0])[k]? = some q) :
    k < N ∧ q = (0, k) := by
  have hlen : (slots r [0]).length = N := by simp [slots, node_slots_length, hN]
  have hkN : k < N := by
    have := (List.getElem?_eq_some_iff.mp hk).1
    omega
  rw [slots_one r N k hN hkN] at hk
  exact ⟨hkN, by cases hk; rfl⟩

theorem slots_two_inv (r : registry_t) (N k : Nat) (q : Nat × Nat)
    (hN : (r.link_mem 0).slab_num = N) (hN1 : (r.link_mem 1).slab_num = N)
    (hk : (slots r [0, 1])[k]? = some q) :
    (k < N ∧ q = (0, k)) ∨ (N ≤ k ∧ k < 2 * N ∧ q = (1, k - N)) := by
  have hlen : (slots r [0, 1]).length = 2 * N := by
    simp [slots, node_slots_length, hN, hN1]; omega
  have hkN : k < 2 * N := by
    have := (List.getElem?_eq_some_iff.mp hk).1
    omega
  by_cases hlt : k < N
  · rw [slots_two_head r N 1 k hN hlt] at hk
    exact Or.inl ⟨hlt, by cases hk; rfl⟩
  · have hke : k = N + (k - N) := by omega
    rw [hke, slots_two_second r N 1 (k - N) hN hN1 (by omega)] at hk
    exact Or.inr ⟨by omega, hkN, by cases hk; rfl⟩

theorem alloc_enclave_inv_found (K : consts) (mm : mm_oracle) (N : Nat)
    (r : registry_t) (ns : List Nat)
    (hsh : reg_shape N r ns) (hidx : eid_is_index r ns)
    (hex : ∃ (k : Nat) (p : Nat × Nat), (slots r ns)[k]? = some p ∧ (rd r p).state = INVALID)
    (o : Option (Nat × Nat)) (r1 : registry_t)
    (ha : alloc_enclave K mm r = some (o, r1)) :
    ∃ p, o = some p ∧ reg_shape N r1 ns ∧ eid_is_index r1 ns ∧
      (rd r1 p).state = FRESH ∧
      ∀ (j : Nat) (q : Nat × Nat), (slots r ns)[j]? = some q →
        (slots r1 ns)[j]? = some q ∧ (q ≠ p → rd r1 q = rd r q) ∧
          (q = p → (rd r q).state = INVALID) := by
  classical
  have hns := reg_shape_nodes N r ns hsh
  have hmin : ∃ (k : Nat) (p : Nat × Nat), (slots r ns)[k]? = some p ∧
      (rd r p).state = INVALID ∧
      (∀ j q1, j < k → (slots r ns)[j]? = some q1 → (rd r q1).state ≠ INVALID) := by
    obtain ⟨q, hq1, hq2⟩ := Nat.find_spec hex
    refine ⟨Nat.find hex, q, hq1, hq2, ?_⟩
    intro j q1 hj hq hs
    exact Nat.find_min hex hj ⟨q1, hq, hs⟩
  obtain ⟨k, p, hk, hinv, hlow⟩ := hmin
  rw [alloc_enclave_found K mm r ns k p hns hk hinv hlow] at ha
  simp only [Option.some.injEq, Prod.mk.injEq] at ha
  obtain ⟨ha1, ha2⟩ := ha
  subst ha1 ha2
  refine ⟨p, rfl, reg_shape_same_list _ _ _ _ (same_list_wr _ _ _) hsh, ?_, ?_, ?_⟩
  · intro j q hj hq
    rw [slots_wr] at hj
    by_cases hqp : q = p
    · subst hqp
      rw [rd_wr_same]
      have := slots_index_unique r ns hns j k q hj hk
      subst this
      rfl
    · rw [rd_wr_ne _ _ _ _ hqp] at hq ⊢
      exact hidx j q hj hq
  · rw [rd_wr_same]; rfl
  · intro j q hj
    refine ⟨by rw [slots_wr]; exact hj, fun hqp => rd_wr_ne _ _ _ _ hqp, fun hqp => ?_⟩
    rw [hqp]
    exact hinv

theorem alloc_enclave_inv_empty (K : consts) (mm : mm_oracle) (N : Nat)
    (hK : slabs_per_node K = N) (hN : 1 ≤ N) (r : registry_t)
    (h0 : r.link_mem_num = 0) (hh : r.enclave_metadata_head = none)
    (o : Option (Nat × Nat)) (r1 : registry_t)
    (ha : alloc_enclave K mm r = some (o, r1)) :
    (o = none ∧ r1 = r) ∨
    ∃ p, o = some p ∧ reg_shape N r1 [0] ∧ eid_is_index r1 [0] ∧
      (rd r1 p).state = FRESH := by
  unfold alloc_enclave at ha
  simp only [hh] at ha
  cases hi : mm.init with
  | none =>
    simp only [init_mem_link, hi, Option.some.injEq, Prod.mk.injEq] at ha
    exact Or.inl ⟨ha.1.symm, ha.2.symm⟩
  | some b =>
    by_cases hb : b = 0
    · simp only [init_mem_link, hi, hb, if_true, Option.some.injEq, Prod.mk.injEq] at ha
      exact Or.inl ⟨ha.1.symm, ha.2.symm⟩
    simp only [init_mem_link, hi, hb, if_false, h0] at ha
    obtain ⟨ri, hri⟩ : ∃ ri : registry_t, ri =
        { set_link_mem r 0
            { base := b
              mem_size := K.ENCLAVE_METADATA_REGION_SIZE
              slab_size := K.sizeof_enclave_t
              slab_num := ((K.ENCLAVE_METADATA_REGION_SIZE + 2 ^ 64 - K.sizeof_link_mem_t)
                % 2 ^ 64) / K.sizeof_enclave_t
              addr := size_up_align (b + K.sizeof_link_mem_t) K.sizeof_enclave_t
              next_link_mem := none
              slabs := fun _ => enclave_zero } with
          link_mem_num := 0 + 1
          enclave_metadata_head := some 0
          enclave_metadata_tail := some 0 } := ⟨_, rfl⟩
    rw [← hri] at ha
    have e1 : ri.link_mem_num = 1 := by rw [hri]
    have e2 : ri.enclave_metadata_head = some 0 := by rw [hri]
    have e3 : ri.enclave_metadata_tail = some 0 := by rw [hri]
    have e4 : (ri.link_mem 0).slab_num = N := by rw [hri, ← hK]; rfl
    have e5 : (ri.link_mem 0).next_link_mem = none := by rw [hri]; rfl
    have e6 : ∀ i, rd ri (0, i) = enclave_zero := by intro i; rw [hri]; rfl
    have hch : chain ri ri.link_mem_num ri.enclave_metadata_head = some [0] := by
      rw [e1, e2]; simp [chain, e5]
    have hfound := alloc_enclave_nodes_found ri ri.link_mem_num ri.enclave_metadata_head [0] 0
      (0, 0) 0 hch (slots_one ri N 0 e4 (by omega)) (by rw [e6]; rfl)
      (fun j q hj _ => by omega)
    have e1z : ri.link_mem_num = 0 + 1 := e1
    rw [e1z, e2] at hfound
    rw [hfound] at ha
    simp only [Option.some.injEq, Prod.mk.injEq] at ha
    obtain ⟨ha1, ha2⟩ := ha
    subst ha1 ha2
    refine Or.inr ⟨(0, 0), rfl, ?_, ?_, ?_⟩
    · right; left
      exact ⟨e1, e2, e3, by rw [wr_slab_num]; exact e4, by rw [wr_next]; exact e5, rfl⟩
    · intro j q hj hq
      rw [slots_wr] at hj
      obtain ⟨hjN, hqe⟩ := slots_one_inv ri N j q e4 hj
      subst hqe
      by_cases hj0 : j = 0
      · subst hj0
        rw [rd_wr_same]
        simp [enclave_fresh]
      · exfalso
        apply hq
        rw [rd_wr_ne _ _ _ _ (by simp; exact hj0), e6]
        rfl
    · rw [rd_wr_same]; rfl
theorem alloc_enclave_inv_grow (K : consts) (mm : mm_oracle) (N : Nat)
    (r : registry_t) (h1 : r.link_mem_num = 1) (hh : r.enclave_metadata_head = some 0)
    (ht : r.enclave_metadata_tail = some 0) (h4 : (r.link_mem 0).slab_num = N)
    (h5 : (r.link_mem 0).next_link_mem = none) (hidx : eid_is_index r [0])
    (hfull : ∀ q, q ∈ slots r [0] → (rd r q).state ≠ INVALID)
    (o : Option (Nat × Nat)) (r1 : registry_t)
    (ha : alloc_enclave K mm r = some (o, r1)) :
    (o = none ∧ r1 = r) ∨
    ∃ p, o = some p ∧ reg_shape N r1 [0, 1] ∧ eid_is_index r1 [0, 1] ∧
      (rd r1 p).state = FRESH ∧
      ∀ (j : Nat) (q : Nat × Nat), (slots r [0])[j]? = some q →
        (slots r1 [0, 1])[j]? = some q ∧ (q ≠ p → rd r1 q = rd r q) ∧
          (q = p → (rd r q).state = INVALID) := by
  have hns : nodes r = some [0] := by simp [nodes, h1, hh, chain, h5]
  have hlen : (slots r [0]).length = N := by simp [slots, node_slots_length, h4]
  have hB := alloc_enclave_nodes_none r r.link_mem_num r.enclave_metadata_head [0] 0 hns hfull
  unfold alloc_enclave at ha
  simp only [hh] at ha
  rw [hh] at hB
  rw [hB] at ha
  simp only at ha
  cases hm : mm.add with
  | none =>
    simp only [add_link_mem, ht, hm, Option.some.injEq, Prod.mk.injEq] at ha
    exact Or.inl ⟨ha.1.symm, ha.2.symm⟩
  | some nb =>
    by_cases hnb : nb = 0
    · simp only [add_link_mem, ht, hm, hnb, if_true, Option.some.injEq, Prod.mk.injEq] at ha
      exact Or.inl ⟨ha.1.symm, ha.2.symm⟩
    obtain ⟨r3, hr3⟩ : ∃ r3 : registry_t, r3 =
        { set_link_mem
            (set_link_mem r 0 { r.link_mem 0 with next_link_mem := some 1 })
            1
            { base := nb
              mem_size := (r.link_mem 0).mem_size
              slab_size := (r.link_mem 0).slab_size
              slab_num := (r.link_mem 0).slab_num
              addr := size_up_align (nb + K.sizeof_link_mem_t) (r.link_mem 0).slab_size
              next_link_mem := none
              slabs := fun _ => enclave_zero } with
          link_mem_num := 1 + 1 } := ⟨_, rfl⟩
    have hadd : add_link_mem K mm.add r = some (some 1, r3) := by
      rw [hr3]
      simp only [add_link_mem, ht, hm, h1, hnb, if_false]
    rw [hadd] at ha
    simp only [Option.some.injEq, Prod.mk.injEq] at ha
    obtain ⟨ha1, ha2⟩ := ha
    subst ha1 ha2
    have f1 : r3.link_mem_num = 2 := by rw [hr3]
    have f2 : r3.enclave_metadata_head = some 0 := by rw [hr3]; exact hh
    have f3 : r3.enclave_metadata_tail = some 0 := by rw [hr3]; exact ht
    have f4 : (r3.link_mem 0).slab_num = N := by rw [hr3]; simp [set_link_mem, h4]
    have f5 : (r3.link_mem 0).next_link_mem = some 1 := by rw [hr3]; simp [set_link_mem]
    have f6 : (r3.link_mem 1).slab_num = N := by rw [hr3]; simp [set_link_mem, h4]
    have f7 : (r3.link_mem 1).next_link_mem = none := by rw [hr3]; simp [set_link_mem]
    have f8 : ∀ i, rd r3 (0, i) = rd r (0, i) := by
      intro i; rw [hr3]; simp [rd, set_link_mem]
    have f9 : ∀ i, rd r3 (1, i) = enclave_zero := by
      intro i; rw [hr3]; simp [rd, set_link_mem]
    refine Or.inr ⟨(1, 0), rfl, ?_, ?_, ?_, ?_⟩
    · right; right
      exact ⟨f1, f2, f3, by rw [wr_slab_num]; exact f4, by rw [wr_next]; exact f5,
        by rw [wr_slab_num]; exact f6, by rw [wr_next]; exact f7, rfl⟩
    · intro j q hj hq
      rw [slots_wr] at hj
      rcases slots_two_inv r3 N j q f4 f6 hj with ⟨hj1, rfl⟩ | ⟨hj1, hj2, rfl⟩
      · rw [rd_wr_ne _ _ _ _ (by simp), f8] at hq ⊢
        exact hidx j (0, j) (slots_one r N j h4 hj1) hq
      · by_cases hj0 : j - N = 0
        · rw [hj0, rd_wr_same]
          simp only [enclave_fresh, hlen]
          have : j = N := by omega
          rw [this]
          simp
        · exfalso
          apply hq
          rw [rd_wr_ne _ _ _ _ (by simp; exact hj0), f9]
          rfl
    · rw [rd_wr_same]; rfl
    · intro j q hj
      obtain ⟨hjN, rfl⟩ := slots_one_inv r N j q h4 hj
      refine ⟨by rw [slots_wr]; exact slots_two_head r3 N 1 j f4 hjN, fun _ => ?_, fun hc => ?_⟩
      · rw [rd_wr_ne _ _ _ _ (by simp), f8]
      · simp at hc

theorem alloc_enclave_inv (K : consts) (mm : mm_oracle) (N : Nat)
    (hK : slabs_per_node K = N) (hN : 1 ≤ N) (r : registry_t) (ns : List Nat)
    (hsh : reg_shape N r ns) (hidx : eid_is_index r ns)
    (hg : r.link_mem_num ≤ 1 ∨
      ∃ (ns1 : List Nat) (k : Nat) (p : Nat × Nat), nodes r = some ns1 ∧
        (slots r ns1)[k]? = some p ∧ (rd r p).state = INVALID)
    (o : Option (Nat × Nat)) (r1 : registry_t)
    (ha : alloc_enclave K mm r = some (o, r1)) :
    (o = none ∧ r1 = r) ∨
    ∃ p ns1, o = some p ∧ reg_shape N r1 ns1 ∧ eid_is_index r1 ns1 ∧
      (rd r1 p).state = FRESH ∧
      ∀ (j : Nat) (q : Nat × Nat), (slots r ns)[j]? = some q →
        (slots r1 ns1)[j]? = some q ∧ (q ≠ p → rd r1 q = rd r q) ∧
          (q = p → (rd r q).state = INVALID) := by
  have hns := reg_shape_nodes N r ns hsh
  by_cases hex : ∃ (k : Nat) (p : Nat × Nat), (slots r ns)[k]? = some p ∧
      (rd r p).state = INVALID
  · obtain ⟨p, h1, h2, h3, h4, h5⟩ := alloc_enclave_inv_found K mm N r ns hsh hidx hex o r1 ha
    exact Or.inr ⟨p, ns, h1, h2, h3, h4, h5⟩
  · have hfull : ∀ q, q ∈ slots r ns → (rd r q).state ≠ INVALID := by
      intro q hq hs
      obtain ⟨k, hk⟩ := List.mem_iff_getElem?.mp hq
      exact hex ⟨k, q, hk, hs⟩
    have hnum : r.link_mem_num ≤ 1 := by
      rcases hg with hg | ⟨ns1, k, p, g1, g2, g3⟩
      · exact hg
      · rw [hns] at g1
        cases g1
        exact absurd ⟨k, p, g2, g3⟩ hex
    rcases hsh with ⟨a1, a2, rfl⟩ | ⟨a1, a2, a3, a4, a5, rfl⟩ | ⟨a1, _⟩
    · rcases alloc_enclave_inv_empty K mm N hK hN r a1 a2 o r1 ha with h | ⟨p, h1, h2, h3, h4⟩
      · exact Or.inl h
      · exact Or.inr ⟨p, [0], h1, h2, h3, h4, fun j q hj => by simp [slots] at hj⟩
    · rcases alloc_enclave_inv_grow K mm N r a1 a2 a3 a4 a5 hidx hfull o r1 ha with
        h | ⟨p, h1, h2, h3, h4, h5⟩
      · exact Or.inl h
      · exact Or.inr ⟨p, [0, 1], h1, h2, h3, h4, h5⟩
    · omega
theorem create_vma_loop_eid (K : consts) (pma : Nat) :
    ∀ (fuel vma : Nat) (st : Nat → vm_area_struct) (e : enclave_t)
      (st1 : Nat → vm_area_struct) (e1 : enclave_t),
      create_vma_loop K pma fuel vma st e = some (st1, e1) → e1.eid = e.eid := by
  intro fuel
  induction fuel with
  | zero =>
    intro vma st e st1 e1 h
    rw [create_vma_loop] at h
    by_cases hv : vma = 0
    · simp only [hv, if_true, Option.some.injEq, Prod.mk.injEq] at h
      rw [← h.2]
    · simp [hv] at h
  | succ fuel ih =>
    intro vma st e st1 e1 h
    rw [create_vma_loop] at h
    by_cases hv : vma = 0
    · simp only [hv, if_true, Option.some.injEq, Prod.mk.injEq] at h
      rw [← h.2]
    · simp only [hv, if_false] at h
      have := ih _ _ _ _ _ h
      rw [this]
      by_cases c1 : (st vma).va_start = K.ENCLAVE_DEFAULT_TEXT_BASE <;>
        by_cases c2 : (st vma).va_end = K.ENCLAVE_DEFAULT_STACK_BASE <;> simp [c1, c2]

theorem create_enclave_frame (K : consts) (O : create_oracle) (h : Nat)
    (a : enclave_sbi_param_t) (s : sm_state) (ret : Nat) (s1 : sm_state)
    (hc : create_enclave K O h a s = some (ret, s1)) :
    ∃ o r1, alloc_enclave K O.mm s.reg = some (o, r1) ∧ s1.cpus = s.cpus ∧
      ((o = none ∧ s1.reg = r1) ∨
        ∃ p, o = some p ∧ slot_frame r1 s1.reg p ∧ (rd s1.reg p).state = FRESH) := by
  unfold create_enclave at hc
  simp only [acquire_enclave_metadata_lock] at hc
  cases ha : alloc_enclave K O.mm s.reg with
  | none => simp [ha] at hc
  | some res =>
    obtain ⟨o, r1⟩ := res
    refine ⟨o, r1, rfl, ?_⟩
    cases o with
    | none =>
      simp only [ha, Option.some.injEq, Prod.mk.injEq] at hc
      rw [← hc.2]
      exact ⟨rfl, Or.inl ⟨rfl, rfl⟩⟩
    | some p =>
      simp only [ha] at hc
      split at hc
      · simp only [Option.some.injEq, Prod.mk.injEq] at hc
        rw [← hc.2]
        exact ⟨rfl, Or.inr ⟨p, rfl, slot_frame_wr r1 p _ rfl, by rw [rd_wr_same]⟩⟩
      · split at hc
        · simp at hc
        · rename_i vm3 e3 hv
          have hst := create_vma_loop_state K _ _ _ _ _ _ _ hv
          have hid := create_vma_loop_eid K _ _ _ _ _ _ _ hv
          split at hc
          · simp at hc
          · split at hc
            · simp only [Option.some.injEq, Prod.mk.injEq] at hc
              rw [← hc.2]
              refine ⟨rfl, Or.inr ⟨p, rfl, ?_, ?_⟩⟩
              · refine slot_frame_trans r1 (wr r1 p _) _ p (slot_frame_wr r1 p _ ?_)
                  (slot_frame_wr _ p _ ?_)
                · rfl
                · rw [rd_wr_same]
                  simp only [hid]
              · simp only [rd_wr_same]
                rw [hst]
            · simp only [Option.some.injEq, Prod.mk.injEq] at hc
              rw [← hc.2]
              refine ⟨rfl, Or.inr ⟨p, rfl, ?_, ?_⟩⟩
              · refine slot_frame_trans r1 (wr r1 p _) _ p (slot_frame_wr r1 p _ ?_)
                  (slot_frame_trans _ (wr (wr r1 p _) p _) _ p (slot_frame_wr _ p _ ?_)
                    (slot_frame_wr _ p _ ?_))
                · rfl
                · rw [rd_wr_same]
                  simp only [hid]
                · rw [rd_wr_same]
              · simp only [release_enclave_metadata_lock, rd_wr_same]
                rw [hst]
theorem int_of_uint_of_int (k : Nat) (hk : k < 2 ^ 31) :
    int_of_uint (uint_of_int (k : Int)) = (k : Int) := by
  have h1 : uint_of_int (k : Int) = k := by
    unfold uint_of_int
    omega
  rw [h1]
  unfold int_of_uint
  have h2 : k % 2 ^ 32 = k := Nat.mod_eq_of_lt (by omega)
  rw [h2, if_pos hk]

theorem world_inv_create (K : consts) (N : Nat) (hK : slabs_per_node K = N) (hN : 1 ≤ N)
    (O : create_oracle) (h : Nat) (a : enclave_sbi_param_t) (s : sm_state) (ns : List Nat)
    (hi : world_inv N s ns) (hg : admissible (.create O h a) s) (ret : Nat) (s1 : sm_state)
    (hc : create_enclave K O h a s = some (ret, s1)) : ∃ ns1, world_inv N s1 ns1 := by
  obtain ⟨o, r1, ha, hcpu, hcase⟩ := create_enclave_frame K O h a s ret s1 hc
  have hi0 := hi
  obtain ⟨hsh, hidx, hH1, hH2⟩ := hi
  rcases alloc_enclave_inv K O.mm N hK hN s.reg ns hsh hidx hg o r1 ha with
    ⟨ho, hr⟩ | ⟨p, ns1, ho, hsh1, hidx1, hfr, hstab⟩
  · rcases hcase with ⟨_, h2⟩ | ⟨p, hp, _⟩
    · exact ⟨ns, world_inv_noop N s s1 ns hi0 (by rw [h2, hr]) hcpu⟩
    · rw [ho] at hp
      simp at hp
  · rcases hcase with ⟨h1, _⟩ | ⟨p1, hp, hframe, hst⟩
    · rw [ho] at h1
      simp at h1
    · rw [ho] at hp
      cases hp
      have hslots := slots_same_list _ _ hframe.1 ns1
      refine ⟨ns1, reg_shape_same_list _ _ _ _ hframe.1 hsh1, ?_, ?_, ?_⟩
      · intro j q hj hq
        rw [hslots] at hj
        by_cases hqp : q = p
        · subst hqp
          rw [hframe.2.2]
          exact hidx1 j q hj (by rw [hfr]; decide)
        · rw [hframe.2.1 q hqp] at hq ⊢
          exact hidx1 j q hj hq
      · intro h3 hin
        rw [hcpu] at hin ⊢
        obtain ⟨k1, q1, e1, e2, e3⟩ := hH1 h3 hin
        obtain ⟨g1, g2, g3⟩ := hstab k1 q1 e2
        have hne : q1 ≠ p := by
          intro hq
          have := g3 hq
          rw [e3] at this
          exact absurd this (by decide)
        exact ⟨k1, q1, e1, by rw [hslots]; exact g1, by rw [hframe.2.1 q1 hne, g2 hne]; exact e3⟩
      · rw [hcpu]
        exact hH2
theorem step_inv (K : consts) (N : Nat) (hK : slabs_per_node K = N) (hN : 1 ≤ N)
    (hN2 : 2 * N ≤ 2 ^ 31) (e : event) (s s1 : sm_state) (ns : List Nat)
    (hi : world_inv N s ns) (ha : admissible e s) (hs : step K e s = some s1) :
    ∃ ns1, world_inv N s1 ns1 := by
  have hns := reg_shape_nodes N s.reg ns hi.1
  cases e with
  | create O h a =>
    simp only [step, Option.map_eq_some'] at hs
    obtain ⟨x, hx, rfl⟩ := hs
    exact world_inv_create K N hK hN O h a s ns hi ha x.1 x.2 hx
  | run P h regs eid =>
    obtain ⟨c, hc, heff⟩ := run_enclave_effect K P h regs eid s ns hns
    simp only [step, hc, Option.map_some', Option.some.injEq] at hs
    subst hs
    rcases heff with ⟨h1, h2⟩ | ⟨p, hp, hst, hen⟩
    · exact ⟨ns, world_inv_noop N s _ ns hi h1 h2⟩
    · exact ⟨ns, world_inv_enters N s _ ns h _ p hi hp (by rw [hst]; decide)
        (by rw [hst]; decide) hen⟩
  | stop h regs eid =>
    obtain ⟨c, hc, heff⟩ := stop_enclave_effect h regs eid s ns hns
    simp only [step, hc, Option.map_some', Option.some.injEq] at hs
    subst hs
    rcases heff with ⟨h1, h2⟩ | ⟨p, hp, hst, hen⟩
    · exact ⟨ns, world_inv_noop N s _ ns hi h1 h2⟩
    · have hlive : (rd s.reg p).state ≠ INVALID := by
        intro h0
        rw [h0] at hst
        exact absurd hst (by decide)
      refine ⟨ns, world_inv_retags N s _ ns _ p hi hp hlive ?_ hen⟩
      exact ha p (by rw [get_enclave_eq s.reg _ ns hns, hp])
  | resume_from_stop h regs eid =>
    obtain ⟨c, hc, heff⟩ := resume_from_stop_effect h regs eid s ns hns
    simp only [step, hc, Option.map_some', Option.some.injEq] at hs
    subst hs
    rcases heff with ⟨h1, h2⟩ | ⟨p, hp, hst, hen⟩
    · exact ⟨ns, world_inv_noop N s _ ns hi h1 h2⟩
    · exact ⟨ns, world_inv_retags N s _ ns _ p hi hp (by rw [hst]; decide)
        (world_inv_idle N s ns hi _ p hp (by rw [hst]; decide) (by rw [hst]; decide)) hen⟩
  | resume P h regs eid =>
    obtain ⟨c, hc, heff⟩ := resume_enclave_effect K P h regs eid s ns hns
    simp only [step, hc, Option.map_some', Option.some.injEq] at hs
    subst hs
    rcases heff with ⟨h1, h2⟩ | ⟨p, hp, hst, hen⟩
    · exact ⟨ns, world_inv_noop N s _ ns hi h1 h2⟩
    · exact ⟨ns, world_inv_enters N s _ ns h _ p hi hp (by rw [hst]; decide)
        (by rw [hst]; decide) hen⟩
  | resume_from_ocall P h regs eid =>
    obtain ⟨c, hc, heff⟩ := resume_from_ocall_effect K P h regs eid s ns hns
    simp only [step, hc, Option.map_some', Option.some.injEq] at hs
    subst hs
    rcases heff with ⟨h1, h2⟩ | ⟨p, k, hp, hst, hen⟩
    · exact ⟨ns, world_inv_noop N s _ ns hi h1 h2⟩
    · exact ⟨ns, world_inv_enters N s _ ns h k p hi hp (by rw [hst]; decide)
        (by rw [hst]; decide) hen⟩
  | sys_write P h regs =>
    obtain ⟨c, hc, heff⟩ := enclave_sys_write_effect K P h regs s ns hns
    simp only [step, hc, Option.map_some', Option.some.injEq] at hs
    subst hs
    rcases heff with ⟨h1, h2⟩ | ⟨p, hin, hp, hst, hen⟩
    · exact ⟨ns, world_inv_noop N s _ ns hi h1 h2⟩
    · exact ⟨ns, world_inv_leaves N hN2 s _ ns h p hi hin hp hen⟩
  | timer_irq h regs =>
    obtain ⟨c, hc, heff⟩ := do_timer_irq_effect K h regs s ns hns
    simp only [step, hc, Option.map_some', Option.some.injEq] at hs
    subst hs
    rcases heff with ⟨h1, h2⟩ | ⟨p, hp, hen⟩
    · exact ⟨ns, world_inv_noop N s _ ns hi h1 h2⟩
    · have hin : (s.cpus h).in_enclave ≠ 0 := ha
      obtain ⟨k0, p0, f1, f2, _⟩ := hi.2.2.1 h hin
      have hk0 : k0 < 2 ^ 31 := by
        have := (List.getElem?_eq_some_iff.mp f2).1
        have := reg_shape_length N _ _ hi.1
        omega
      rw [f1, int_of_uint_of_int k0 hk0, ← f1] at hp
      exact ⟨ns, world_inv_leaves N hN2 s _ ns h p hi hin hp hen⟩
  | exit P h regs =>
    obtain ⟨c, hc, heff⟩ := exit_enclave_effect P h regs s ns hns
    simp only [step, hc, Option.map_some', Option.some.injEq] at hs
    subst hs
    rcases heff with ⟨h1, h2⟩ | ⟨p, hin, hp, hen⟩
    · exact ⟨ns, world_inv_noop N s _ ns hi h1 h2⟩
    · exact ⟨ns, world_inv_leaves N hN2 s _ ns h p hi hin hp hen⟩

theorem run_events_inv (K : consts) (N : Nat) (hK : slabs_per_node K = N) (hN : 1 ≤ N)
    (hN2 : 2 * N ≤ 2 ^ 31) :
    ∀ (es : List event) (s t : sm_state) (ns : List Nat), world_inv N s ns →
      admissible_trace K es s → run_events K es s = some t → ∃ ns1, world_inv N t ns1 := by
  intro es
  induction es with
  | nil =>
    intro s t ns hi _ hr
    simp only [run_events, Option.some.injEq] at hr
    subst hr
    exact ⟨ns, hi⟩
  | cons e es ih =>
    intro s t ns hi ha hr
    obtain ⟨ha1, ha2⟩ := ha
    rw [run_events] at hr
    cases hs : step K e s with
    | none => simp [hs] at hr
    | some s1 =>
      simp only [hs] at hr
      obtain ⟨ns1, hi1⟩ := step_inv K N hK hN hN2 e s s1 ns hi ha1 hs
      exact ih s1 t ns1 hi1 (ha2 s1 hs) hr

theorem world_inv_boot (N : Nat) (s : sm_state) (hb : boot s) : world_inv N s [] := by
  obtain ⟨h1, h2, h3⟩ := hb
  refine ⟨Or.inl ⟨h1, h2, rfl⟩, ?_, ?_, ?_⟩
  · intro k p hk
    simp [slots] at hk
  · intro h hin
    exact absurd (h3 h) hin
  · intro a _ ha
    exact absurd (h3 a) ha

/-- C20, amended: in every state reached from the boot state by calls of the entry points
on any harts, where `stop_enclave` is applied only to a descriptor that no hart is
executing, the timer interrupt is taken only on a hart that is in the enclave world, and
`create_enclave` does not make the registry list grow a second time (with at least one and
at most `2^30` slabs per node): the list of descriptors ends, and whenever a descriptor
of the list is `FRESH`, `RUNNABLE`, `STOPPED` or `OCALLING`, no hart is recorded as
executing it (`in_enclave` set with the descriptor's `eid`). -/
theorem no_hart_in_idle_enclave (K : consts) (hN : 1 ≤ slabs_per_node K)
    (hN2 : 2 * slabs_per_node K ≤ 2 ^ 31) (es : List event) (s0 s : sm_state)
    (hb : boot s0) (ha : admissible_trace K es s0) (hr : run_events K es s0 = some s) :
    ∃ ns, nodes s.reg = some ns ∧
      ∀ (k : Nat) (p : Nat × Nat), (slots s.reg ns)[k]? = some p →
        ((rd s.reg p).state = FRESH ∨ (rd s.reg p).state = RUNNABLE ∨
          (rd s.reg p).state = STOPPED ∨ (rd s.reg p).state = OCALLING) →
        ∀ h, ¬ executing s h p := by
  obtain ⟨ns, hi⟩ := run_events_inv K _ rfl hN hN2 es s0 s [] (world_inv_boot _ s0 hb) ha hr
  refine ⟨ns, reg_shape_nodes _ _ _ hi.1, ?_⟩
  intro k p hk hst h
  refine world_inv_idle _ s ns hi k p hk ?_ ?_ h
  · rcases hst with h1 | h1 | h1 | h1 <;> rw [h1] <;> decide
  · rcases hst with h1 | h1 | h1 | h1 <;> rw [h1] <;> decide
theorem some_getD_of_isSome (o : Option sm_state) (d : sm_state) (h : o.isSome = true) :
    o = some (o.getD d) := by
  cases o with
  | none => simp at h
  | some x => rfl

/-- C20, as stated, fails: the host creates enclave 0 and runs it on hart 0, then calls
`stop_enclave(regs, 0)` from hart 1.  In the state reached the descriptor of enclave 0 is
in the list with state `STOPPED`, while the record of hart 0 still has `in_enclave = 1`
with the descriptor's eid. -/
theorem stop_leaves_hart_in_enclave :
    ∃ s, run_events consts_two trace_stop_live sm_boot = some s ∧
      get_enclave s.reg 0 = some (some (0, 0)) ∧
      (rd s.reg (0, 0)).state = STOPPED ∧ executing s 0 (0, 0) :=
  ⟨sm_after trace_stop_live, some_getD_of_isSome _ _ (by decide), by decide, by decide,
    by decide, by decide⟩

/-- C20, amended, on the run that creates enclave 0, runs it on hart 0, preempts it by the
timer, resumes it and lets it make the `sys_write` OCALL: the descriptor ends `OCALLING`
and no hart is recorded as executing it. -/
theorem no_hart_in_idle_enclave_witness :
    boot sm_boot ∧ admissible_trace consts_two trace_preempt sm_boot ∧
      run_events consts_two trace_preempt sm_boot = some (sm_after trace_preempt) ∧
      (rd (sm_after trace_preempt).reg (0, 0)).state = OCALLING ∧
      ∃ ns, nodes (sm_after trace_preempt).reg = some ns ∧
        ∀ (k : Nat) (p : Nat × Nat), (slots (sm_after trace_preempt).reg ns)[k]? = some p →
          ((rd (sm_after trace_preempt).reg p).state = FRESH ∨
            (rd (sm_after trace_preempt).reg p).state = RUNNABLE ∨
            (rd (sm_after trace_preempt).reg p).state = STOPPED ∨
            (rd (sm_after trace_preempt).reg p).state = OCALLING) →
          ∀ h, ¬ executing (sm_after trace_preempt) h p := by
  have hb : boot sm_boot := ⟨rfl, rfl, fun _ => rfl⟩
  have ha : admissible_trace consts_two trace_preempt sm_boot := by
    refine ⟨Or.inl (by decide), fun s1 h1 => ⟨trivial, fun s2 h2 => ⟨?_, fun s3 _ =>
      ⟨trivial, fun s4 _ => ⟨trivial, fun _ _ => trivial⟩⟩⟩⟩⟩
    have e1 : s1 = (step consts_two (.create oracle_example 0 args_example) sm_boot).getD
        sm_boot := by rw [h1]; rfl
    have e2 : s2 = (step consts_two (.run platform_ok 0 (fun _ => 0) 0) s1).getD sm_boot := by
      rw [h2]; rfl
    show (s2.cpus 0).in_enclave ≠ 0
    rw [e2, e1]
    decide
  have hr : run_events consts_two trace_preempt sm_boot = some (sm_after trace_preempt) :=
    some_getD_of_isSome _ _ (by decide)
  exact ⟨hb, ha, hr, by decide,
    no_hart_in_idle_enclave consts_two (by decide) (by decide) trace_preempt sm_boot _ hb ha hr⟩

/-- Why the timer interrupt is restricted to harts in the enclave world: `do_timer_irq` on
hart 1, which is not in the enclave world, preempts enclave 0 that hart 0 executes; the
descriptor becomes `RUNNABLE` while the record of hart 0 still carries it. -/
theorem timer_on_host_hart_breaks_exclusion :
    ∃ s, run_events consts_two trace_timer_host sm_boot = some s ∧
      (sm_boot.cpus 1).in_enclave = 0 ∧
      get_enclave s.reg 0 = some (some (0, 0)) ∧
      (rd s.reg (0, 0)).state = RUNNABLE ∧ executing s 0 (0, 0) :=
  ⟨sm_after trace_timer_host, some_getD_of_isSome _ _ (by decide), by decide, by decide,
    by decide, by decide, by decide⟩

/-- Why a second growth of the list is excluded: with two slabs per node, the fifth
creation gives the descriptor at index 2 the eid 4, `run_enclave(2)` records eid 4 for
hart 0, and the seventh creation unlinks that node and puts a `FRESH` descriptor with the
same eid 4 at index 2 of the list. -/
theorem second_growth_breaks_exclusion :
    ∃ s, run_events consts_two trace_regrow sm_boot = some s ∧
      get_enclave s.reg 2 = some (some (3, 0)) ∧
      (rd s.reg (3, 0)).state = FRESH ∧ (rd s.reg (3, 0)).eid = 4 ∧
      (rd s.reg (2, 0)).state = RUNNING ∧ (rd s.reg (2, 0)).eid = 4 ∧
      executing s 0 (3, 0) :=
  ⟨sm_after trace_regrow, some_getD_of_isSome _ _ (by decide), by decide, by decide,
    by decide, by decide, by decide, by decide, by decide⟩

/-! ## The free-page pool -/

theorem create_free_pages_pushes (lo : Nat) (hlo : 4096 ≤ lo) :
    ∀ (m fuel : Nat) (pg : Nat → page_t) (fp num : Nat), m < fuel →
      lo + 4096 * m < 2 ^ 64 →
      ∃ pg1, create_free_pages lo fuel (lo + 4096 * m) pg fp num = some (pg1, lo, num + m + 1) ∧
        (∀ i, i ≤ m → pg1 (lo + 4096 * i)
          = { paddr := lo + 4096 * i, next := if i = m then fp else lo + 4096 * (i + 1) }) ∧
        (∀ x, (∀ i, i ≤ m → x ≠ lo + 4096 * i) → pg1 x = pg x) := by
  intro m
  induction m with
  | zero =>
    intro fuel pg fp num hf h64
    obtain ⟨f, rfl⟩ : ∃ f, fuel = f + 1 := ⟨fuel - 1, by omega⟩
    have hnext : (lo + 2 ^ 64 - RISCV_PGSIZE) % 2 ^ 64 = lo - 4096 := by
      simp only [RISCV_PGSIZE]
      omega
    have hstop : ¬ lo - 4096 ≥ lo := by omega
    refine ⟨fun a => if a = lo then { paddr := lo, next := fp } else pg a, ?_, ?_, ?_⟩
    · rw [create_free_pages]
      simp only [Nat.mul_zero, Nat.add_zero, ge_iff_le, le_refl, if_true, hnext]
      cases f with
      | zero => rw [create_free_pages, if_neg hstop]
      | succ f => rw [create_free_pages, if_neg hstop]
    · intro i hi
      have : i = 0 := by omega
      subst this
      simp
    · intro x hx
      have := hx 0 (le_refl _)
      simp only [Nat.mul_zero, Nat.add_zero] at this
      simp [this]
  | succ m ih =>
    intro fuel pg fp num hf h64
    obtain ⟨f, rfl⟩ : ∃ f, fuel = f + 1 := ⟨fuel - 1, by omega⟩
    have hnext : (lo + 4096 * (m + 1) + 2 ^ 64 - RISCV_PGSIZE) % 2 ^ 64 = lo + 4096 * m := by
      simp only [RISCV_PGSIZE]
      omega
    have hge : lo + 4096 * (m + 1) ≥ lo := by omega
    obtain ⟨pg1, h1, h2, h3⟩ := ih f
      (fun a => if a = lo + 4096 * (m + 1)
        then { paddr := lo + 4096 * (m + 1), next := fp } else pg a)
      (lo + 4096 * (m + 1)) (num + 1) (by omega) (by omega)
    refine ⟨pg1, ?_, ?_, ?_⟩
    · rw [create_free_pages, if_pos hge, hnext, h1]
      simp only [Option.some.injEq, Prod.mk.injEq, true_and]
      omega
    · intro i hi
      by_cases him : i = m + 1
      · subst him
        rw [h3 _ (fun j hj => by omega)]
        simp
      · have hle : i ≤ m := by omega
        rw [h2 i hle]
        by_cases hm : i = m
        · subst hm
          simp
        · simp [hm, him]
    · intro x hx
      rw [h3 x (fun i hi => hx i (by omega))]
      have := hx (m + 1) (le_refl _)
      simp [this]

theorem page_list_pushes (lo m : Nat) (hlo : 4096 ≤ lo) (pg1 : Nat → page_t)
    (h2 : ∀ i, i ≤ m → pg1 (lo + 4096 * i)
      = { paddr := lo + 4096 * i, next := if i = m then 0 else lo + 4096 * (i + 1) }) :
    ∀ k, k ≤ m → page_list pg1 (k + 1) (lo + 4096 * (m - k))
      = some ((List.range (k + 1)).map (fun i => lo + 4096 * (m - k + i))) := by
  intro k
  induction k with
  | zero =>
    intro _
    have hne : ¬ lo + 4096 * (m - 0) = 0 := by omega
    rw [page_list, if_neg hne, h2 (m - 0) (by omega)]
    simp [page_list, List.range_succ]
  | succ k ih =>
    intro hk
    have hne : ¬ lo + 4096 * (m - (k + 1)) = 0 := by omega
    have hnm : ¬ m - (k + 1) = m := by omega
    have hnext : lo + 4096 * (m - (k + 1) + 1) = lo + 4096 * (m - k) := by
      congr 2
      omega
    rw [page_list, if_neg hne, h2 (m - (k + 1)) (by omega)]
    simp only [hnm, if_false, hnext]
    rw [ih (by omega)]
    simp only [Option.some.injEq]
    rw [List.range_succ_eq_map (k + 1), List.map_cons, List.map_map]
    congr 1
    apply List.map_congr_left
    intro i _
    simp only [Function.comp, Nat.add_zero]
    congr 2
    omega

/-- The carving loop of `create_enclave` outside its defects: when `free_mem` is page
aligned, not 0 and below `paddr + size`, and the region ends on a page boundary below
`2^64`, the loop ends with the list head at `free_mem` and
`free_pages_num = (paddr + size - free_mem) / PAGE_SIZE`; the list holds exactly the
addresses `free_mem + i * PAGE_SIZE` below `paddr + size`, lowest first, every page
record holds its own address, and no other page record is written. -/
theorem create_free_pages_contract (a : enclave_sbi_param_t) (pg : Nat → page_t)
    (hlt : a.free_mem < a.paddr + a.size) (hal : a.free_mem % RISCV_PGSIZE = 0)
    (hend : (a.paddr + a.size) % RISCV_PGSIZE = 0) (h64 : a.paddr + a.size < 2 ^ 64)
    (h0 : a.free_mem ≠ 0) :
    ∃ pg1, create_free_pages a.free_mem (2 ^ 52 + 1)
          ((a.paddr + a.size + 2 ^ 64 - RISCV_PGSIZE) % 2 ^ 64) pg 0 0
        = some (pg1, a.free_mem, (a.paddr + a.size - a.free_mem) / RISCV_PGSIZE) ∧
      page_list pg1 ((a.paddr + a.size - a.free_mem) / RISCV_PGSIZE) a.free_mem
        = some ((List.range ((a.paddr + a.size - a.free_mem) / RISCV_PGSIZE)).map
            (fun i => a.free_mem + RISCV_PGSIZE * i)) ∧
      (∀ i, i < (a.paddr + a.size - a.free_mem) / RISCV_PGSIZE →
        (pg1 (a.free_mem + RISCV_PGSIZE * i)).paddr = a.free_mem + RISCV_PGSIZE * i) ∧
      (∀ x, (∀ i, i < (a.paddr + a.size - a.free_mem) / RISCV_PGSIZE →
        x ≠ a.free_mem + RISCV_PGSIZE * i) → pg1 x = pg x) := by
  simp only [RISCV_PGSIZE] at hal hend ⊢
  obtain ⟨m, hm⟩ : ∃ m, (a.paddr + a.size - a.free_mem) / 4096 = m + 1 :=
    ⟨(a.paddr + a.size - a.free_mem) / 4096 - 1, by omega⟩
  have htop : (a.paddr + a.size + 2 ^ 64 - 4096) % 2 ^ 64 = a.free_mem + 4096 * m := by omega
  obtain ⟨pg1, h1, h2, h3⟩ := create_free_pages_pushes a.free_mem (by omega) m (2 ^ 52 + 1) pg 0 0
    (by omega) (by omega)
  refine ⟨pg1, ?_, ?_, ?_, ?_⟩
  · rw [htop, h1, hm]
    simp
  · have := page_list_pushes a.free_mem m (by omega) pg1 h2 m (le_refl _)
    simp only [Nat.sub_self, Nat.mul_zero, Nat.add_zero, Nat.zero_add] at this
    rw [hm, this]
  · intro i hi
    rw [h2 i (by omega)]
  · intro x hx
    exact h3 x (fun i hi => hx i (by omega))

/-- C21 (defects of the carving loop): the arguments `paddr = 0x80000000`,
`size = 0x100800`, `free_mem = 0x800FC000` pass the `free_mem` validation, but the loop
starts at `paddr + size - PAGE_SIZE = 0x800FF800` and steps down by pages, so the list it
leaves is `0x800FC800, 0x800FD800, 0x800FE800, 0x800FF800`: its head is not `free_mem`,
`free_mem` is not in the list and no page is page aligned, while `free_pages_num` is 4;
`create_enclave` returns 0 with that list in the descriptor.  With `paddr = 0` and `free_mem = 0`, which pass the
validation too, the loop never ends. -/
theorem carving_loop_misses_free_mem :
    ¬ (args_unaligned.free_mem < args_unaligned.paddr ∨
        args_unaligned.free_mem ≥ args_unaligned.paddr + args_unaligned.size ∨
        args_unaligned.free_mem % RISCV_PGSIZE ≠ 0) ∧
      (create_free_pages args_unaligned.free_mem (2 ^ 52 + 1)
          ((args_unaligned.paddr + args_unaligned.size + 2 ^ 64 - RISCV_PGSIZE) % 2 ^ 64)
          sm_boot.page 0 0).map
        (fun r => (r.2.1, r.2.2, (r.1 r.2.1).paddr, r.2.1 % RISCV_PGSIZE))
        = some (0x800FC800, 4, 0x800FC800, 0x800) ∧
      ((create_free_pages args_unaligned.free_mem (2 ^ 52 + 1)
          ((args_unaligned.paddr + args_unaligned.size + 2 ^ 64 - RISCV_PGSIZE) % 2 ^ 64)
          sm_boot.page 0 0).bind (fun r => page_list r.1 8 r.2.1))
        = some [0x800FC800, 0x800FD800, 0x800FE800, 0x800FF800] ∧
      (create_enclave consts_two oracle_example 0 args_unaligned sm_boot).map
        (fun x => (x.1, (rd x.2.reg (0, 0)).free_pages, (rd x.2.reg (0, 0)).free_pages_num))
        = some (0, 0x800FC800, 4) ∧
      ¬ (args_zero.free_mem < args_zero.paddr ∨
        args_zero.free_mem ≥ args_zero.paddr + args_zero.size ∨
        args_zero.free_mem % RISCV_PGSIZE ≠ 0) ∧
      (∀ (fuel free_mem : Nat) (pg : Nat → page_t) (free_pages free_pages_num : Nat),
        create_free_pages args_zero.free_mem fuel free_mem pg free_pages free_pages_num
          = none) := by
  refine ⟨by decide, by decide, by decide, by decide, by decide, create_free_pages_zero⟩

/-- The carving loop on the creation arguments of the first scenario: 128 pages from
`0x80080000`, head at `free_mem`. -/
theorem create_free_pages_contract_example :
    ∃ pg1, create_free_pages args_example.free_mem (2 ^ 52 + 1)
          ((args_example.paddr + args_example.size + 2 ^ 64 - RISCV_PGSIZE) % 2 ^ 64)
          sm_boot.page 0 0
        = some (pg1, 0x80080000, 128) ∧
      page_list pg1 128 0x80080000
        = some ((List.range 128).map (fun i => 0x80080000 + RISCV_PGSIZE * i)) := by
  obtain ⟨pg1, h1, h2, _⟩ := create_free_pages_contract args_example sm_boot.page
    (by decide) (by decide) (by decide) (by decide) (by decide)
  exact ⟨pg1, h1, h2⟩

/-! ## Slab bounds -/

theorem size_up_align_bounds (x a : Nat) (ha : 0 < a) :
    x ≤ size_up_align x a ∧ size_up_align x a < x + a ∧ size_up_align x a % a = 0 := by
  unfold size_up_align
  have h1 := Nat.div_add_mod (x + a - 1) a
  have h2 := Nat.mod_lt (x + a - 1) ha
  rw [Nat.mul_comm] at h1
  refine ⟨by omega, by omega, Nat.mul_mod_left _ _⟩

/-- The node that `init_mem_link` builds at a base `b` other than `NULL`, for `mem_size` at
least a header and one slab: the slab array starts at or after the end of the header, less than one slab
after it, and its `slab_num` slabs end inside the region exactly when the padding in front
of the array is at most the remainder `(mem_size - sizeof(header)) mod slab_size`. -/
theorem init_mem_link_slab_bounds (K : consts) (b mem_size slab_size : Nat) (r : registry_t)
    (hb : b ≠ 0) (hs : 0 < slab_size) (hm : K.sizeof_link_mem_t + slab_size ≤ mem_size)
    (h64 : mem_size < 2 ^ 64) :
    ∃ l, ((init_mem_link K (some b) mem_size slab_size r).2.link_mem r.link_mem_num) = l ∧
      l.base = b ∧ l.mem_size = mem_size ∧ l.slab_size = slab_size ∧
      l.slab_num = (mem_size - K.sizeof_link_mem_t) / slab_size ∧ 1 ≤ l.slab_num ∧
      b + K.sizeof_link_mem_t ≤ l.addr ∧ l.addr < b + K.sizeof_link_mem_t + slab_size ∧
      (l.addr + l.slab_num * l.slab_size ≤ l.base + l.mem_size ↔
        l.addr - (b + K.sizeof_link_mem_t) ≤ (mem_size - K.sizeof_link_mem_t) % slab_size) := by
  obtain ⟨g1, g2, _⟩ := size_up_align_bounds (b + K.sizeof_link_mem_t) slab_size hs
  have hsub : (mem_size + 2 ^ 64 - K.sizeof_link_mem_t) % 2 ^ 64
      = mem_size - K.sizeof_link_mem_t := by omega
  have hd := Nat.div_add_mod (mem_size - K.sizeof_link_mem_t) slab_size
  rw [Nat.mul_comm] at hd
  have hpos : 1 ≤ (mem_size - K.sizeof_link_mem_t) / slab_size :=
    (Nat.one_le_div_iff hs).mpr (by omega)
  refine ⟨_, rfl, ?_⟩
  simp only [init_mem_link, hb, if_false, set_link_mem, if_true, hsub]
  refine ⟨trivial, trivial, trivial, trivial, hpos, g1, g2, ?_⟩
  omega

/-- The node that `add_link_mem` builds at a base `nb` other than `NULL` behind the tail
`t` mirrors the tail's `mem_size`, `slab_size` and `slab_num`; its slab array starts at or after the end of
its header, and its slabs end inside the region exactly when padding, header and slabs
together are at most `mem_size`. -/
theorem add_link_mem_slab_bounds (K : consts) (nb t : Nat) (r : registry_t)
    (ht : r.enclave_metadata_tail = some t) (hnb : nb ≠ 0)
    (hs : 0 < (r.link_mem t).slab_size) :
    ∃ r1 l, add_link_mem K (some nb) r = some (some r.link_mem_num, r1) ∧
      r1.link_mem r.link_mem_num = l ∧
      l.base = nb ∧ l.mem_size = (r.link_mem t).mem_size ∧
      l.slab_size = (r.link_mem t).slab_size ∧ l.slab_num = (r.link_mem t).slab_num ∧
      nb + K.sizeof_link_mem_t ≤ l.addr ∧
      (l.addr + l.slab_num * l.slab_size ≤ l.base + l.mem_size ↔
        (l.addr - (nb + K.sizeof_link_mem_t)) + K.sizeof_link_mem_t
          + (r.link_mem t).slab_num * (r.link_mem t).slab_size ≤ (r.link_mem t).mem_size) := by
  obtain ⟨g1, _, _⟩ := size_up_align_bounds (nb + K.sizeof_link_mem_t) (r.link_mem t).slab_size hs
  refine ⟨{ set_link_mem
        (set_link_mem r t { r.link_mem t with next_link_mem := some r.link_mem_num })
        r.link_mem_num
        { base := nb
          mem_size := (r.link_mem t).mem_size
          slab_size := (r.link_mem t).slab_size
          slab_num := (r.link_mem t).slab_num
          addr := size_up_align (nb + K.sizeof_link_mem_t) (r.link_mem t).slab_size
          next_link_mem := none
          slabs := fun _ => enclave_zero } with
      link_mem_num := r.link_mem_num + 1 }, _,
    by simp only [add_link_mem, ht, hnb, if_false], rfl, ?_⟩
  simp only [set_link_mem, if_true]
  refine ⟨trivial, trivial, trivial, trivial, g1, ?_⟩
  omega

/-- C22 (defect: `slab_num` ignores the padding in front of the slab array): with a
40-byte header, `mem_size = 240` and `slab_size = 100` (so `mem_size` is at least a header
and one slab), `init_mem_link` on a region at base 1000 sets `slab_num = 2` and `addr = 1100`,
so slab 1 ends at 1300, beyond the end 1240 of the region.  The same happens in the head
node that `alloc_enclave` builds at base 4096 (slabs end at 4400, region at 4336) and in
the node that `add_link_mem` builds at base 8192 (slabs end at 8500, region at 8432); the
descriptor with eid 1, which `alloc_enclave` hands out and `get_enclave` finds, is slab 1
of the head node. -/
theorem slabs_exceed_region :
    consts_two.sizeof_link_mem_t + 100 ≤ 240 ∧
      ((init_mem_link consts_two (some 1000) 240 100 registry_empty).2.link_mem 0).base = 1000 ∧
      ((init_mem_link consts_two (some 1000) 240 100 registry_empty).2.link_mem 0).mem_size = 240 ∧
      ((init_mem_link consts_two (some 1000) 240 100 registry_empty).2.link_mem 0).slab_num = 2 ∧
      ((init_mem_link consts_two (some 1000) 240 100 registry_empty).2.link_mem 0).addr = 1100 ∧
      ¬ (((init_mem_link consts_two (some 1000) 240 100 registry_empty).2.link_mem 0).addr
          + ((init_mem_link consts_two (some 1000) 240 100 registry_empty).2.link_mem 0).slab_num
            * ((init_mem_link consts_two (some 1000) 240 100 registry_empty).2.link_mem 0).slab_size
        ≤ ((init_mem_link consts_two (some 1000) 240 100 registry_empty).2.link_mem 0).base
          + ((init_mem_link consts_two (some 1000) 240 100 registry_empty).2.link_mem 0).mem_size) ∧
      (((reg_after 2).link_mem 0).base, ((reg_after 2).link_mem 0).mem_size,
        ((reg_after 2).link_mem 0).slab_size, ((reg_after 2).link_mem 0).slab_num,
        ((reg_after 2).link_mem 0).addr) = (4096, 240, 100, 2, 4200) ∧
      get_enclave (reg_after 2) 1 = some (some (0, 1)) ∧
      (rd (reg_after 2) (0, 1)).state = FRESH ∧
      ¬ (((reg_after 2).link_mem 0).addr + 2 * ((reg_after 2).link_mem 0).slab_size
        ≤ ((reg_after 2).link_mem 0).base + ((reg_after 2).link_mem 0).mem_size) ∧
      (((reg_after 3).link_mem 1).base, ((reg_after 3).link_mem 1).mem_size,
        ((reg_after 3).link_mem 1).slab_size, ((reg_after 3).link_mem 1).slab_num,
        ((reg_after 3).link_mem 1).addr) = (8192, 240, 100, 2, 8300) ∧
      ¬ (((reg_after 3).link_mem 1).addr
          + ((reg_after 3).link_mem 1).slab_num * ((reg_after 3).link_mem 1).slab_size
        ≤ ((reg_after 3).link_mem 1).base + ((reg_after 3).link_mem 1).mem_size) := by
  decide

end Penglai
